import Mathlib

/-!
# Schema-migration engine of oxygen-go: a shallow embedding

Embedding of `services/sqlstore/migrator/migrator.go`.

* Go errors are values of `GoError` (an error string, or a `%w` wrapper around another error).
* Go maps keyed by strings are association lists (`GoMap`).
* The database engine, the sessions it hands out, the dialect and the clock are external
  collaborators: they are a record of operations `Env ω` over an arbitrary engine state `ω`.
* Every call made to an external collaborator is recorded, with its result, in `World.trace`.
-/

set_option autoImplicit false

namespace Oxygen

/-! ## Go errors -/

/-- Go error values: `errorString` is what `fmt.Errorf` without `%w` (or `errors.New`) builds,
`wrapError` is what `fmt.Errorf` with one `%w` verb builds (the formatted message and the
wrapped error). -/
inductive GoError where
  | errorString (msg : String)
  | wrapError (msg : String) (err : GoError)
  deriving DecidableEq, Repr

namespace GoError

/-- The method `Error()`. -/
def Error : GoError → String
  | errorString msg => msg
  | wrapError msg _ => msg

/-- The method `Unwrap()` (absent on an error string). -/
def Unwrap : GoError → Option GoError
  | errorString _ => none
  | wrapError _ err => some err

/-- The chain walked by `errors.Is`: the error itself, or an error reached by unwrapping. -/
def Is : GoError → GoError → Bool
  | errorString msg, target => decide (errorString msg = target)
  | wrapError msg err, target => decide (wrapError msg err = target) || Is err target

end GoError

/-- The value of fmt.Errorf("%v: %w", a, err). -/
def errorfWrap (a : String) (err : GoError) : GoError :=
  GoError.wrapError (a ++ ": " ++ err.Error) err

/-- The value of fmt.Errorf("failed to roll back transaction due to error: %s: %w", rollErr, err). -/
def errorfRollback (rollErr err : GoError) : GoError :=
  GoError.wrapError
    ("failed to roll back transaction due to error: " ++ rollErr.Error ++ ": " ++ err.Error) err

/-- The package variable `ErrMigratorIsLocked`. -/
def ErrMigratorIsLocked : GoError := GoError.errorString "migrator is locked"

/-- The package variable `ErrMigratorIsUnlocked`. -/
def ErrMigratorIsUnlocked : GoError := GoError.errorString "migrator is unlocked"

/-! ## Go maps with string keys -/

/-- A Go `map[string]β`, as an association list with at most one entry per key in use. -/
structure GoMap (β : Type) where
  entries : List (String × β)
  deriving DecidableEq, Repr

namespace GoMap

variable {β : Type}

/-- The empty map (`make(map[string]β)`; a nil map reads the same). -/
def empty : GoMap β := ⟨[]⟩

/-- The read `v, ok := m[k]`. -/
def get (m : GoMap β) (k : String) : Option β := m.entries.lookup k

/-- The test `_, ok := m[k]`. -/
def contains (m : GoMap β) (k : String) : Bool := (m.get k).isSome

/-- The builtin `delete(m, k)`. -/
def delete (m : GoMap β) (k : String) : GoMap β := ⟨m.entries.filter (fun p => p.1 != k)⟩

/-- The assignment `m[k] = v`. -/
def set (m : GoMap β) (k : String) (v : β) : GoMap β := ⟨(k, v) :: (m.delete k).entries⟩

end GoMap

/-! ## Data model -/

/-- The struct `MigrationLog` (`Timestamp` is a clock reading). -/
structure MigrationLog where
  Id : Int
  MigrationID : String
  SQL : String
  Success : Bool
  Error : String
  Timestamp : Nat
  deriving DecidableEq, Repr

/-- Result set of a probe query (`[]map[string][]byte`). -/
abbrev Results := List (List (String × String))

/-- The struct `LockCfg` handed to the dialect's lock primitives. -/
structure LockCfg where
  Session : Nat
  Key : String
  Timeout : Int
  deriving DecidableEq, Repr

/-- The interface `MigrationCondition`, for the migrator's dialect: the rendered probe query with
its arguments, and the predicate on the result set. -/
structure MigrationCondition where
  SQL : String × List String
  IsFulfilled : Results → Bool

/-- The interface `Migration`, for the migrator's dialect. An interface value holds a pointer:
`addr` is the address of the object behind it, and the other fields are what the methods of
that object return. `SQL` is `m.SQL(mg.Dialect)`; `Exec` is present exactly for a
`CodeMigration` and is its `Exec(sess, mg)`: a step on the engine state through session `sess`
that is handed the migrator and may read and change its in-memory log (`RemoveMigrationLogs`,
`GetMigrationLog`); it returns its error and the in-memory log as it leaves it. A code
migration is taken not to register migrations and not to start a run from inside its body. -/
structure Migration (ω : Type) where
  addr : Nat
  Id : String
  SQL : String
  Condition : Option MigrationCondition
  SkipMigrationLog : Bool
  Exec : Option (Nat → GoMap MigrationLog → ω → ω × (Option GoError × GoMap MigrationLog))

/-- The method `SetId`, as it changes the object behind the interface. -/
def Migration.SetId {ω : Type} (m : Migration ω) (id : String) : Migration ω :=
  { m with Id := id }

/-- The struct `Migrator` (the engine, the dialect and the logger are in `Env`). The slice
`migrations` holds interface values, so that one object can sit in several slots.
`migrationIds = none` is the nil map of a `Migrator` that no constructor built; a nil `logMap`
reads and deletes like the empty map and is never written to. -/
structure Migrator (ω : Type) where
  migrations : List (Migration ω)
  migrationIds : Option (GoMap Unit)
  isLocked : Bool
  logMap : GoMap MigrationLog
  tableName : String

/-- The constructor `NewScopedMigrator`. -/
def NewScopedMigrator (ω : Type) (scope : String) : Migrator ω :=
  { migrations := []
    migrationIds := some GoMap.empty
    isLocked := false
    logMap := GoMap.empty
    tableName := if scope == "" then "migration_log" else scope ++ "_migration_log" }

/-- The constructor `NewMigrator`. -/
def NewMigrator (ω : Type) : Migrator ω := NewScopedMigrator ω ""

/-- Outcome of a call that may panic: the state left behind and the panic value, if any. -/
structure Panicking (α : Type) where
  state : α
  panic : Option String

/-- The registry after `m.SetId(id)` and the append of `m`: the id is set on the object at
`m.addr`, which every slot holding that object shows, and the interface value is appended. -/
def Migrator.appended {ω : Type} (mg : Migrator ω) (id : String) (m : Migration ω) :
    Migrator ω :=
  { mg with
    migrations :=
      mg.migrations.map (fun x => if x.addr = m.addr then x.SetId id else x) ++ [m.SetId id] }

/-- The method `AddMigration`. The read of a nil `migrationIds` finds nothing; the write to it
is the run-time panic "assignment to entry in nil map", after the append. -/
def AddMigration {ω : Type} (mg : Migrator ω) (id : String) (m : Migration ω) :
    Panicking (Migrator ω) :=
  if (mg.migrationIds.getD GoMap.empty).contains id then
    ⟨mg, some ("migration id conflict: " ++ id)⟩
  else
    match mg.migrationIds with
    | none => ⟨mg.appended id m, some "assignment to entry in nil map"⟩
    | some ids => ⟨{ mg.appended id m with migrationIds := some (ids.set id ()) }, none⟩

/-- The method `MigrationsCount`. -/
def MigrationsCount {ω : Type} (mg : Migrator ω) : Nat := mg.migrations.length

/-- The method `GetMigrationIDs`. -/
def GetMigrationIDs {ω : Type} (mg : Migrator ω) (excludeNotLogged : Bool) : List String :=
  mg.migrations.foldl
    (fun result migration =>
      if migration.SkipMigrationLog && excludeNotLogged then result
      else result ++ [migration.Id])
    []

/-- The method `RemoveMigrationLogs`. -/
def RemoveMigrationLogs {ω : Type} (mg : Migrator ω) (migrationsIDs : List String) : Migrator ω :=
  migrationsIDs.foldl (fun mg id => { mg with logMap := mg.logMap.delete id }) mg

/-! ## External collaborators and the world -/

/-- The external collaborators of the migrator over an engine state `ω`: the xorm engine
(`IsTableExist`, `Find`, `Sync2`, `DataSourceName`, `NewSession`), its sessions, named by a
number (`Close`, `Begin`, `Rollback`, `Commit`, `Exec`, `Query`, `Insert`), the dialect
(`Lock`, `Unlock`, `GetDBName`), `database.GenerateAdvisoryLockId`, and the clock
(`Now k` is the value of the `k`-th reading of `time.Now()`). -/
structure Env (ω : Type) where
  IsTableExist : String → ω → ω × Except GoError Bool
  Find : String → ω → ω × Except GoError (List MigrationLog)
  Sync2 : ω → ω × Option GoError
  DataSourceName : String
  NewSession : ω → ω × Nat
  Close : Nat → ω → ω × Unit
  Begin : Nat → ω → ω × Option GoError
  Rollback : Nat → ω → ω × Option GoError
  Commit : Nat → ω → ω × Option GoError
  Exec : Nat → String → ω → ω × Option GoError
  Query : Nat → String → List String → ω → ω × Except GoError Results
  Insert : Nat → String → MigrationLog → ω → ω × Option GoError
  Lock : LockCfg → ω → ω × Option GoError
  Unlock : LockCfg → ω → ω × Option GoError
  GetDBName : String → Except GoError String
  GenerateAdvisoryLockId : String → Except GoError String
  Now : Nat → Nat

deriving instance DecidableEq for Except

/-- One call to an external collaborator, with its arguments and its result. Calls made on
behalf of a migration carry that migration's id. -/
inductive Event where
  | isTableExist (table : String) (res : Except GoError Bool)
  | find (table : String) (res : Except GoError (List MigrationLog))
  | sync2 (err : Option GoError)
  | newSession (sess : Nat)
  | close (sess : Nat)
  | txBegin (sess : Nat) (err : Option GoError)
  | rollback (sess : Nat) (err : Option GoError)
  | commit (sess : Nat) (err : Option GoError)
  | query (sess : Nat) (id : String) (sql : String) (res : Except GoError Results)
  | execSQL (sess : Nat) (id : String) (sql : String) (err : Option GoError)
  | execCode (sess : Nat) (id : String) (err : Option GoError)
  | insert (sess : Nat) (table : String) (record : MigrationLog) (err : Option GoError)
  | lock (cfg : LockCfg) (err : Option GoError)
  | unlock (cfg : LockCfg) (err : Option GoError)
  deriving DecidableEq

/-- The world a migrator runs in: the engine state, the calls made so far, and the number of
clock readings taken so far. -/
structure World (ω : Type) where
  db : ω
  trace : List Event
  ticks : Nat

/-- Perform one call `f` on the engine state and record it as `ev result`. -/
def World.call {ω α : Type} (w : World ω) (f : ω → ω × α) (ev : α → Event) : World ω × α :=
  ({ w with db := (f w.db).1, trace := w.trace ++ [ev (f w.db).2] }, (f w.db).2)

/-- The call `time.Now()`. -/
def World.now {ω : Type} (E : Env ω) (w : World ω) : World ω × Nat :=
  ({ w with ticks := w.ticks + 1 }, E.Now w.ticks)

/-! ## The migrator's operations -/

/-- The method `GetMigrationLog`. -/
def GetMigrationLog {ω : Type} (E : Env ω) (mg : Migrator ω) (w : World ω) :
    (World ω × Migrator ω) × Except GoError (GoMap MigrationLog) :=
  match w.call (E.IsTableExist mg.tableName) (Event.isTableExist mg.tableName) with
  | (w, Except.error err) =>
    ((w, mg), Except.error (errorfWrap "failed to check table existence" err))
  | (w, Except.ok false) => ((w, mg), Except.ok GoMap.empty)
  | (w, Except.ok true) =>
    match w.call (E.Find mg.tableName) (Event.find mg.tableName) with
    | (w, Except.error err) => ((w, mg), Except.error err)
    | (w, Except.ok logItems) =>
      let logMap := logItems.foldl
        (fun (logMap : GoMap MigrationLog) logItem =>
          if !logItem.Success then logMap else logMap.set logItem.MigrationID logItem)
        GoMap.empty
      ((w, { mg with logMap := logMap }), Except.ok logMap)

/-- The method `InTransaction`; `α` is the state of the caller that the callback may change.
The deferred `sess.Close()` runs last on every path. -/
def InTransaction {ω α : Type} (E : Env ω)
    (callback : Nat → World ω × α → (World ω × α) × Option GoError)
    (st : World ω × α) : (World ω × α) × Option GoError :=
  match st.1.call E.NewSession Event.newSession with
  | (w, sess) =>
    let close := fun (r : (World ω × α) × Option GoError) =>
      (((r.1.1.call (E.Close sess) (fun _ => Event.close sess)).1, r.1.2), r.2)
    close <|
      match w.call (E.Begin sess) (Event.txBegin sess) with
      | (w, some err) => ((w, st.2), some err)
      | (w, none) =>
        match callback sess (w, st.2) with
        | (st, some err) =>
          match st.1.call (E.Rollback sess) (Event.rollback sess) with
          | (w, some rollErr) => ((w, st.2), some (errorfRollback rollErr err))
          | (w, none) => ((w, st.2), some err)
        | (st, none) =>
          match st.1.call (E.Commit sess) (Event.commit sess) with
          | (w, some err) => ((w, st.2), some err)
          | (w, none) => ((w, st.2), none)

/-- The second half of the method `exec` (from `var err error` on): the code migration's
`Exec`, which is handed the migrator, or the execution of the rendered statement. -/
def execBody {ω : Type} (E : Env ω) (mg : Migrator ω) (m : Migration ω) (sess : Nat)
    (w : World ω) : (World ω × Migrator ω) × Option GoError :=
  match m.Exec with
  | some codeMigration =>
    match w.call (codeMigration sess mg.logMap) (fun r => Event.execCode sess m.Id r.1) with
    | (w, r) => ((w, { mg with logMap := r.2 }), r.1)
  | none =>
    match w.call (E.Exec sess m.SQL) (Event.execSQL sess m.Id m.SQL) with
    | (w, err) => ((w, mg), err)

/-- The method `exec`. -/
def exec {ω : Type} (E : Env ω) (mg : Migrator ω) (m : Migration ω) (sess : Nat)
    (w : World ω) : (World ω × Migrator ω) × Option GoError :=
  match m.Condition with
  | none => execBody E mg m sess w
  | some condition =>
    if condition.SQL.1 != "" then
      match w.call (E.Query sess condition.SQL.1 condition.SQL.2)
          (Event.query sess m.Id condition.SQL.1) with
      | (w, Except.error err) => ((w, mg), some err)
      | (w, Except.ok results) =>
        if !condition.IsFulfilled results then ((w, mg), none) else execBody E mg m sess w
    else execBody E mg m sess w

/-- The callback that `run` hands to `InTransaction` for migration `m`; the caller's state is
the migrator and the counter `migrationsPerformed`. -/
def runCallback {ω : Type} (E : Env ω) (m : Migration ω)
    (record : MigrationLog) (sess : Nat) (st : World ω × (Migrator ω × Nat)) :
    (World ω × (Migrator ω × Nat)) × Option GoError :=
  match exec E st.2.1 m sess st.1 with
  | ((w, mg), some err) =>
    let record := { record with Error := err.Error }
    if !m.SkipMigrationLog then
      match w.call (E.Insert sess mg.tableName record)
          (Event.insert sess mg.tableName record) with
      | (w, some err) => ((w, (mg, st.2.2)), some err)
      | (w, none) => ((w, (mg, st.2.2)), some err)
    else ((w, (mg, st.2.2)), some err)
  | ((w, mg), none) =>
    let record := { record with Success := true }
    match (if !m.SkipMigrationLog then
        w.call (E.Insert sess mg.tableName record) (Event.insert sess mg.tableName record)
      else (w, none)) with
    | (w, none) => ((w, (mg, st.2.2 + 1)), none)
    | (w, some err) => ((w, (mg, st.2.2)), some err)

/-- The state of `run` while it loops: the world, the migrator behind the receiver, and the
locals `migrationsPerformed` and `migrationsSkipped`. -/
structure RunState (ω : Type) where
  w : World ω
  mg : Migrator ω
  migrationsPerformed : Nat
  migrationsSkipped : Nat

/-- The body of the loop of `run` for a migration that is not skipped: the record is built and
the migration runs in its own transaction. -/
def runMigration {ω : Type} (E : Env ω) (m : Migration ω)
    (st : RunState ω) : RunState ω × Option GoError :=
  let sql := m.SQL
  match st.w.now E with
  | (w, timestamp) =>
    let record : MigrationLog :=
      { MigrationID := m.Id, SQL := sql, Timestamp := timestamp,
        Id := 0, Success := false, Error := "" }
    match InTransaction E (runCallback E m record) (w, (st.mg, st.migrationsPerformed)) with
    | (r, err) => ({ st with w := r.1, mg := r.2.1, migrationsPerformed := r.2.2 }, err)

/-- The loop of `run` over the migrations still to visit (the slice that `range` evaluated
when the loop began); the test reads the in-memory log as it is when the loop gets there. -/
def runLoop {ω : Type} (E : Env ω) :
    List (Migration ω) → RunState ω → RunState ω × Option GoError
  | [], st => (st, none)
  | m :: rest, st =>
    if st.mg.logMap.contains m.Id then
      runLoop E rest { st with migrationsSkipped := st.migrationsSkipped + 1 }
    else
      match runMigration E m st with
      | (st, some err) =>
        (st, some (errorfWrap ("migration failed (id = " ++ m.Id ++ ")") err))
      | (st, none) => runLoop E rest st

/-- The method `run`. -/
def run {ω : Type} (E : Env ω) (mg : Migrator ω) (w : World ω) :
    (World ω × Migrator ω) × Option GoError :=
  match GetMigrationLog E mg w with
  | (st, Except.error err) => (st, some err)
  | ((w, mg), Except.ok _) =>
    match runLoop E mg.migrations ⟨w, mg, 0, 0⟩ with
    | (st, some err) => ((st.w, st.mg), some err)
    | (st, none) =>
      match st.w.call E.Sync2 Event.sync2 with
      | (w, err) => ((w, st.mg), err)

/-- The method `CompareAndSwap` of `atomic.Bool`: the new value of the flag and whether the
swap happened. -/
def CompareAndSwap (lock o n : Bool) : Bool × Bool :=
  if lock == o then (n, true) else (lock, false)

/-- The function `casRestoreOnErr`; the flag is passed in and returned. -/
def casRestoreOnErr {ω : Type} (lock : Bool) (o n : Bool) (casErr : GoError)
    (f : LockCfg → World ω → World ω × Option GoError) (lockCfg : LockCfg) (w : World ω) :
    (World ω × Bool) × Option GoError :=
  match CompareAndSwap lock o n with
  | (lock, false) => ((w, lock), some casErr)
  | (_, true) =>
    match f lockCfg w with
    | (w, some err) => ((w, o), some err)
    | (w, none) => ((w, n), none)

/-- The method value `mg.Dialect.Lock`. -/
def dialectLock {ω : Type} (E : Env ω) (lockCfg : LockCfg) (w : World ω) :
    World ω × Option GoError :=
  w.call (E.Lock lockCfg) (Event.lock lockCfg)

/-- The method value `mg.Dialect.Unlock`. -/
def dialectUnlock {ω : Type} (E : Env ω) (lockCfg : LockCfg) (w : World ω) :
    World ω × Option GoError :=
  w.call (E.Unlock lockCfg) (Event.unlock lockCfg)

/-- The acquire step of `Start`: the flag goes from unlocked to locked around `Dialect.Lock`. -/
def acquire {ω : Type} (E : Env ω) (mg : Migrator ω) (lockCfg : LockCfg) (w : World ω) :
    (World ω × Migrator ω) × Option GoError :=
  match casRestoreOnErr mg.isLocked false true ErrMigratorIsLocked (dialectLock E) lockCfg w with
  | ((w, lock), err) => ((w, { mg with isLocked := lock }), err)

/-- The release step that `Start` defers: the flag goes from locked to unlocked around
`Dialect.Unlock`. -/
def release {ω : Type} (E : Env ω) (mg : Migrator ω) (lockCfg : LockCfg) (w : World ω) :
    (World ω × Migrator ω) × Option GoError :=
  match casRestoreOnErr mg.isLocked true false ErrMigratorIsUnlocked (dialectUnlock E) lockCfg w
  with
  | ((w, lock), err) => ((w, { mg with isLocked := lock }), err)

/-- The function literal that `Start` hands to `InTransaction`; the caller's state is the
migrator. The deferred release runs after the batch and its error is dropped. -/
def startCallback {ω : Type} (E : Env ω) (key : String) (lockAttemptTimeout : Int)
    (sess : Nat) (st : World ω × Migrator ω) : (World ω × Migrator ω) × Option GoError :=
  let lockCfg : LockCfg := { Session := sess, Key := key, Timeout := lockAttemptTimeout }
  match acquire E st.2 lockCfg st.1 with
  | (st, some err) => (st, some err)
  | (st, none) =>
    match run E st.2 st.1 with
    | (st, err) => ((release E st.2 lockCfg st.1).1, err)

/-- The method `Start`. -/
def Start {ω : Type} (E : Env ω) (mg : Migrator ω) (isDatabaseLockingEnabled : Bool)
    (lockAttemptTimeout : Int) (w : World ω) : (World ω × Migrator ω) × Option GoError :=
  if !isDatabaseLockingEnabled then run E mg w
  else
    match E.GetDBName E.DataSourceName with
    | Except.error err => ((w, mg), some err)
    | Except.ok dbName =>
      match E.GenerateAdvisoryLockId dbName with
      | Except.error err => ((w, mg), some err)
      | Except.ok key => InTransaction E (startCallback E key lockAttemptTimeout) (w, mg)

/-! ## A transactional in-memory engine -/

/-- The data of the in-memory database: the statements and code bodies whose effects are in
place, and the tables of log rows by table name. -/
structure Store where
  applied : List String
  tables : GoMap (List MigrationLog)
  deriving DecidableEq, Repr

/-- The in-memory database: the committed data, the uncommitted working copy of each session
that has written inside its open transaction, and the number of the next session. -/
structure MemDb where
  committed : Store
  pending : List (Nat × Store)
  nextSession : Nat
  deriving DecidableEq, Repr

/-- What the in-memory engine leaves open: the meaning of a statement on the data, the answer
to a probe query, the outcome of the dialect's lock primitives, and the clock. -/
structure Backend where
  sem : String → Store → Except GoError Store
  probe : String → List String → Store → Except GoError Results
  lockErr : LockCfg → Option GoError
  unlockErr : LockCfg → Option GoError
  clock : Nat → Nat

namespace MemDb

/-- The data a session sees: its working copy if it has written, else the committed data. -/
def view (db : MemDb) (sess : Nat) : Store :=
  (db.pending.lookup sess).getD db.committed

/-- Forget the working copy of a session. -/
def discard (db : MemDb) (sess : Nat) : MemDb :=
  { db with pending := db.pending.filter (fun p => p.1 != sess) }

/-- Replace the working copy of a session. -/
def write (db : MemDb) (sess : Nat) (s : Store) : MemDb :=
  { db with pending := (sess, s) :: (db.discard sess).pending }

/-- Run a fallible update of the data inside the transaction of a session. -/
def update (db : MemDb) (sess : Nat) (f : Store → Except GoError Store) :
    MemDb × Option GoError :=
  match f (db.view sess) with
  | Except.ok s => (db.write sess s, none)
  | Except.error err => (db, some err)

/-- Appending a row to a table of log rows; the surrogate key is the row's position. -/
def insertRow (table : String) (record : MigrationLog) (s : Store) : Except GoError Store :=
  match s.tables.get table with
  | none => Except.error (GoError.errorString ("no such table: " ++ table))
  | some rows =>
    Except.ok { s with tables := s.tables.set table (rows ++ [{ record with Id := rows.length + 1 }]) }

end MemDb

/-- Modelled from the spec: the data-access collaborator (engine, sessions, dialect locks),
which is not part of the repository. A transaction's writes stay in the working copy of its
session; `Commit` makes them the committed data, `Rollback` and `Close` drop them, so that
"a migration's effect and its log row are atomically visible or atomically absent together".
Reads outside a session see the committed data only. -/
def memEnv (B : Backend) : Env MemDb where
  IsTableExist := fun table db => (db, Except.ok (db.committed.tables.contains table))
  Find := fun table db =>
    match db.committed.tables.get table with
    | some rows => (db, Except.ok rows)
    | none => (db, Except.error (GoError.errorString ("no such table: " ++ table)))
  Sync2 := fun db => (db, none)
  DataSourceName := "oxygen"
  NewSession := fun db => ({ db with nextSession := db.nextSession + 1 }, db.nextSession)
  Close := fun sess db => (db.discard sess, ())
  Begin := fun sess db => (db.discard sess, none)
  Rollback := fun sess db => (db.discard sess, none)
  Commit := fun sess db => ({ db.discard sess with committed := db.view sess }, none)
  Exec := fun sess sql db => db.update sess (B.sem sql)
  Query := fun sess sql args db => (db, B.probe sql args (db.view sess))
  Insert := fun sess table record db => db.update sess (MemDb.insertRow table record)
  Lock := fun cfg db => (db, B.lockErr cfg)
  Unlock := fun cfg db => (db, B.unlockErr cfg)
  GetDBName := fun dsn => Except.ok dsn
  GenerateAdvisoryLockId := fun dbName => Except.ok dbName
  Now := B.clock

/-- A code migration body on the in-memory engine: a fallible update `f` of the data inside
the transaction of the session it is given, and a change `g` of the in-memory log of the
migrator it is handed. -/
def memCode (f : Store → Except GoError Store)
    (g : GoMap MigrationLog → GoMap MigrationLog) :
    Nat → GoMap MigrationLog → MemDb → MemDb × (Option GoError × GoMap MigrationLog) :=
  fun sess logMap db => ((db.update sess f).1, ((db.update sess f).2, g logMap))

/-- An address for the migration object of each sample id. -/
def sampleAddr (id : String) : Nat :=
  id.toList.foldl (fun n c => 256 * n + c.toNat) 0

/-- A backend on which a statement named in `failing` fails, a statement named in `creating`
creates the (empty) log table `table` and fails if that table exists, and every other
statement only leaves its mark. -/
def sampleBackend (table : String) (creating failing : List String) : Backend where
  sem := fun sql s =>
    if failing.contains sql then Except.error (GoError.errorString ("cannot run: " ++ sql))
    else if creating.contains sql then
      if s.tables.contains table then
        Except.error (GoError.errorString ("table exists: " ++ table))
      else Except.ok { applied := s.applied ++ [sql], tables := s.tables.set table [] }
    else Except.ok { s with applied := s.applied ++ [sql] }
  probe := fun sql _ s => Except.ok (if s.applied.contains sql then [[]] else [])
  lockErr := fun _ => none
  unlockErr := fun _ => none
  clock := fun k => k

/-- A declarative, logged migration without condition whose statement is its id. -/
def sampleMigration (id : String) : Migration MemDb :=
  { addr := sampleAddr id, Id := id, SQL := id, Condition := none, SkipMigrationLog := false,
    Exec := none }

/-- A world around an in-memory database, with nothing recorded yet. -/
def freshWorld (s : Store) : World MemDb :=
  { db := { committed := s, pending := [], nextSession := 0 }, trace := [], ticks := 0 }

/-- A migrator with the given migrations registered in order, never run. -/
def sampleMigrator (ms : List (Migration MemDb)) : Migrator MemDb :=
  ms.foldl (fun mg m => (AddMigration mg m.Id m).state) (NewMigrator MemDb)

/-- A declarative migration without condition that is not recorded in the log. -/
def sampleUnlogged (id : String) : Migration MemDb :=
  { sampleMigration id with SkipMigrationLog := true }

/-- A condition that probes with the query "probe" and is fulfilled by a non-empty result. -/
def sampleCondition : MigrationCondition :=
  { SQL := ("probe", []), IsFulfilled := fun results => !results.isEmpty }

/-- A declarative, logged migration guarded by `sampleCondition`. -/
def sampleGuarded (id : String) : Migration MemDb :=
  { sampleMigration id with Condition := some sampleCondition }

/-- The success row of a migration whose statement is its id. -/
def sampleRow (key : Int) (id : String) (timestamp : Nat) : MigrationLog :=
  { Id := key, MigrationID := id, SQL := id, Success := true, Error := "",
    Timestamp := timestamp }

/-- A store without effects whose only table is the log table "migration_log" with `rows`. -/
def logStore (rows : List MigrationLog) : Store :=
  { applied := [], tables := ⟨[("migration_log", rows)]⟩ }

/-- The in-memory engine on which every statement succeeds. -/
def sampleEnv : Env MemDb := memEnv (sampleBackend "migration_log" [] [])

/-! ## Reading a trace -/

namespace Event

/-- The migration id and the cause carried by a failed probe query, statement or code body. -/
def failure : Event → Option (String × GoError)
  | query _ id _ (Except.error err) => some (id, err)
  | execSQL _ id _ (some err) => some (id, err)
  | execCode _ id (some err) => some (id, err)
  | _ => none

/-- The id of the migration whose statement or code body the event runs. -/
def executed : Event → Option String
  | execSQL _ id _ _ => some id
  | execCode _ id _ => some id
  | _ => none

/-- The id of the migration on whose behalf the event probes or runs. -/
def migrationId : Event → Option String
  | query _ id _ _ => some id
  | execSQL _ id _ _ => some id
  | execCode _ id _ => some id
  | _ => none

/-- The log record that the event inserts. -/
def inserted : Event → Option MigrationLog
  | insert _ _ record _ => some record
  | _ => none

/-- The error of a failed insert of a log record. -/
def insertFailure : Event → Option GoError
  | insert _ _ _ (some err) => some err
  | _ => none

/-- The session of an event that goes through a session. -/
def session : Event → Option Nat
  | newSession s => some s
  | close s => some s
  | txBegin s _ => some s
  | rollback s _ => some s
  | commit s _ => some s
  | query s _ _ _ => some s
  | execSQL s _ _ _ => some s
  | execCode s _ _ => some s
  | insert s _ _ _ => some s
  | _ => none

/-- The final call to `Sync2`. -/
def isSync2 : Event → Bool
  | sync2 _ => true
  | _ => false

/-- A call to `Commit`. -/
def isCommit : Event → Bool
  | commit _ _ => true
  | _ => false

/-- A call to `Begin`. -/
def isTxBegin : Event → Bool
  | txBegin _ _ => true
  | _ => false

/-- The calls that open or end a transaction. -/
def isTxBoundary : Event → Bool
  | txBegin _ _ => true
  | commit _ _ => true
  | rollback _ _ => true
  | _ => false

/-- A failed probe, statement, code body or insert of a log record. -/
def failed (e : Event) : Bool := e.failure.isSome || e.insertFailure.isSome

/-- The calls by which `GetMigrationLog` loads the log. -/
def isLoad : Event → Bool
  | isTableExist _ _ => true
  | find _ _ => true
  | _ => false

end Event

/-- The record that `run` builds for migration `m` at clock reading `timestamp`. -/
def newRecord {ω : Type} (m : Migration ω) (timestamp : Nat) : MigrationLog :=
  { Id := 0, MigrationID := m.Id, SQL := m.SQL, Success := false, Error := "",
    Timestamp := timestamp }

/-- The calls that `exec` can make for migration `m` through session `sess`, with its result:
a failed probe; a probe that is not fulfilled; or the body, after a fulfilled probe if there
is one. -/
inductive ExecTrace {ω : Type} (m : Migration ω) (sess : Nat) :
    List Event → Option GoError → Prop where
  | probeFailed (sql : String) (err : GoError) :
    ExecTrace m sess [Event.query sess m.Id sql (Except.error err)] (some err)
  | unfulfilled (sql : String) (results : Results) :
    ExecTrace m sess [Event.query sess m.Id sql (Except.ok results)] none
  | statement (err : Option GoError) :
    ExecTrace m sess [Event.execSQL sess m.Id m.SQL err] err
  | code (err : Option GoError) :
    ExecTrace m sess [Event.execCode sess m.Id err] err
  | probedStatement (sql : String) (results : Results) (err : Option GoError) :
    ExecTrace m sess
      [Event.query sess m.Id sql (Except.ok results), Event.execSQL sess m.Id m.SQL err] err
  | probedCode (sql : String) (results : Results) (err : Option GoError) :
    ExecTrace m sess
      [Event.query sess m.Id sql (Except.ok results), Event.execCode sess m.Id err] err

/-- The calls that the callback of `run` can make for migration `m`, with its result. -/
inductive CallbackTrace {ω : Type} (m : Migration ω) (table : String) (record : MigrationLog)
    (sess : Nat) : List Event → Option GoError → Prop where
  | failedUnlogged (evs : List Event) (cause : GoError) :
    ExecTrace m sess evs (some cause) → m.SkipMigrationLog = true →
    CallbackTrace m table record sess evs (some cause)
  | failedLogged (evs : List Event) (cause : GoError) (insertErr : Option GoError) :
    ExecTrace m sess evs (some cause) → m.SkipMigrationLog = false →
    CallbackTrace m table record sess
      (evs ++ [Event.insert sess table { record with Error := cause.Error } insertErr])
      (some (insertErr.getD cause))
  | doneUnlogged (evs : List Event) :
    ExecTrace m sess evs none → m.SkipMigrationLog = true →
    CallbackTrace m table record sess evs none
  | doneLogged (evs : List Event) (insertErr : Option GoError) :
    ExecTrace m sess evs none → m.SkipMigrationLog = false →
    CallbackTrace m table record sess
      (evs ++ [Event.insert sess table { record with Success := true } insertErr]) insertErr

/-- The calls that `InTransaction` can make around a callback whose own calls are described
by `Cb`, with its result. -/
inductive TxTrace (Cb : Nat → List Event → Option GoError → Prop) :
    List Event → Option GoError → Prop where
  | beginFailed (s : Nat) (err : GoError) :
    TxTrace Cb [Event.newSession s, Event.txBegin s (some err), Event.close s] (some err)
  | rolledBack (s : Nat) (evs : List Event) (err : GoError) (rollErr : Option GoError) :
    Cb s evs (some err) →
    TxTrace Cb
      (Event.newSession s :: Event.txBegin s none :: (evs ++ [Event.rollback s rollErr, Event.close s]))
      (some (match rollErr with
        | some rollErr => errorfRollback rollErr err
        | none => err))
  | committed (s : Nat) (evs : List Event) (commitErr : Option GoError) :
    Cb s evs none →
    TxTrace Cb
      (Event.newSession s :: Event.txBegin s none :: (evs ++ [Event.commit s commitErr, Event.close s]))
      commitErr

/-- The calls that the loop of `run` can make over the migrations `ms` when the migrator is
`mg` and the clock has been read `ticks` times, with its result. A migration that went through
may leave the migrator `mg2` with another in-memory log. -/
inductive LoopTrace {ω : Type} (E : Env ω) :
    Migrator ω → List (Migration ω) → Nat → List Event → Option GoError → Prop where
  | done (mg : Migrator ω) (ticks : Nat) : LoopTrace E mg [] ticks [] none
  | skip (mg : Migrator ω) (m : Migration ω) (rest : List (Migration ω)) (ticks : Nat)
      (evs : List Event) (r : Option GoError) :
    mg.logMap.contains m.Id = true → LoopTrace E mg rest ticks evs r →
    LoopTrace E mg (m :: rest) ticks evs r
  | fail (mg : Migrator ω) (m : Migration ω) (rest : List (Migration ω)) (ticks : Nat)
      (blk : List Event) (err : GoError) :
    mg.logMap.contains m.Id = false →
    TxTrace (CallbackTrace m mg.tableName (newRecord m (E.Now ticks))) blk (some err) →
    LoopTrace E mg (m :: rest) ticks blk
      (some (errorfWrap ("migration failed (id = " ++ m.Id ++ ")") err))
  | step (mg mg2 : Migrator ω) (m : Migration ω) (rest : List (Migration ω)) (ticks : Nat)
      (blk evs : List Event) (r : Option GoError) :
    mg.logMap.contains m.Id = false →
    TxTrace (CallbackTrace m mg.tableName (newRecord m (E.Now ticks))) blk none →
    mg2.tableName = mg.tableName →
    LoopTrace E mg2 rest (ticks + 1) evs r →
    LoopTrace E mg (m :: rest) ticks (blk ++ evs) r

/-- The calls that `run` can make, with its result: the loading of the log, then the loop
over the registry of `mg` (the migrator as the loading leaves it), then the final `Sync2`. -/
inductive RunTrace {ω : Type} (E : Env ω) (mg : Migrator ω) (ticks : Nat) :
    List Event → Option GoError → Prop where
  | loadFailed (load : List Event) (err : GoError) :
    (∀ e ∈ load, e.isLoad = true) → RunTrace E mg ticks load (some err)
  | loopFailed (load evs : List Event) (err : GoError) :
    (∀ e ∈ load, e.isLoad = true) → LoopTrace E mg mg.migrations ticks evs (some err) →
    RunTrace E mg ticks (load ++ evs) (some err)
  | synced (load evs : List Event) (r : Option GoError) :
    (∀ e ∈ load, e.isLoad = true) → LoopTrace E mg mg.migrations ticks evs none →
    RunTrace E mg ticks (load ++ (evs ++ [Event.sync2 r])) r

/-- Between the begins of two transactions of a trace the first one is committed. -/
def CommitsBetween (evs : List Event) : Prop :=
  ∀ l1 l2 l3 sA sB rB,
    evs = l1 ++ Event.txBegin sA none :: (l2 ++ Event.txBegin sB rB :: l3) →
    Event.commit sA none ∈ l2

/-- Every statement or code body of a trace is issued inside a transaction that was begun on
its session and in which nothing was executed before it. -/
def ExecutedInOwnTx (evs : List Event) : Prop :=
  ∀ pre ev post id, evs = pre ++ ev :: post → ev.executed = some id →
    ∃ s pre1 pre2, ev.session = some s ∧ pre = pre1 ++ Event.txBegin s none :: pre2 ∧
      ∀ e ∈ pre2, e.executed = none ∧ e.isTxBoundary = false

/-- An event outside every migration: no transaction begins, nothing is executed or inserted. -/
def Event.isQuiet (e : Event) : Prop :=
  e.isTxBegin = false ∧ e.executed = none ∧ e.inserted = none

/-- The calls of a run of "A" then "B" on an empty log table. -/
def sampleTraceAB : List Event :=
  [Event.isTableExist "migration_log" (Except.ok true),
    Event.find "migration_log" (Except.ok []),
    Event.newSession 0, Event.txBegin 0 none, Event.execSQL 0 "A" "A" none,
    Event.insert 0 "migration_log" (sampleRow 0 "A" 0) none,
    Event.commit 0 none, Event.close 0,
    Event.newSession 1, Event.txBegin 1 none, Event.execSQL 1 "B" "B" none,
    Event.insert 1 "migration_log" (sampleRow 0 "B" 1) none,
    Event.commit 1 none, Event.close 1, Event.sync2 none]

/-- Every failed probe, statement, code body or insert of a trace is followed by the rollback
of its session, and by no commit. -/
def RolledBack (evs : List Event) : Prop :=
  ∀ pre ev post s, evs = pre ++ ev :: post → ev.failed = true → ev.session = some s →
    (∃ rollErr, Event.rollback s rollErr ∈ post) ∧ ∀ e ∈ post, e.isCommit = false

/-- A migration of the in-memory engine whose code body, if it has one, works inside the
transaction of the session it is given. -/
def Migration.sessionLocal (m : Migration MemDb) : Prop :=
  m.Exec = none ∨ ∃ f g, m.Exec = some (memCode f g)

/-- The migrator `b` is the migrator `a` up to its in-memory log. -/
def Migrator.sameButLog {ω : Type} (a b : Migrator ω) : Prop :=
  b.migrations = a.migrations ∧ b.migrationIds = a.migrationIds ∧ b.isLocked = a.isLocked ∧
    b.tableName = a.tableName

/-- A migration whose code body, if it has one, leaves the in-memory log of the migrator it
is handed as it finds it. -/
def Migration.keepsLog {ω : Type} (m : Migration ω) : Prop :=
  ∀ code, m.Exec = some code → ∀ sess logMap db, (code sess logMap db).2.2 = logMap

/-- The statements and code bodies of the migrations `ms` leave an existing table `table` of
log rows as it is. -/
def LogSafe (B : Backend) (table : String) (ms : List (Migration MemDb)) : Prop :=
  (∀ m ∈ ms, ∀ s s' rows, B.sem m.SQL s = Except.ok s' →
    s.tables.get table = some rows → s'.tables.get table = some rows) ∧
  (∀ m ∈ ms, ∀ f g, m.Exec = some (memCode f g) → ∀ s s' rows, f s = Except.ok s' →
    s.tables.get table = some rows → s'.tables.get table = some rows)

/-- The table `table` of the store holds a success row for migration `id`. -/
def Applied (s : Store) (table : String) (id : String) : Prop :=
  ∃ rows, s.tables.get table = some rows ∧
    ∃ row ∈ rows, row.MigrationID = id ∧ row.Success = true

/-- Session `k` of the in-memory database was handed out and holds no working copy. -/
def MemDb.Untouched (k : Nat) (db : MemDb) : Prop :=
  db.pending.lookup k = none ∧ k < db.nextSession

/-- The world in which the in-memory engine runs the callback of `InTransaction`: a session
was handed out and its transaction begun. -/
def memBegun (w : World MemDb) : World MemDb :=
  { db := ({ w.db with nextSession := w.db.nextSession + 1 } : MemDb).discard w.db.nextSession
    trace := w.trace ++ [Event.newSession w.db.nextSession, Event.txBegin w.db.nextSession none]
    ticks := w.ticks }

/-- The backend on which the statement "create" creates the log table "migration_log". -/
def createBackend : Backend := sampleBackend "migration_log" ["create"] []

/-- A migrator whose first migration creates the log table. -/
def sampleRegistry : Migrator MemDb :=
  sampleMigrator [sampleMigration "create", sampleMigration "A"]

/-- A call of the dialect's `Lock`. -/
def Event.isLock : Event → Bool
  | Event.lock _ _ => true
  | _ => false

/-- A call of the dialect's `Unlock`. -/
def Event.isUnlock : Event → Bool
  | Event.unlock _ _ => true
  | _ => false

/-- A call of the dialect's `Unlock` that returned an error. -/
def Event.unlockFailed : Event → Bool
  | Event.unlock _ (some _) => true
  | _ => false

/-- The in-memory engine on a connection that is lost for the sessions in `lost`: their
`Rollback` discards the working copy and reports an error. -/
def lossyEnv (B : Backend) (lost : List Nat) : Env MemDb :=
  { memEnv B with
    Rollback := fun sess db =>
      (db.discard sess,
        if lost.contains sess then some (GoError.errorString "connection lost") else none) }

/-- The backend on which every statement succeeds and the dialect's `Lock` times out. -/
def timeoutBackend : Backend :=
  { sampleBackend "migration_log" [] [] with
    lockErr := fun _ => some (GoError.errorString "lock timeout") }

/-- The backend on which the statements in `failing` fail and the dialect's `Unlock` fails. -/
def stuckBackend (failing : List String) : Backend :=
  { sampleBackend "migration_log" [] failing with
    unlockErr := fun _ => some (GoError.errorString "unlock failed") }

/-- A backend on which the statement "create" makes sure that the log table "migration_log"
exists, the statement "wipe" deletes the rows of that table, and every other statement only
leaves its mark. -/
def wipeBackend : Backend where
  sem := fun sql s =>
    if sql == "create" then
      Except.ok
        { applied := s.applied ++ [sql],
          tables :=
            if s.tables.contains "migration_log" then s.tables
            else s.tables.set "migration_log" [] }
    else if sql == "wipe" then
      Except.ok { applied := s.applied ++ [sql], tables := s.tables.set "migration_log" [] }
    else Except.ok { s with applied := s.applied ++ [sql] }
  probe := fun _ _ _ => Except.ok []
  lockErr := fun _ => none
  unlockErr := fun _ => none
  clock := fun k => k

/-- A code migration of the in-memory engine whose body calls `RemoveMigrationLogs(target)`
on the migrator it is handed and does nothing else. -/
def sampleForgetter (id target : String) : Migration MemDb :=
  { sampleMigration id with
    Exec := some (memCode Except.ok (fun logMap => logMap.delete target)) }

/-! ## Go maps -/

theorem GoMap.get_delete {β : Type} (m : GoMap β) (k k' : String) :
    (m.delete k).get k' = if k' = k then none else m.get k' := by
  obtain ⟨l⟩ := m
  simp only [GoMap.delete, GoMap.get]
  induction l with
  | nil => simp
  | cons p rest ih =>
    by_cases hp : p.1 = k
    · have hpb : (p.1 != k) = false := by simp [hp]
      rw [List.filter_cons_of_neg (by simp [hp]), ih]
      by_cases hk : k' = k
      · simp [hk]
      · have : (k' == p.1) = false := by simpa [hp] using hk
        simp [hk, List.lookup, this]
    · rw [List.filter_cons_of_pos (by simpa using hp)]
      obtain ⟨a, b⟩ := p
      simp only [List.lookup_cons, ih]
      by_cases hk : k' = k
      · have : (k' == a) = false := by
          simp only [beq_eq_false_iff_ne, ne_eq]
          intro h
          exact hp (by simpa [hk] using h.symm)
        rw [hk] at this
        simp [hk, this]
      · simp [hk]

theorem GoMap.get_set {β : Type} (m : GoMap β) (k : String) (v : β) (k' : String) :
    (m.set k v).get k' = if k' = k then some v else m.get k' := by
  have h := GoMap.get_delete m k k'
  simp only [GoMap.get] at h
  by_cases hk : k' = k
  · simp [GoMap.set, GoMap.get, hk]
  · have : (k' == k) = false := by simpa using hk
    simp only [GoMap.set, GoMap.get, List.lookup_cons, this, h, hk, if_false]

theorem GoMap.contains_set {β : Type} (m : GoMap β) (k : String) (v : β) (k' : String) :
    (m.set k v).contains k' = (decide (k' = k) || m.contains k') := by
  simp only [GoMap.contains, GoMap.get_set]
  by_cases hk : k' = k <;> simp [hk]

/-! ## Registration -/

/-- C1, as the code has it: on a migrator whose id set is allocated, `AddMigration` with an id
in the id set panics and leaves the migrator as it was; with a new id it does not panic, sets
the id on the object of `m`, which every slot holding that object shows, keeps the objects of
the list in their order and appends `m` (carrying that id) as the last element, leaves every
slot holding another object as it was, and the id set afterwards holds exactly the old ids and
the new one. -/
theorem AddMigration_panics_or_appends {ω : Type} (mg : Migrator ω) (ids : GoMap Unit)
    (id : String) (m : Migration ω) (hids : mg.migrationIds = some ids) :
    (ids.contains id = true →
      (AddMigration mg id m).panic = some ("migration id conflict: " ++ id) ∧
      (AddMigration mg id m).state = mg) ∧
    (ids.contains id = false →
      (AddMigration mg id m).panic = none ∧
      (AddMigration mg id m).state.migrations =
        mg.migrations.map (fun x => if x.addr = m.addr then x.SetId id else x) ++
          [m.SetId id] ∧
      (AddMigration mg id m).state.migrations.map (fun x => x.addr) =
        mg.migrations.map (fun x => x.addr) ++ [m.addr] ∧
      (∀ (i : Nat) (x : Migration ω), mg.migrations[i]? = some x → x.addr ≠ m.addr →
        (AddMigration mg id m).state.migrations[i]? = some x) ∧
      (m.SetId id).Id = id ∧
      (∃ ids2, (AddMigration mg id m).state.migrationIds = some ids2 ∧
        ∀ k, ids2.contains k = (decide (k = id) || ids.contains k)) ∧
      (AddMigration mg id m).state.isLocked = mg.isLocked ∧
      (AddMigration mg id m).state.logMap = mg.logMap ∧
      (AddMigration mg id m).state.tableName = mg.tableName) := by
  constructor
  · intro h
    simp [AddMigration, hids, h]
  · intro h
    have hst : (AddMigration mg id m).state =
        { mg.appended id m with migrationIds := some (ids.set id ()) } := by
      simp [AddMigration, hids, h]
    refine ⟨by simp [AddMigration, hids, h], by rw [hst]; rfl, ?_, ?_, rfl, ?_, by rw [hst]; rfl,
      by rw [hst]; rfl, by rw [hst]; rfl⟩
    · rw [hst]
      simp only [Migrator.appended, List.map_append, List.map_map, List.map_cons, List.map_nil]
      congr 1
      apply List.map_congr_left
      intro x _
      by_cases hx : x.addr = m.addr <;> simp [hx, Migration.SetId]
    · intro i x hi hx
      rw [hst]
      simp only [Migrator.appended]
      have hlt : i < (mg.migrations.map
          (fun x => if x.addr = m.addr then x.SetId id else x)).length := by
        rw [List.length_map]
        exact (List.getElem?_eq_some.1 hi).1
      rw [List.getElem?_append_left hlt, List.getElem?_map, hi]
      simp [hx]
    · rw [hst]
      exact ⟨_, rfl, fun k => GoMap.contains_set _ _ _ _⟩

/-- Witness for C1: on a migrator holding "a", registering "a" again panics and registering
"b" appends. -/
theorem AddMigration_panics_or_appends_witness :
    ((AddMigration (sampleMigrator [sampleMigration "a"]) "a" (sampleMigration "x")).panic
        = some ("migration id conflict: " ++ "a")) ∧
    ((AddMigration (sampleMigrator [sampleMigration "a"]) "b" (sampleMigration "x")).panic
        = none) :=
  ⟨((AddMigration_panics_or_appends (sampleMigrator [sampleMigration "a"]) ⟨[("a", ())]⟩ "a"
      (sampleMigration "x") rfl).1 (by decide)).1,
   ((AddMigration_panics_or_appends (sampleMigrator [sampleMigration "a"]) ⟨[("a", ())]⟩ "b"
      (sampleMigration "x") rfl).2 (by decide)).1⟩

/-- Counterexample to C1 as stated: on the zero-value `Migrator`, whose id set is the nil map,
the id "a" is not registered, and `AddMigration` appends the migration and then panics on the
write to the nil map. -/
theorem AddMigration_nil_ids_panics :
    (AddMigration (⟨[], none, false, GoMap.empty, ""⟩ : Migrator MemDb) "a"
      (sampleMigration "x")).panic = some "assignment to entry in nil map" ∧
    (AddMigration (⟨[], none, false, GoMap.empty, ""⟩ : Migrator MemDb) "a"
      (sampleMigration "x")).state.migrations.map (fun x => x.Id) = ["a"] ∧
    (AddMigration (⟨[], none, false, GoMap.empty, ""⟩ : Migrator MemDb) "a"
      (sampleMigration "x")).state.migrationIds = none := by
  decide

/-! ## The lock flag -/

/-- C9: when the flag is not in the expected old state, `casRestoreOnErr` returns the state
error of the transition, for every primitive `f`, with the world (and so the record of backend
calls) and the flag as they were. A release on an unlocked migrator returns
"migrator is unlocked", an acquire on a locked one, and so a second acquire right after a
successful one, returns "migrator is locked". -/
theorem casRestoreOnErr_rejected {ω : Type} (E : Env ω) (mg : Migrator ω) (lock o n : Bool)
    (casErr : GoError) (f : LockCfg → World ω → World ω × Option GoError)
    (lockCfg lockCfg2 : LockCfg) (w : World ω) :
    (lock ≠ o → casRestoreOnErr lock o n casErr f lockCfg w = ((w, lock), some casErr)) ∧
    (mg.isLocked = true → acquire E mg lockCfg w = ((w, mg), some ErrMigratorIsLocked)) ∧
    (mg.isLocked = false → release E mg lockCfg w = ((w, mg), some ErrMigratorIsUnlocked)) ∧
    ((acquire E mg lockCfg w).2 = none →
      acquire E (acquire E mg lockCfg w).1.2 lockCfg2 (acquire E mg lockCfg w).1.1 =
        ((acquire E mg lockCfg w).1, some ErrMigratorIsLocked)) ∧
    ErrMigratorIsLocked.Error = "migrator is locked" ∧
    ErrMigratorIsUnlocked.Error = "migrator is unlocked" := by
  refine ⟨?_, ?_, ?_, ?_, rfl, rfl⟩
  · intro h
    have hb : (lock == o) = false := by simpa using h
    simp [casRestoreOnErr, CompareAndSwap, hb]
  · intro h
    obtain ⟨ms, ids, l, lm, t⟩ := mg
    simp only at h
    subst h
    simp [acquire, casRestoreOnErr, CompareAndSwap]
  · intro h
    obtain ⟨ms, ids, l, lm, t⟩ := mg
    simp only at h
    subst h
    simp [release, casRestoreOnErr, CompareAndSwap]
  · intro h
    obtain ⟨ms, ids, l, lm, t⟩ := mg
    cases l with
    | true => simp [acquire, casRestoreOnErr, CompareAndSwap] at h
    | false =>
      simp only [acquire, casRestoreOnErr, CompareAndSwap, beq_self_eq_true, if_true] at h ⊢
      cases hf : dialectLock E lockCfg w with
      | mk w1 r =>
        rw [hf] at h
        cases r with
        | some err => simp at h
        | none => simp

/-- Witness for C9: a release without acquire and a second acquire in a row are rejected. -/
theorem casRestoreOnErr_rejected_witness :
    release (memEnv (sampleBackend "migration_log" [] [])) (NewMigrator MemDb) ⟨0, "k", 5⟩
        (freshWorld ⟨[], GoMap.empty⟩) =
      ((freshWorld ⟨[], GoMap.empty⟩, NewMigrator MemDb), some ErrMigratorIsUnlocked) ∧
    (acquire (memEnv (sampleBackend "migration_log" [] [])) (NewMigrator MemDb) ⟨0, "k", 5⟩
        (freshWorld ⟨[], GoMap.empty⟩)).2 = none ∧
    acquire (memEnv (sampleBackend "migration_log" [] []))
        (acquire (memEnv (sampleBackend "migration_log" [] [])) (NewMigrator MemDb) ⟨0, "k", 5⟩
          (freshWorld ⟨[], GoMap.empty⟩)).1.2 ⟨0, "k", 5⟩
        (acquire (memEnv (sampleBackend "migration_log" [] [])) (NewMigrator MemDb) ⟨0, "k", 5⟩
          (freshWorld ⟨[], GoMap.empty⟩)).1.1 =
      ((acquire (memEnv (sampleBackend "migration_log" [] [])) (NewMigrator MemDb) ⟨0, "k", 5⟩
          (freshWorld ⟨[], GoMap.empty⟩)).1, some ErrMigratorIsLocked) :=
  ⟨(casRestoreOnErr_rejected (memEnv (sampleBackend "migration_log" [] [])) (NewMigrator MemDb)
      false true false ErrMigratorIsUnlocked (fun _ w => (w, none)) ⟨0, "k", 5⟩ ⟨0, "k", 5⟩
      (freshWorld ⟨[], GoMap.empty⟩)).2.2.1 rfl,
   rfl,
   (casRestoreOnErr_rejected (memEnv (sampleBackend "migration_log" [] [])) (NewMigrator MemDb)
      false true false ErrMigratorIsUnlocked (fun _ w => (w, none)) ⟨0, "k", 5⟩ ⟨0, "k", 5⟩
      (freshWorld ⟨[], GoMap.empty⟩)).2.2.2.1 rfl⟩

/-- C10: an acquire on an unlocked migrator calls `Dialect.Lock` exactly once (the record of
calls grows by that one call and the engine state is the one the call leaves); when the call
fails the acquire returns its error unchanged and the flag is unlocked, when it succeeds the
acquire returns no error and the flag is locked. -/
theorem acquire_unlocked {ω : Type} (E : Env ω) (mg : Migrator ω) (lockCfg : LockCfg)
    (w : World ω) (h : mg.isLocked = false) :
    (acquire E mg lockCfg w).1.1 =
      { w with db := (E.Lock lockCfg w.db).1,
               trace := w.trace ++ [Event.lock lockCfg (E.Lock lockCfg w.db).2] } ∧
    (acquire E mg lockCfg w).2 = (E.Lock lockCfg w.db).2 ∧
    (acquire E mg lockCfg w).1.2 =
      { mg with isLocked := ((E.Lock lockCfg w.db).2).isNone } := by
  obtain ⟨ms, ids, l, lm, t⟩ := mg
  simp only at h
  subst h
  simp only [acquire, casRestoreOnErr, CompareAndSwap, beq_self_eq_true, if_true, dialectLock,
    World.call]
  cases (E.Lock lockCfg w.db).2 <;> simp

/-- Witness for C10: an acquire whose backend lock fails on a fresh migrator. -/
theorem acquire_unlocked_witness :
    (NewMigrator MemDb).isLocked = false ∧
    (acquire (memEnv { sampleBackend "migration_log" [] [] with
        lockErr := fun _ => some (GoError.errorString "lock timeout") })
      (NewMigrator MemDb) ⟨0, "k", 5⟩ (freshWorld ⟨[], GoMap.empty⟩)).2 =
      some (GoError.errorString "lock timeout") :=
  ⟨rfl, (acquire_unlocked (memEnv { sampleBackend "migration_log" [] [] with
        lockErr := fun _ => some (GoError.errorString "lock timeout") })
      (NewMigrator MemDb) ⟨0, "k", 5⟩ (freshWorld ⟨[], GoMap.empty⟩) rfl).2.1⟩

/-! ## The calls made by a run -/

theorem Migrator.sameButLog_refl {ω : Type} (a : Migrator ω) : a.sameButLog a :=
  ⟨rfl, rfl, rfl, rfl⟩

theorem Migrator.sameButLog_trans {ω : Type} (a b c : Migrator ω) (h1 : a.sameButLog b)
    (h2 : b.sameButLog c) : a.sameButLog c :=
  ⟨h2.1.trans h1.1, h2.2.1.trans h1.2.1, h2.2.2.1.trans h1.2.2.1, h2.2.2.2.trans h1.2.2.2⟩

theorem execBody_frame {ω : Type} (E : Env ω) (mg : Migrator ω) (m : Migration ω) (sess : Nat)
    (w : World ω) :
    mg.sameButLog (execBody E mg m sess w).1.2 ∧
      (m.keepsLog → (execBody E mg m sess w).1.2 = mg) := by
  unfold execBody
  cases hx : m.Exec with
  | none => exact ⟨Migrator.sameButLog_refl _, fun _ => rfl⟩
  | some c =>
    refine ⟨⟨rfl, rfl, rfl, rfl⟩, fun hk => ?_⟩
    simp only [World.call, hk c hx]

theorem exec_frame {ω : Type} (E : Env ω) (mg : Migrator ω) (m : Migration ω) (sess : Nat)
    (w : World ω) :
    mg.sameButLog (exec E mg m sess w).1.2 ∧ (m.keepsLog → (exec E mg m sess w).1.2 = mg) := by
  unfold exec
  cases hc : m.Condition with
  | none => exact execBody_frame E mg m sess w
  | some cond =>
    by_cases hs : cond.SQL.1 = ""
    · simp only [hs, bne_self_eq_false, Bool.false_eq_true, if_false]
      exact execBody_frame E mg m sess w
    · have hb : (cond.SQL.1 != "") = true := by simpa using hs
      simp only [hb, if_true]
      cases hq : (E.Query sess cond.SQL.1 cond.SQL.2 w.db).2 with
      | error err =>
        simp only [World.call, hq]
        exact ⟨Migrator.sameButLog_refl _, fun _ => trivial⟩
      | ok results =>
        simp only [World.call, hq]
        cases hf : cond.IsFulfilled results with
        | false =>
          simp only [Bool.not_false, if_true]
          exact ⟨Migrator.sameButLog_refl _, fun _ => trivial⟩
        | true =>
          simp only [Bool.not_true, Bool.false_eq_true, if_false]
          exact execBody_frame E mg m sess _

theorem exec_trace {ω : Type} (E : Env ω) (mg : Migrator ω) (m : Migration ω) (sess : Nat)
    (w : World ω) :
    ∃ evs, (exec E mg m sess w).1.1.trace = w.trace ++ evs ∧
      (exec E mg m sess w).1.1.ticks = w.ticks ∧
      ExecTrace m sess evs (exec E mg m sess w).2 := by
  have body : ∀ w0 : World ω, ∀ pre : List Event, w0.trace = w.trace ++ pre → w0.ticks = w.ticks →
      (∀ err, ExecTrace m sess (pre ++ [Event.execSQL sess m.Id m.SQL err]) err) →
      (∀ err, ExecTrace m sess (pre ++ [Event.execCode sess m.Id err]) err) →
      ∃ evs, (execBody E mg m sess w0).1.1.trace = w.trace ++ evs ∧
        (execBody E mg m sess w0).1.1.ticks = w.ticks ∧
        ExecTrace m sess evs (execBody E mg m sess w0).2 := by
    intro w0 pre ht hk h1 h2
    unfold execBody
    cases m.Exec with
    | none => exact ⟨_, by simp [World.call, ht, List.append_assoc], by simp [World.call, hk], h1 _⟩
    | some c => exact ⟨_, by simp [World.call, ht, List.append_assoc], by simp [World.call, hk], h2 _⟩
  unfold exec
  cases hc : m.Condition with
  | none =>
    exact body w [] (by simp) rfl (fun e => ExecTrace.statement e) (fun e => ExecTrace.code e)
  | some cond =>
    by_cases hs : cond.SQL.1 = ""
    · simp only [hs, bne_self_eq_false, Bool.false_eq_true, if_false]
      exact body w [] (by simp) rfl (fun e => ExecTrace.statement e) (fun e => ExecTrace.code e)
    · have hb : (cond.SQL.1 != "") = true := by simpa using hs
      simp only [hb, if_true]
      cases hq : (E.Query sess cond.SQL.1 cond.SQL.2 w.db).2 with
      | error err =>
        simp only [World.call, hq]
        exact ⟨_, rfl, trivial, ExecTrace.probeFailed _ _⟩
      | ok results =>
        simp only [World.call, hq]
        cases hf : cond.IsFulfilled results with
        | false =>
          simp only [Bool.not_false, if_true]
          exact ⟨_, rfl, trivial, ExecTrace.unfulfilled _ _⟩
        | true =>
          simp only [Bool.not_true, Bool.false_eq_true, if_false]
          exact body
            { w with db := (E.Query sess cond.SQL.1 cond.SQL.2 w.db).1,
                     trace := w.trace ++ [Event.query sess m.Id cond.SQL.1 (Except.ok results)] }
            [Event.query sess m.Id cond.SQL.1 (Except.ok results)] rfl rfl
            (fun e => ExecTrace.probedStatement _ _ e) (fun e => ExecTrace.probedCode _ _ e)

theorem runCallback_trace {ω : Type} (E : Env ω) (m : Migration ω)
    (record : MigrationLog) (sess : Nat) (st : World ω × (Migrator ω × Nat)) :
    ∃ evs, (runCallback E m record sess st).1.1.trace = st.1.trace ++ evs ∧
      (runCallback E m record sess st).1.1.ticks = st.1.ticks ∧
      CallbackTrace m st.2.1.tableName record sess evs (runCallback E m record sess st).2 := by
  obtain ⟨evs, ht, hk, hx⟩ := exec_trace E st.2.1 m sess st.1
  have hf := (exec_frame E st.2.1 m sess st.1).1.2.2.2
  unfold runCallback
  rcases hex : exec E st.2.1 m sess st.1 with ⟨⟨w1, mg1⟩, r1⟩
  rw [hex] at ht hk hx hf
  simp only at ht hk hx hf
  cases r1 with
  | some cause =>
    simp only
    cases hs : m.SkipMigrationLog with
    | true =>
      simp only [Bool.not_true, Bool.false_eq_true, if_false]
      exact ⟨evs, ht, hk, CallbackTrace.failedUnlogged evs cause hx hs⟩
    | false =>
      simp only [Bool.not_false, if_true, World.call, hf]
      cases hi : (E.Insert sess st.2.1.tableName { record with Error := cause.Error } w1.db).2 with
      | some ie =>
        refine ⟨_, ?_, hk, CallbackTrace.failedLogged evs cause (some ie) hx hs⟩
        simp only [ht, List.append_assoc]
      | none =>
        refine ⟨_, ?_, hk, CallbackTrace.failedLogged evs cause none hx hs⟩
        simp only [ht, List.append_assoc]
  | none =>
    simp only
    cases hs : m.SkipMigrationLog with
    | true =>
      simp only [Bool.not_true, Bool.false_eq_true, if_false]
      exact ⟨evs, ht, hk, CallbackTrace.doneUnlogged evs hx hs⟩
    | false =>
      simp only [Bool.not_false, if_true, World.call, hf]
      cases hi : (E.Insert sess st.2.1.tableName { record with Success := true } w1.db).2 with
      | some ie =>
        refine ⟨_, ?_, hk, CallbackTrace.doneLogged evs (some ie) hx hs⟩
        simp only [ht, List.append_assoc]
      | none =>
        refine ⟨_, ?_, hk, CallbackTrace.doneLogged evs none hx hs⟩
        simp only [ht, List.append_assoc]

theorem runCallback_frame {ω : Type} (E : Env ω) (m : Migration ω)
    (record : MigrationLog) (sess : Nat) (st : World ω × (Migrator ω × Nat)) :
    st.2.1.sameButLog (runCallback E m record sess st).1.2.1 ∧
      (m.keepsLog → (runCallback E m record sess st).1.2.1 = st.2.1) := by
  have hf := exec_frame E st.2.1 m sess st.1
  unfold runCallback
  rcases hex : exec E st.2.1 m sess st.1 with ⟨⟨w1, mg1⟩, r1⟩
  rw [hex] at hf
  simp only at hf
  cases r1 with
  | some cause =>
    simp only
    cases hs : m.SkipMigrationLog with
    | true => exact hf
    | false =>
      simp only [Bool.not_false, if_true, World.call]
      cases hi : (E.Insert sess mg1.tableName { record with Error := cause.Error } w1.db).2 <;>
        exact hf
  | none =>
    simp only
    cases hs : m.SkipMigrationLog with
    | true => exact hf
    | false =>
      simp only [Bool.not_false, if_true, World.call]
      cases hi : (E.Insert sess mg1.tableName { record with Success := true } w1.db).2 <;>
        exact hf

theorem InTransaction_trace {ω α : Type} (E : Env ω)
    (callback : Nat → World ω × α → (World ω × α) × Option GoError)
    (Cb : Nat → List Event → Option GoError → Prop)
    (st : World ω × α)
    (hcb : ∀ sess w, ∃ evs, (callback sess (w, st.2)).1.1.trace = w.trace ++ evs ∧
      Cb sess evs (callback sess (w, st.2)).2) :
    ∃ evs, (InTransaction E callback st).1.1.trace = st.1.trace ++ evs ∧
      TxTrace Cb evs (InTransaction E callback st).2 := by
  unfold InTransaction
  simp only [World.call]
  cases hb : (E.Begin (E.NewSession st.1.db).2 (E.NewSession st.1.db).1).2 with
  | some err =>
    simp only
    exact ⟨_, by simp only [List.append_assoc]; rfl, TxTrace.beginFailed _ err⟩
  | none =>
    simp only
    obtain ⟨evs, ht, hx⟩ := hcb (E.NewSession st.1.db).2
      { db := (E.Begin (E.NewSession st.1.db).2 (E.NewSession st.1.db).1).1,
        trace := st.1.trace ++ [Event.newSession (E.NewSession st.1.db).2] ++
          [Event.txBegin (E.NewSession st.1.db).2 none],
        ticks := st.1.ticks }
    rcases hc : callback (E.NewSession st.1.db).2
      ({ db := (E.Begin (E.NewSession st.1.db).2 (E.NewSession st.1.db).1).1,
         trace := st.1.trace ++ [Event.newSession (E.NewSession st.1.db).2] ++
           [Event.txBegin (E.NewSession st.1.db).2 none],
         ticks := st.1.ticks }, st.2) with ⟨st2, r2⟩
    rw [hc] at ht hx
    simp only at ht hx
    cases r2 with
    | some err =>
      simp only
      cases hr : (E.Rollback (E.NewSession st.1.db).2 st2.1.db).2 with
      | some rollErr =>
        refine ⟨_, ?_, TxTrace.rolledBack (E.NewSession st.1.db).2 evs err (some rollErr) hx⟩
        simp only [ht, List.append_assoc, List.cons_append, List.nil_append]
      | none =>
        refine ⟨_, ?_, TxTrace.rolledBack (E.NewSession st.1.db).2 evs err none hx⟩
        simp only [ht, List.append_assoc, List.cons_append, List.nil_append]
    | none =>
      simp only
      cases hr : (E.Commit (E.NewSession st.1.db).2 st2.1.db).2 with
      | some commitErr =>
        refine ⟨_, ?_, TxTrace.committed (E.NewSession st.1.db).2 evs (some commitErr) hx⟩
        simp only [ht, List.append_assoc, List.cons_append, List.nil_append]
      | none =>
        refine ⟨_, ?_, TxTrace.committed (E.NewSession st.1.db).2 evs none hx⟩
        simp only [ht, List.append_assoc, List.cons_append, List.nil_append]

theorem InTransaction_ticks {ω α : Type} (E : Env ω)
    (callback : Nat → World ω × α → (World ω × α) × Option GoError)
    (hcb : ∀ sess st, (callback sess st).1.1.ticks = st.1.ticks)
    (st : World ω × α) :
    (InTransaction E callback st).1.1.ticks = st.1.ticks := by
  unfold InTransaction
  simp only [World.call]
  cases hb : (E.Begin (E.NewSession st.1.db).2 (E.NewSession st.1.db).1).2 with
  | some err => rfl
  | none =>
    simp only
    have ht := hcb (E.NewSession st.1.db).2
      ({ db := (E.Begin (E.NewSession st.1.db).2 (E.NewSession st.1.db).1).1,
         trace := st.1.trace ++ [Event.newSession (E.NewSession st.1.db).2] ++
           [Event.txBegin (E.NewSession st.1.db).2 none],
         ticks := st.1.ticks }, st.2)
    rcases hc : callback (E.NewSession st.1.db).2
      ({ db := (E.Begin (E.NewSession st.1.db).2 (E.NewSession st.1.db).1).1,
         trace := st.1.trace ++ [Event.newSession (E.NewSession st.1.db).2] ++
           [Event.txBegin (E.NewSession st.1.db).2 none],
         ticks := st.1.ticks }, st.2) with ⟨st2, r2⟩
    rw [hc] at ht
    simp only at ht
    cases r2 with
    | some err =>
      simp only
      cases hr : (E.Rollback (E.NewSession st.1.db).2 st2.1.db).2 <;> exact ht
    | none =>
      simp only
      cases hr : (E.Commit (E.NewSession st.1.db).2 st2.1.db).2 <;> exact ht


theorem InTransaction_state {ω α : Type} (E : Env ω)
    (callback : Nat → World ω × α → (World ω × α) × Option GoError)
    (R : α → α → Prop) (hrefl : ∀ a, R a a)
    (hcb : ∀ sess st, R st.2 (callback sess st).1.2)
    (st : World ω × α) :
    R st.2 (InTransaction E callback st).1.2 := by
  unfold InTransaction
  simp only [World.call]
  cases hb : (E.Begin (E.NewSession st.1.db).2 (E.NewSession st.1.db).1).2 with
  | some err => exact hrefl _
  | none =>
    simp only
    have ht := hcb (E.NewSession st.1.db).2
      ({ db := (E.Begin (E.NewSession st.1.db).2 (E.NewSession st.1.db).1).1,
         trace := st.1.trace ++ [Event.newSession (E.NewSession st.1.db).2] ++
           [Event.txBegin (E.NewSession st.1.db).2 none],
         ticks := st.1.ticks }, st.2)
    rcases hc : callback (E.NewSession st.1.db).2
      ({ db := (E.Begin (E.NewSession st.1.db).2 (E.NewSession st.1.db).1).1,
         trace := st.1.trace ++ [Event.newSession (E.NewSession st.1.db).2] ++
           [Event.txBegin (E.NewSession st.1.db).2 none],
         ticks := st.1.ticks }, st.2) with ⟨st2, r2⟩
    rw [hc] at ht
    simp only at ht
    cases r2 with
    | some err =>
      simp only
      cases hr : (E.Rollback (E.NewSession st.1.db).2 st2.1.db).2 <;> exact ht
    | none =>
      simp only
      cases hr : (E.Commit (E.NewSession st.1.db).2 st2.1.db).2 <;> exact ht

theorem runMigration_trace {ω : Type} (E : Env ω) (m : Migration ω) (st : RunState ω) :
    ∃ blk, (runMigration E m st).1.w.trace = st.w.trace ++ blk ∧
      (runMigration E m st).1.w.ticks = st.w.ticks + 1 ∧
      TxTrace (CallbackTrace m st.mg.tableName (newRecord m (E.Now st.w.ticks))) blk
        (runMigration E m st).2 := by
  obtain ⟨blk, ht, hx⟩ := InTransaction_trace E
    (runCallback E m (newRecord m (E.Now st.w.ticks)))
    (CallbackTrace m st.mg.tableName (newRecord m (E.Now st.w.ticks)))
    ((st.w.now E).1, (st.mg, st.migrationsPerformed))
    (fun sess w0 =>
      let ⟨evs, h1, _, h3⟩ := runCallback_trace E m (newRecord m (E.Now st.w.ticks)) sess
        (w0, (st.mg, st.migrationsPerformed))
      ⟨evs, h1, h3⟩)
  refine ⟨blk, ht, ?_, hx⟩
  exact InTransaction_ticks E _ (fun sess s =>
    (runCallback_trace E m (newRecord m (E.Now st.w.ticks)) sess s).choose_spec.2.1) _

theorem runMigration_frame {ω : Type} (E : Env ω) (m : Migration ω) (st : RunState ω) :
    st.mg.sameButLog (runMigration E m st).1.mg ∧
      (m.keepsLog → (runMigration E m st).1.mg = st.mg) ∧
      (runMigration E m st).1.migrationsSkipped = st.migrationsSkipped :=
  ⟨InTransaction_state E (runCallback E m (newRecord m (E.Now st.w.ticks)))
      (fun a b => a.1.sameButLog b.1) (fun _ => Migrator.sameButLog_refl _)
      (fun sess s => (runCallback_frame E m _ sess s).1)
      ((st.w.now E).1, (st.mg, st.migrationsPerformed)),
    fun hk => InTransaction_state E (runCallback E m (newRecord m (E.Now st.w.ticks)))
      (fun a b => b.1 = a.1) (fun _ => rfl)
      (fun sess s => (runCallback_frame E m _ sess s).2 hk)
      ((st.w.now E).1, (st.mg, st.migrationsPerformed)),
    rfl⟩

theorem runLoop_trace {ω : Type} (E : Env ω) (ms : List (Migration ω)) :
    ∀ st : RunState ω, ∃ evs, (runLoop E ms st).1.w.trace = st.w.trace ++ evs ∧
      LoopTrace E st.mg ms st.w.ticks evs (runLoop E ms st).2 ∧
      st.mg.sameButLog (runLoop E ms st).1.mg := by
  induction ms with
  | nil =>
    intro st
    exact ⟨[], by simp [runLoop], LoopTrace.done _ _, Migrator.sameButLog_refl _⟩
  | cons m rest ih =>
    intro st
    cases hc : st.mg.logMap.contains m.Id with
    | true =>
      obtain ⟨evs, ht, hx, hf⟩ := ih { st with migrationsSkipped := st.migrationsSkipped + 1 }
      refine ⟨evs, ?_, ?_, ?_⟩
      · simpa [runLoop, hc] using ht
      · simpa [runLoop, hc] using LoopTrace.skip _ m rest _ evs _ hc hx
      · simpa [runLoop, hc] using hf
    | false =>
      obtain ⟨blk, ht, hk, hx⟩ := runMigration_trace E m st
      have hfr := (runMigration_frame E m st).1
      rcases hm : runMigration E m st with ⟨st1, r1⟩
      rw [hm] at ht hk hx hfr
      simp only at ht hk hx hfr
      cases r1 with
      | some err =>
        refine ⟨blk, ?_, ?_, ?_⟩
        · simpa [runLoop, hc, hm] using ht
        · simpa [runLoop, hc, hm] using LoopTrace.fail _ m rest _ blk err hc hx
        · simpa [runLoop, hc, hm] using hfr
      | none =>
        obtain ⟨evs, ht2, hx2, hf2⟩ := ih st1
        refine ⟨blk ++ evs, ?_, ?_, ?_⟩
        · simp only [runLoop, hc, hm, Bool.false_eq_true, if_false]
          rw [ht2, ht, List.append_assoc]
        · simp only [runLoop, hc, hm, Bool.false_eq_true, if_false]
          rw [hk] at hx2
          exact LoopTrace.step _ st1.mg m rest _ blk evs _ hc hx hfr.2.2.2 hx2
        · simp only [runLoop, hc, hm, Bool.false_eq_true, if_false]
          exact Migrator.sameButLog_trans _ _ _ hfr hf2

theorem runLoop_keeps {ω : Type} (E : Env ω) (ms : List (Migration ω))
    (hk : ∀ m ∈ ms, m.keepsLog) :
    ∀ st : RunState ω, (runLoop E ms st).1.mg = st.mg := by
  induction ms with
  | nil => intro st; rfl
  | cons m rest ih =>
    intro st
    have ih2 := ih (fun m0 h0 => hk m0 (List.mem_cons_of_mem _ h0))
    cases hc : st.mg.logMap.contains m.Id with
    | true =>
      simp only [runLoop, hc, if_true]
      exact ih2 _
    | false =>
      have hfr := (runMigration_frame E m st).2.1 (hk m (List.mem_cons_self _ _))
      rcases hm : runMigration E m st with ⟨st1, r1⟩
      rw [hm] at hfr
      simp only at hfr
      cases r1 with
      | some err => simpa [runLoop, hc, hm] using hfr
      | none =>
        simp only [runLoop, hc, hm, Bool.false_eq_true, if_false]
        rw [ih2 st1, hfr]

theorem GetMigrationLog_trace {ω : Type} (E : Env ω) (mg : Migrator ω) (w : World ω) :
    ∃ load, (GetMigrationLog E mg w).1.1.trace = w.trace ++ load ∧
      (GetMigrationLog E mg w).1.1.ticks = w.ticks ∧
      (∀ e ∈ load, e.isLoad = true) ∧
      (GetMigrationLog E mg w).1.2.migrations = mg.migrations ∧
      (GetMigrationLog E mg w).1.2.tableName = mg.tableName := by
  unfold GetMigrationLog
  simp only [World.call]
  cases h1 : (E.IsTableExist mg.tableName w.db).2 with
  | error err => exact ⟨_, rfl, rfl, by simp [Event.isLoad], rfl, rfl⟩
  | ok b =>
    cases b with
    | false => exact ⟨_, rfl, rfl, by simp [Event.isLoad], rfl, rfl⟩
    | true =>
      simp only
      cases h2 : (E.Find mg.tableName (E.IsTableExist mg.tableName w.db).1).2 with
      | error err =>
        exact ⟨_, by simp only [List.append_assoc]; rfl, rfl, by simp [Event.isLoad], rfl, rfl⟩
      | ok rows =>
        exact ⟨_, by simp only [List.append_assoc]; rfl, rfl, by simp [Event.isLoad], rfl, rfl⟩

theorem run_trace {ω : Type} (E : Env ω) (mg : Migrator ω) (w : World ω) :
    ∃ evs, (run E mg w).1.1.trace = w.trace ++ evs ∧
      RunTrace E (GetMigrationLog E mg w).1.2 w.ticks evs (run E mg w).2 := by
  obtain ⟨load, ht, hk, hl, -, -⟩ := GetMigrationLog_trace E mg w
  unfold run
  rcases hg : GetMigrationLog E mg w with ⟨⟨w1, mg1⟩, r1⟩
  rw [hg] at ht hk
  simp only at ht hk
  cases r1 with
  | error err => exact ⟨load, ht, RunTrace.loadFailed load err hl⟩
  | ok lm =>
    simp only
    obtain ⟨evs, ht2, hx2, -⟩ := runLoop_trace E mg1.migrations ⟨w1, mg1, 0, 0⟩
    rcases hr : runLoop E mg1.migrations ⟨w1, mg1, 0, 0⟩ with ⟨st2, r2⟩
    rw [hr] at ht2 hx2
    simp only at ht2 hx2
    rw [hk] at hx2
    cases r2 with
    | some err =>
      refine ⟨load ++ evs, ?_, RunTrace.loopFailed load evs err hl hx2⟩
      simp only [ht2, ht, List.append_assoc]
    | none =>
      refine ⟨load ++ (evs ++ [Event.sync2 (E.Sync2 st2.w.db).2]), ?_,
        RunTrace.synced load evs _ hl hx2⟩
      simp only [World.call, ht2, ht, List.append_assoc]

theorem GetMigrationLog_frame {ω : Type} (E : Env ω) (mg : Migrator ω) (w : World ω) :
    mg.sameButLog (GetMigrationLog E mg w).1.2 := by
  unfold GetMigrationLog
  simp only [World.call]
  cases (E.IsTableExist mg.tableName w.db).2 with
  | error err => exact Migrator.sameButLog_refl _
  | ok b =>
    cases b with
    | false => exact Migrator.sameButLog_refl _
    | true =>
      simp only
      cases (E.Find mg.tableName (E.IsTableExist mg.tableName w.db).1).2 with
      | error err => exact Migrator.sameButLog_refl _
      | ok rows => exact ⟨rfl, rfl, rfl, rfl⟩

theorem run_frame {ω : Type} (E : Env ω) (mg : Migrator ω) (w : World ω) :
    mg.sameButLog (run E mg w).1.2 := by
  have h := GetMigrationLog_frame E mg w
  unfold run
  rcases hg : GetMigrationLog E mg w with ⟨⟨w1, mg1⟩, r1⟩
  rw [hg] at h
  simp only at h
  cases r1 with
  | error err => exact h
  | ok lm =>
    simp only
    obtain ⟨evs, -, -, hf⟩ := runLoop_trace E mg1.migrations ⟨w1, mg1, 0, 0⟩
    rcases hr : runLoop E mg1.migrations ⟨w1, mg1, 0, 0⟩ with ⟨st2, r2⟩
    rw [hr] at hf
    simp only at hf
    cases r2 <;> exact Migrator.sameButLog_trans _ _ _ h hf

/-! ## Properties of every trace -/

theorem GoError.Is_refl (e : GoError) : e.Is e = true := by
  cases e <;> simp [GoError.Is]

theorem GoError.Is_wrap (msg : String) (e target : GoError) (h : e.Is target = true) :
    (GoError.wrapError msg e).Is target = true := by
  simp [GoError.Is, h]

theorem exec_session {ω : Type} (m : Migration ω) (s : Nat) (evs : List Event)
    (r : Option GoError) (h : ExecTrace m s evs r) : ∀ e ∈ evs, e.session = some s := by
  cases h <;> simp [Event.session]

theorem callback_session {ω : Type} (m : Migration ω) (table : String) (record : MigrationLog)
    (s : Nat) (evs : List Event) (r : Option GoError)
    (h : CallbackTrace m table record s evs r) : ∀ e ∈ evs, e.session = some s := by
  cases h with
  | failedUnlogged evs cause hx hs => exact exec_session m s evs _ hx
  | doneUnlogged evs hx hs => exact exec_session m s evs _ hx
  | failedLogged evs cause insertErr hx hs =>
    intro e he
    rcases List.mem_append.1 he with h1 | h1
    · exact exec_session m s evs _ hx e h1
    · simp only [List.mem_singleton] at h1
      subst h1
      rfl
  | doneLogged evs _ hx hs =>
    intro e he
    rcases List.mem_append.1 he with h1 | h1
    · exact exec_session m s evs _ hx e h1
    · simp only [List.mem_singleton] at h1
      subst h1
      rfl

theorem block_session {ω : Type} (m : Migration ω) (table : String) (record : MigrationLog)
    (blk : List Event) (r : Option GoError)
    (h : TxTrace (CallbackTrace m table record) blk r) :
    ∃ s, ∀ e ∈ blk, e.session = some s := by
  cases h with
  | beginFailed s err => exact ⟨s, by simp [Event.session]⟩
  | rolledBack s evs err rollErr hcb =>
    refine ⟨s, fun e he => ?_⟩
    simp only [List.mem_cons, List.mem_append, List.mem_singleton, List.not_mem_nil,
      or_false] at he
    rcases he with rfl | rfl | h1 | rfl | rfl
    · rfl
    · rfl
    · exact callback_session m table record s evs _ hcb e h1
    · rfl
    · rfl
  | committed s evs _ hcb =>
    refine ⟨s, fun e he => ?_⟩
    simp only [List.mem_cons, List.mem_append, List.mem_singleton, List.not_mem_nil,
      or_false] at he
    rcases he with rfl | rfl | h1 | rfl | rfl
    · rfl
    · rfl
    · exact callback_session m table record s evs _ hcb e h1
    · rfl
    · rfl

theorem loop_session {ω : Type} (E : Env ω) (mg : Migrator ω) (ms : List (Migration ω))
    (ticks : Nat) (evs : List Event) (r : Option GoError)
    (h : LoopTrace E mg ms ticks evs r) : ∀ e ∈ evs, e.session.isSome = true := by
  induction h with
  | done mg ticks => simp
  | skip mg m rest ticks evs r hc _ ih => exact ih
  | fail mg m rest ticks blk err hc hb =>
    obtain ⟨s, hs⟩ := block_session _ _ _ _ _ hb
    intro e he
    simp [hs e he]
  | step mg mg2 m rest ticks blk evs r hc hb htab _ ih =>
    obtain ⟨s, hs⟩ := block_session _ _ _ _ _ hb
    intro e he
    rcases List.mem_append.1 he with h1 | h1
    · simp [hs e h1]
    · exact ih e h1

theorem exec_ids {ω : Type} (m : Migration ω) (s : Nat) (evs : List Event)
    (r : Option GoError) (h : ExecTrace m s evs r) :
    (∀ e ∈ evs, e.migrationId = some m.Id) ∧ ∃ e ∈ evs, e.migrationId = some m.Id := by
  cases h <;> simp [Event.migrationId]

theorem callback_ids {ω : Type} (m : Migration ω) (table : String) (record : MigrationLog)
    (s : Nat) (evs : List Event) (r : Option GoError)
    (h : CallbackTrace m table record s evs r) :
    (∀ e ∈ evs, ∀ id, e.migrationId = some id → id = m.Id) ∧
      ∃ e ∈ evs, e.migrationId = some m.Id := by
  have key : ∀ l : List Event, ∀ r0, ExecTrace m s l r0 → ∀ tail : List Event,
      (∀ e ∈ tail, e.migrationId = none) →
      (∀ e ∈ l ++ tail, ∀ id, e.migrationId = some id → id = m.Id) ∧
        ∃ e ∈ l ++ tail, e.migrationId = some m.Id := by
    intro l r0 hx tail ht
    obtain ⟨h1, e0, h2, h3⟩ := exec_ids m s l r0 hx
    refine ⟨fun e he id hid => ?_, e0, List.mem_append_left _ h2, h3⟩
    rcases List.mem_append.1 he with h4 | h4
    · rw [h1 e h4] at hid
      exact (Option.some.inj hid).symm
    · rw [ht e h4] at hid
      cases hid
  cases h with
  | failedUnlogged evs cause hx hs => simpa using key evs _ hx [] (by simp)
  | doneUnlogged evs hx hs => simpa using key evs _ hx [] (by simp)
  | failedLogged evs cause insertErr hx hs => exact key evs _ hx _ (by simp [Event.migrationId])
  | doneLogged evs _ hx hs => exact key evs _ hx _ (by simp [Event.migrationId])

theorem block_ids {ω : Type} (m : Migration ω) (table : String) (record : MigrationLog)
    (blk : List Event) (r : Option GoError)
    (h : TxTrace (CallbackTrace m table record) blk r) :
    (∀ e ∈ blk, ∀ id, e.migrationId = some id → id = m.Id) ∧
      (r = none → ∃ e ∈ blk, e.migrationId = some m.Id) := by
  have key : ∀ (s : Nat) (evs : List Event) (r0 : Option GoError) (fin : Event),
      CallbackTrace m table record s evs r0 → fin.migrationId = none →
      (∀ e ∈ Event.newSession s :: Event.txBegin s none :: (evs ++ [fin, Event.close s]),
        ∀ id, e.migrationId = some id → id = m.Id) ∧
      ∃ e ∈ Event.newSession s :: Event.txBegin s none :: (evs ++ [fin, Event.close s]),
        e.migrationId = some m.Id := by
    intro s evs r0 fin hcb hfin
    obtain ⟨h1, e0, h2, h3⟩ := callback_ids m table record s evs r0 hcb
    refine ⟨fun e he id hid => ?_, e0, by simp [h2], h3⟩
    simp only [List.mem_cons, List.mem_append, List.mem_singleton, List.not_mem_nil,
      or_false] at he
    rcases he with rfl | rfl | h4 | rfl | rfl
    · cases hid
    · cases hid
    · exact h1 e h4 id hid
    · rw [hfin] at hid
      cases hid
    · cases hid
  cases h with
  | beginFailed s err => simp [Event.migrationId]
  | rolledBack s evs err rollErr hcb =>
    exact ⟨(key s evs _ (Event.rollback s rollErr) hcb rfl).1, by simp⟩
  | committed s evs _ hcb =>
    exact ⟨(key s evs _ (Event.commit s r) hcb rfl).1,
      fun _ => (key s evs _ (Event.commit s r) hcb rfl).2⟩

theorem Migration.keepsLog_of_declarative {ω : Type} (m : Migration ω) (h : m.Exec = none) :
    m.keepsLog := by
  intro code hc
  rw [h] at hc
  cases hc

theorem runLoop_ids {ω : Type} (E : Env ω) (ms : List (Migration ω))
    (hk : ∀ m ∈ ms, m.keepsLog) :
    ∀ st : RunState ω, ∃ evs, (runLoop E ms st).1.w.trace = st.w.trace ++ evs ∧
      (∀ e ∈ evs, ∀ id, e.migrationId = some id → st.mg.logMap.contains id = false) ∧
      ((runLoop E ms st).2 = none → ∀ m ∈ ms, st.mg.logMap.contains m.Id = false →
        ∃ e ∈ evs, e.migrationId = some m.Id) := by
  induction ms with
  | nil => intro st; exact ⟨[], by simp [runLoop], by simp, by simp⟩
  | cons m rest ih =>
    intro st
    have ih2 := ih (fun m0 h0 => hk m0 (List.mem_cons_of_mem _ h0))
    cases hc : st.mg.logMap.contains m.Id with
    | true =>
      obtain ⟨evs, ht, h1, h2⟩ := ih2 { st with migrationsSkipped := st.migrationsSkipped + 1 }
      simp only [runLoop, hc, if_true]
      refine ⟨evs, ht, h1, fun hr m0 hm0 hc0 => ?_⟩
      rcases List.mem_cons.1 hm0 with rfl | h3
      · rw [hc] at hc0
        cases hc0
      · exact h2 hr m0 h3 hc0
    | false =>
      obtain ⟨blk, ht, -, hx⟩ := runMigration_trace E m st
      have hfr := (runMigration_frame E m st).2.1 (hk m (List.mem_cons_self _ _))
      rcases hm : runMigration E m st with ⟨st1, r1⟩
      rw [hm] at ht hx hfr
      simp only at ht hx hfr
      have hb := block_ids _ _ _ _ _ hx
      cases r1 with
      | some err =>
        simp only [runLoop, hc, hm, Bool.false_eq_true, if_false]
        refine ⟨blk, ht, fun e he id hid => ?_, by simp⟩
        rw [hb.1 e he id hid]
        exact hc
      | none =>
        obtain ⟨evs, ht2, h1, h2⟩ := ih2 st1
        rw [hfr] at h1 h2
        simp only [runLoop, hc, hm, Bool.false_eq_true, if_false]
        refine ⟨blk ++ evs, by rw [ht2, ht, List.append_assoc], fun e he id hid => ?_,
          fun hr m0 hm0 hc0 => ?_⟩
        · rcases List.mem_append.1 he with h3 | h3
          · rw [hb.1 e h3 id hid]
            exact hc
          · exact h1 e h3 id hid
        · rcases List.mem_cons.1 hm0 with rfl | h3
          · obtain ⟨e, he, hid⟩ := hb.2 rfl
            exact ⟨e, List.mem_append_left _ he, hid⟩
          · obtain ⟨e, he, hid⟩ := h2 hr m0 h3 hc0
            exact ⟨e, List.mem_append_right _ he, hid⟩

theorem callback_inserts {ω : Type} (m : Migration ω) (table : String) (record : MigrationLog)
    (s : Nat) (evs : List Event) (r : Option GoError)
    (h : CallbackTrace m table record s evs r) :
    ∀ e ∈ evs, ∀ row, e.inserted = some row →
      m.SkipMigrationLog = false ∧ row.MigrationID = record.MigrationID := by
  have key : ∀ l : List Event, ∀ r0, ExecTrace m s l r0 → ∀ e ∈ l, e.inserted = none := by
    intro l r0 hx
    cases hx <;> simp [Event.inserted]
  cases h with
  | failedUnlogged evs cause hx hs =>
    intro e he row hrow
    rw [key evs _ hx e he] at hrow
    cases hrow
  | doneUnlogged evs hx hs =>
    intro e he row hrow
    rw [key evs _ hx e he] at hrow
    cases hrow
  | failedLogged evs cause insertErr hx hs =>
    intro e he row hrow
    rcases List.mem_append.1 he with h1 | h1
    · rw [key evs _ hx e h1] at hrow
      cases hrow
    · simp only [List.mem_singleton] at h1
      subst h1
      simp only [Event.inserted, Option.some.injEq] at hrow
      subst hrow
      exact ⟨hs, rfl⟩
  | doneLogged evs insertErr hx hs =>
    intro e he row hrow
    rcases List.mem_append.1 he with h1 | h1
    · rw [key evs _ hx e h1] at hrow
      cases hrow
    · simp only [List.mem_singleton] at h1
      subst h1
      simp only [Event.inserted, Option.some.injEq] at hrow
      subst hrow
      exact ⟨hs, rfl⟩

theorem block_inserts {ω : Type} (m : Migration ω) (table : String) (record : MigrationLog)
    (blk : List Event) (r : Option GoError)
    (h : TxTrace (CallbackTrace m table record) blk r) :
    ∀ e ∈ blk, ∀ row, e.inserted = some row →
      m.SkipMigrationLog = false ∧ row.MigrationID = record.MigrationID := by
  have key : ∀ (s : Nat) (evs : List Event) (r0 : Option GoError) (fin : Event),
      CallbackTrace m table record s evs r0 → fin.inserted = none →
      ∀ e ∈ Event.newSession s :: Event.txBegin s none :: (evs ++ [fin, Event.close s]),
        ∀ row, e.inserted = some row →
          m.SkipMigrationLog = false ∧ row.MigrationID = record.MigrationID := by
    intro s evs r0 fin hcb hfin e he row hrow
    simp only [List.mem_cons, List.mem_append, List.mem_singleton, List.not_mem_nil,
      or_false] at he
    rcases he with rfl | rfl | h4 | rfl | rfl
    · cases hrow
    · cases hrow
    · exact callback_inserts m table record s evs r0 hcb e h4 row hrow
    · rw [hfin] at hrow
      cases hrow
    · cases hrow
  cases h with
  | beginFailed s err =>
    intro e he row hrow
    simp only [List.mem_cons, List.mem_singleton, List.not_mem_nil, or_false] at he
    rcases he with rfl | rfl | rfl <;> cases hrow
  | rolledBack s evs err rollErr hcb => exact key s evs _ (Event.rollback s rollErr) hcb rfl
  | committed s evs _ hcb => exact key s evs _ (Event.commit s r) hcb rfl

theorem loop_inserts {ω : Type} (E : Env ω) (mg : Migrator ω) (ms : List (Migration ω))
    (ticks : Nat) (evs : List Event) (r : Option GoError)
    (h : LoopTrace E mg ms ticks evs r) :
    ∀ e ∈ evs, ∀ row, e.inserted = some row →
      ∃ m ∈ ms, m.SkipMigrationLog = false ∧ row.MigrationID = m.Id := by
  induction h with
  | done mg ticks => simp
  | skip mg m rest ticks evs r hc _ ih =>
    intro e he row hrow
    obtain ⟨m0, h0, h1⟩ := ih e he row hrow
    exact ⟨m0, List.mem_cons_of_mem _ h0, h1⟩
  | fail mg m rest ticks blk err hc hb =>
    intro e he row hrow
    exact ⟨m, List.mem_cons_self _ _, block_inserts _ _ _ _ _ hb e he row hrow⟩
  | step mg mg2 m rest ticks blk evs r hc hb htab _ ih =>
    intro e he row hrow
    rcases List.mem_append.1 he with h1 | h1
    · exact ⟨m, List.mem_cons_self _ _, block_inserts _ _ _ _ _ hb e h1 row hrow⟩
    · obtain ⟨m0, h0, h2⟩ := ih e h1 row hrow
      exact ⟨m0, List.mem_cons_of_mem _ h0, h2⟩

theorem run_ids {ω : Type} (E : Env ω) (mg : Migrator ω) (w : World ω)
    (hk : ∀ m ∈ mg.migrations, m.keepsLog) :
    ∃ evs, (run E mg w).1.1.trace = w.trace ++ evs ∧
      (∀ e ∈ evs, ∀ id, e.migrationId = some id →
        (GetMigrationLog E mg w).1.2.logMap.contains id = false) ∧
      ((run E mg w).2 = none →
        ∀ m ∈ mg.migrations, (GetMigrationLog E mg w).1.2.logMap.contains m.Id = false →
          ∃ e ∈ evs, e.migrationId = some m.Id) ∧
      (run E mg w).1.2 = (GetMigrationLog E mg w).1.2 := by
  obtain ⟨load, ht, -, hl, hmig, -⟩ := GetMigrationLog_trace E mg w
  have hload : ∀ e ∈ load, e.migrationId = none := by
    intro e he
    have := hl e he
    cases e <;> simp_all [Event.isLoad, Event.migrationId]
  unfold run
  rcases hg : GetMigrationLog E mg w with ⟨⟨w1, mg1⟩, r1⟩
  rw [hg] at ht hmig
  simp only at ht hmig
  cases r1 with
  | error err =>
    refine ⟨load, ht, fun e he id hid => ?_, by simp, rfl⟩
    rw [hload e he] at hid
    cases hid
  | ok lm =>
    simp only
    obtain ⟨evs1, ht1, h1, h2⟩ := runLoop_ids E mg1.migrations
      (by rw [hmig]; exact hk) ⟨w1, mg1, 0, 0⟩
    have hkeep := runLoop_keeps E mg1.migrations (by rw [hmig]; exact hk) ⟨w1, mg1, 0, 0⟩
    rcases hr : runLoop E mg1.migrations ⟨w1, mg1, 0, 0⟩ with ⟨st2, r2⟩
    rw [hr] at ht1 h2 hkeep
    simp only at ht1 h1 h2 hkeep
    cases r2 with
    | some err =>
      refine ⟨load ++ evs1, by simp only [ht1, ht, List.append_assoc],
        fun e he id hid => ?_, by simp, hkeep⟩
      rcases List.mem_append.1 he with h3 | h3
      · rw [hload e h3] at hid
        cases hid
      · exact h1 e h3 _ hid
    | none =>
      refine ⟨load ++ (evs1 ++ [Event.sync2 (E.Sync2 st2.w.db).2]),
        by simp only [World.call, ht1, ht, List.append_assoc],
        fun e he id hid => ?_, fun _ m hm hc => ?_, hkeep⟩
      · simp only [List.mem_append, List.mem_singleton] at he
        rcases he with h3 | h3 | h3
        · rw [hload e h3] at hid
          cases hid
        · exact h1 e h3 _ hid
        · subst h3
          cases hid
      · rw [← hmig] at hm
        obtain ⟨e, he, hid⟩ := h2 rfl m hm hc
        exact ⟨e, by simp [he], hid⟩

/-- C7, as the code has it: the loop of `run` skips a migration exactly when the in-memory log
of the migrator holds an entry for its id when the loop gets to it, whether or not it is a
skip-log migration, and otherwise runs it in its transaction. When no code migration of the
registry changes the in-memory log, that log is the loaded log (the migrator's `logMap` once
`GetMigrationLog` has run): no probe, statement or code body is issued for an id with an
entry in it, and in a run that ends without error every registered migration whose id has
no entry is probed or executed. Every log record that the run inserts carries the id of a
registered migration that is not skip-log. -/
theorem run_skips_logged {ω : Type} (E : Env ω) (mg : Migrator ω) (w : World ω)
    (evs : List Event) (htrace : (run E mg w).1.1.trace = w.trace ++ evs) :
    (∀ (m : Migration ω) (rest : List (Migration ω)) (st : RunState ω),
      st.mg.logMap.contains m.Id = true →
      runLoop E (m :: rest) st =
        runLoop E rest { st with migrationsSkipped := st.migrationsSkipped + 1 }) ∧
    (∀ (m : Migration ω) (rest : List (Migration ω)) (st : RunState ω),
      st.mg.logMap.contains m.Id = false →
      runLoop E (m :: rest) st =
        match runMigration E m st with
        | (st, some err) =>
          (st, some (errorfWrap ("migration failed (id = " ++ m.Id ++ ")") err))
        | (st, none) => runLoop E rest st) ∧
    ((∀ m ∈ mg.migrations, m.keepsLog) →
      (∀ m ∈ mg.migrations, (GetMigrationLog E mg w).1.2.logMap.contains m.Id = true →
        ∀ e ∈ evs, e.migrationId ≠ some m.Id) ∧
      ((run E mg w).2 = none →
        ∀ m ∈ mg.migrations, (GetMigrationLog E mg w).1.2.logMap.contains m.Id = false →
          ∃ e ∈ evs, e.migrationId = some m.Id)) ∧
    (∀ e ∈ evs, ∀ row, e.inserted = some row →
      ∃ m ∈ mg.migrations, m.SkipMigrationLog = false ∧ row.MigrationID = m.Id) := by
  have hmig := (GetMigrationLog_trace E mg w).choose_spec.2.2.2.1
  refine ⟨fun m rest st hc => ?_, fun m rest st hc => ?_, fun hk => ?_, ?_⟩
  · simp only [runLoop, hc, if_true]
  · simp only [runLoop, hc, Bool.false_eq_true, if_false]
  · obtain ⟨evs1, ht, h1, h2, -⟩ := run_ids E mg w hk
    have he : evs1 = evs := List.append_cancel_left (ht.symm.trans htrace)
    subst he
    refine ⟨fun m hm hc e he hid => ?_, h2⟩
    rw [h1 e he _ hid] at hc
    cases hc
  · obtain ⟨evs1, ht, hx⟩ := run_trace E mg w
    have he : evs1 = evs := List.append_cancel_left (ht.symm.trans htrace)
    subst he
    have hnone : ∀ load : List Event, (∀ e ∈ load, e.isLoad = true) →
        ∀ e ∈ load, e.inserted = none := by
      intro load hl e he
      have := hl e he
      cases e <;> simp_all [Event.isLoad, Event.inserted]
    generalize (run E mg w).2 = r at hx
    rw [← hmig]
    cases hx with
    | loadFailed load err hl =>
      intro e he row hrow
      rw [hnone _ hl e he] at hrow
      cases hrow
    | loopFailed load evs err hl hloop =>
      intro e he row hrow
      rcases List.mem_append.1 he with h1 | h1
      · rw [hnone load hl e h1] at hrow
        cases hrow
      · exact loop_inserts E _ _ _ _ _ hloop e h1 row hrow
    | synced load evs r hl hloop =>
      intro e he row hrow
      simp only [List.mem_append, List.mem_singleton] at he
      rcases he with h1 | h1 | h1
      · rw [hnone load hl e h1] at hrow
        cases hrow
      · exact loop_inserts E _ _ _ _ _ hloop e h1 row hrow
      · subst h1
        cases hrow

/-- Witness for C7: "A" is in the log and skipped, "B" is not and is executed. -/
theorem run_skips_logged_witness :
    ∃ e ∈ [Event.isTableExist "migration_log" (Except.ok true),
        Event.find "migration_log" (Except.ok [sampleRow 1 "A" 0]),
        Event.newSession 0, Event.txBegin 0 none, Event.execSQL 0 "B" "B" none,
        Event.insert 0 "migration_log" (sampleRow 0 "B" 0) none,
        Event.commit 0 none, Event.close 0, Event.sync2 none],
      e.migrationId = some "B" :=
  ((run_skips_logged sampleEnv (sampleMigrator [sampleMigration "A", sampleMigration "B"])
    (freshWorld (logStore [sampleRow 1 "A" 0])) _ (by decide)).2.2.1
      (fun m hm => Migration.keepsLog_of_declarative m (by
        have hlist : (sampleMigrator [sampleMigration "A", sampleMigration "B"]).migrations =
            [sampleMigration "A", sampleMigration "B"] := rfl
        rw [hlist] at hm
        simp only [List.mem_cons, List.mem_singleton, List.not_mem_nil, or_false] at hm
        rcases hm with rfl | rfl <;> rfl))).2 (by decide)
    (sampleMigration "B") (List.Mem.tail _ (List.Mem.head _)) (by decide)

/-- Counterexample to C7 as stated: a skip-log migration whose id has a success row in the log
is skipped: the run loads the log, issues nothing for "A" and goes on to `Sync2`. -/
theorem run_skips_unlogged_in_log :
    (sampleUnlogged "A").SkipMigrationLog = true ∧
    (run (memEnv (sampleBackend "migration_log" [] [])) (sampleMigrator [sampleUnlogged "A"])
      (freshWorld ⟨[], ⟨[("migration_log",
        [{ Id := 1, MigrationID := "A", SQL := "A", Success := true, Error := "",
           Timestamp := 0 }])]⟩⟩)).1.1.trace =
      [Event.isTableExist "migration_log" (Except.ok true),
        Event.find "migration_log" (Except.ok
          [{ Id := 1, MigrationID := "A", SQL := "A", Success := true, Error := "",
             Timestamp := 0 }]),
        Event.sync2 none] := by
  decide

/-! ## Unfulfilled conditions -/

/-- C8, as the code has it: when the loop of `run` reaches a migration that is not in the log
and whose probe query succeeds with a result that does not fulfil the condition, the statement
or code body is not issued, but the migration is treated as applied: unless it is skip-log a
log record with `Success = true` is inserted for it, and when that insert and the commit
succeed it is counted in `migrationsPerformed` and the loop goes on with the next migration. -/
theorem runLoop_unfulfilled {ω : Type} (E : Env ω) (m : Migration ω)
    (rest : List (Migration ω)) (st : RunState ω) (cond : MigrationCondition)
    (results : Results) (s : Nat) (db1 db2 db3 db4 db5 : ω)
    (hlog : st.mg.logMap.contains m.Id = false)
    (hcond : m.Condition = some cond) (hsql : cond.SQL.1 ≠ "")
    (hsess : E.NewSession st.w.db = (db1, s))
    (hbegin : E.Begin s db1 = (db2, none))
    (hquery : E.Query s cond.SQL.1 cond.SQL.2 db2 = (db3, Except.ok results))
    (hno : cond.IsFulfilled results = false)
    (hinsert : if m.SkipMigrationLog then db4 = db3 else
      E.Insert s st.mg.tableName { newRecord m (E.Now st.w.ticks) with Success := true } db3
        = (db4, none))
    (hcommit : E.Commit s db4 = (db5, none)) :
    runLoop E (m :: rest) st =
      runLoop E rest
        { w :=
            { db := (E.Close s db5).1
              trace := st.w.trace ++
                ([Event.newSession s, Event.txBegin s none,
                  Event.query s m.Id cond.SQL.1 (Except.ok results)] ++
                 (if m.SkipMigrationLog then []
                  else [Event.insert s st.mg.tableName
                    { newRecord m (E.Now st.w.ticks) with Success := true } none]) ++
                 [Event.commit s none, Event.close s])
              ticks := st.w.ticks + 1 }
          mg := st.mg
          migrationsPerformed := st.migrationsPerformed + 1
          migrationsSkipped := st.migrationsSkipped } := by
  have hb : (cond.SQL.1 != "") = true := by simpa using hsql
  cases hs : m.SkipMigrationLog with
  | true =>
    simp only [hs, if_true] at hinsert
    subst hinsert
    simp [runLoop, hlog, runMigration, InTransaction, runCallback, exec, execBody, World.call,
      World.now, hcond, hb, hsess, hbegin, hquery, hno, hs, hcommit, newRecord]
  | false =>
    simp only [hs, Bool.false_eq_true, if_false] at hinsert
    simp only [newRecord] at hinsert
    simp [runLoop, hlog, runMigration, InTransaction, runCallback, exec, execBody, World.call,
      World.now, hcond, hb, hsess, hbegin, hquery, hno, hs, hcommit, hinsert, newRecord]

/-- Witness for C8: a guarded, logged migration whose probe comes back empty. -/
theorem runLoop_unfulfilled_witness :
    (runLoop sampleEnv [sampleGuarded "M"]
      ⟨freshWorld (logStore []), sampleMigrator [sampleGuarded "M"], 0, 0⟩).1.migrationsPerformed = 0 + 1 :=
  congrArg (fun r => r.1.migrationsPerformed)
    (runLoop_unfulfilled sampleEnv (sampleGuarded "M") []
      ⟨freshWorld (logStore []), sampleMigrator [sampleGuarded "M"], 0, 0⟩ sampleCondition [] 0
      ⟨logStore [], [], 1⟩ ⟨logStore [], [], 1⟩ ⟨logStore [], [], 1⟩
      ⟨logStore [], [(0, logStore [sampleRow 1 "M" 0])], 1⟩
      ⟨logStore [sampleRow 1 "M" 0], [], 1⟩
      (by decide) rfl (by decide) rfl rfl rfl rfl (by decide) (by decide))

/-- Counterexample to C8 as stated: the probe of "M" is not fulfilled, its statement is not
executed, and yet the run writes and commits a success row for "M" and counts it as
performed. -/
theorem run_logs_unfulfilled :
    (run sampleEnv (sampleMigrator [sampleGuarded "M"]) (freshWorld (logStore []))).1.1.trace =
      [Event.isTableExist "migration_log" (Except.ok true),
        Event.find "migration_log" (Except.ok []),
        Event.newSession 0, Event.txBegin 0 none,
        Event.query 0 "M" "probe" (Except.ok []),
        Event.insert 0 "migration_log" (sampleRow 0 "M" 0) none,
        Event.commit 0 none, Event.close 0, Event.sync2 none] ∧
    (run sampleEnv (sampleMigrator [sampleGuarded "M"]) (freshWorld (logStore []))).1.1.db.committed =
      logStore [sampleRow 1 "M" 0] ∧
    (runLoop sampleEnv [sampleGuarded "M"]
      ⟨freshWorld (logStore []), sampleMigrator [sampleGuarded "M"], 0, 0⟩).1.migrationsPerformed = 1 := by
  decide

/-! ## Ordering -/

theorem append_split {α : Type} (l1 l2 : List α) (x : α) :
    ∀ (pre post : List α), l1 ++ l2 = pre ++ x :: post →
      (∃ post', l1 = pre ++ x :: post' ∧ post = post' ++ l2) ∨
      (∃ pre', l2 = pre' ++ x :: post ∧ pre = l1 ++ pre') := by
  induction l1 with
  | nil => intro pre post h; exact Or.inr ⟨pre, by simpa using h, by simp⟩
  | cons a l1 ih =>
    intro pre post h
    cases pre with
    | nil =>
      simp only [List.cons_append, List.nil_append, List.cons.injEq] at h
      exact Or.inl ⟨l1, by simp [h.1], h.2.symm⟩
    | cons b pre =>
      simp only [List.cons_append, List.cons.injEq] at h
      rcases ih pre post h.2 with ⟨post', h1, h2⟩ | ⟨pre', h1, h2⟩
      · exact Or.inl ⟨post', by simp [h.1, h1], h2⟩
      · exact Or.inr ⟨pre', h1, by simp [h.1, h2]⟩

theorem exec_shape {ω : Type} (m : Migration ω) (s : Nat) (evs : List Event)
    (r : Option GoError) (h : ExecTrace m s evs r) :
    (∀ e ∈ evs, e.isTxBoundary = false ∧ e.inserted = none ∧ e.insertFailure = none) ∧
      (evs.filterMap Event.executed = [] ∨ evs.filterMap Event.executed = [m.Id]) := by
  cases h <;>
    simp [Event.isTxBoundary, Event.inserted, Event.insertFailure, Event.executed]

theorem callback_shape {ω : Type} (m : Migration ω) (table : String) (record : MigrationLog)
    (s : Nat) (evs : List Event) (r : Option GoError)
    (h : CallbackTrace m table record s evs r) :
    (∀ e ∈ evs, e.isTxBoundary = false) ∧
      (evs.filterMap Event.executed = [] ∨ evs.filterMap Event.executed = [m.Id]) ∧
      (∀ e ∈ evs, ∀ rec, e.inserted = some rec → rec.Timestamp = record.Timestamp) := by
  have key : ∀ l : List Event, ∀ r0, ExecTrace m s l r0 → ∀ tail : List Event,
      (∀ e ∈ tail, e.isTxBoundary = false ∧ e.executed = none ∧
        ∀ rec, e.inserted = some rec → rec.Timestamp = record.Timestamp) →
      (∀ e ∈ l ++ tail, e.isTxBoundary = false) ∧
      ((l ++ tail).filterMap Event.executed = [] ∨
        (l ++ tail).filterMap Event.executed = [m.Id]) ∧
      (∀ e ∈ l ++ tail, ∀ rec, e.inserted = some rec →
        rec.Timestamp = record.Timestamp) := by
    intro l r0 hx tail ht
    obtain ⟨h1, h2⟩ := exec_shape m s l r0 hx
    have h3 : tail.filterMap Event.executed = [] := by
      rw [List.filterMap_eq_nil_iff]
      exact fun e he => (ht e he).2.1
    refine ⟨fun e he => ?_, ?_, fun e he rec hrec => ?_⟩
    · rcases List.mem_append.1 he with h4 | h4
      · exact (h1 e h4).1
      · exact (ht e h4).1
    · rw [List.filterMap_append, h3, List.append_nil]
      exact h2
    · rcases List.mem_append.1 he with h4 | h4
      · rw [(h1 e h4).2.1] at hrec
        cases hrec
      · exact (ht e h4).2.2 rec hrec
  cases h with
  | failedUnlogged evs cause hx hs => simpa using key evs _ hx [] (by simp)
  | doneUnlogged evs hx hs => simpa using key evs _ hx [] (by simp)
  | failedLogged evs cause insertErr hx hs =>
    exact key evs _ hx _ (by simp [Event.isTxBoundary, Event.executed, Event.inserted])
  | doneLogged evs _ hx hs =>
    exact key evs _ hx _ (by simp [Event.isTxBoundary, Event.executed, Event.inserted])

theorem mem_of_split {α : Type} (l pre post : List α) (x : α) (h : l = pre ++ x :: post) :
    x ∈ l := by
  rw [h]; simp

theorem block_shape {ω : Type} (m : Migration ω) (table : String) (record : MigrationLog)
    (blk : List Event) (r : Option GoError)
    (h : TxTrace (CallbackTrace m table record) blk r) :
    ∃ s br tail, blk = Event.newSession s :: Event.txBegin s br :: tail ∧
      (∀ e ∈ tail, e.isTxBegin = false) ∧
      (r = none → br = none ∧ Event.commit s none ∈ tail) ∧
      (tail.filterMap Event.executed = [] ∨ tail.filterMap Event.executed = [m.Id]) ∧
      (∀ e ∈ tail, ∀ rec, e.inserted = some rec → rec.Timestamp = record.Timestamp) ∧
      (∀ pre ev post id, tail = pre ++ ev :: post → ev.executed = some id →
        br = none ∧ ev.session = some s ∧
        ∀ e ∈ pre, e.executed = none ∧ e.isTxBoundary = false) := by
  have key : ∀ (s : Nat) (evs : List Event) (r0 : Option GoError) (fin : Event),
      CallbackTrace m table record s evs r0 →
      fin.isTxBegin = false → fin.executed = none → fin.inserted = none →
      (∀ e ∈ evs ++ [fin, Event.close s], e.isTxBegin = false) ∧
      ((evs ++ [fin, Event.close s]).filterMap Event.executed = [] ∨
        (evs ++ [fin, Event.close s]).filterMap Event.executed = [m.Id]) ∧
      (∀ e ∈ evs ++ [fin, Event.close s], ∀ rec, e.inserted = some rec →
        rec.Timestamp = record.Timestamp) ∧
      (∀ pre ev post id, evs ++ [fin, Event.close s] = pre ++ ev :: post →
        ev.executed = some id →
        ev.session = some s ∧ ∀ e ∈ pre, e.executed = none ∧ e.isTxBoundary = false) := by
    intro s evs r0 fin hcb hf1 hf2 hf3
    obtain ⟨h1, h2, h3⟩ := callback_shape m table record s evs r0 hcb
    have hfc : ∀ e ∈ [fin, Event.close s], e.isTxBegin = false ∧ e.executed = none ∧
        e.inserted = none := by
      intro e he
      simp only [List.mem_cons, List.mem_singleton, List.not_mem_nil, or_false] at he
      rcases he with rfl | rfl
      · exact ⟨hf1, hf2, hf3⟩
      · exact ⟨rfl, rfl, rfl⟩
    refine ⟨fun e he => ?_, ?_, fun e he rec hrec => ?_, fun pre ev post id heq hex => ?_⟩
    · rcases List.mem_append.1 he with h4 | h4
      · have := h1 e h4
        cases e <;> simp_all [Event.isTxBoundary, Event.isTxBegin]
      · exact (hfc e h4).1
    · have : [fin, Event.close s].filterMap Event.executed = [] := by
        rw [List.filterMap_eq_nil_iff]
        exact fun e he => (hfc e he).2.1
      rw [List.filterMap_append, this, List.append_nil]
      exact h2
    · rcases List.mem_append.1 he with h4 | h4
      · exact h3 e h4 rec hrec
      · rw [(hfc e h4).2.2] at hrec
        cases hrec
    · rcases append_split _ _ _ _ _ heq with ⟨post', h4, h5⟩ | ⟨pre', h4, h5⟩
      · refine ⟨callback_session m table record s evs r0 hcb ev (mem_of_split _ _ _ _ h4),
          fun e he => ⟨?_, h1 e (by rw [h4]; simp [he])⟩⟩
        have h6 : evs.filterMap Event.executed =
            pre.filterMap Event.executed ++ id :: post'.filterMap Event.executed := by
          rw [h4, List.filterMap_append, List.filterMap_cons, hex]
        have h7 : pre.filterMap Event.executed = [] := by
          rcases h2 with h2 | h2
          · rw [h2] at h6
            simp at h6
          · rw [h2] at h6
            cases hp : pre.filterMap Event.executed with
            | nil => rfl
            | cons a l =>
              rw [hp] at h6
              simp at h6
        exact (List.filterMap_eq_nil_iff.1 h7) e he
      · have := (hfc ev (mem_of_split _ _ _ _ h4)).2.1
        rw [this] at hex
        cases hex
  cases h with
  | beginFailed s err =>
    refine ⟨s, some err, [Event.close s], rfl, by simp [Event.isTxBegin], by simp,
      Or.inl rfl, by simp [Event.inserted], ?_⟩
    intro pre ev post id heq hex
    have := mem_of_split _ _ _ _ heq
    simp only [List.mem_singleton] at this
    subst this
    cases hex
  | rolledBack s evs err rollErr hcb =>
    obtain ⟨k1, k2, k3, k4⟩ := key s evs _ (Event.rollback s rollErr) hcb rfl rfl rfl
    exact ⟨s, none, _, rfl, k1, by simp, k2, k3,
      fun pre ev post id heq hex => ⟨rfl, k4 pre ev post id heq hex⟩⟩
  | committed s evs _ hcb =>
    obtain ⟨k1, k2, k3, k4⟩ := key s evs _ (Event.commit s r) hcb rfl rfl rfl
    refine ⟨s, none, _, rfl, k1, fun hr => ⟨rfl, ?_⟩, k2, k3,
      fun pre ev post id heq hex => ⟨rfl, k4 pre ev post id heq hex⟩⟩
    subst hr
    simp

theorem block_begin_unique (x y : Event) (tail l1 post : List Event) (ev : Event)
    (hx : x.isTxBegin = false) (ht : ∀ e ∈ tail, e.isTxBegin = false)
    (h : x :: y :: tail = l1 ++ ev :: post) (hev : ev.isTxBegin = true) :
    l1 = [x] ∧ ev = y ∧ post = tail := by
  cases l1 with
  | nil =>
    simp only [List.nil_append, List.cons.injEq] at h
    rw [← h.1, hx] at hev
    cases hev
  | cons a l1 =>
    simp only [List.cons_append, List.cons.injEq] at h
    cases l1 with
    | nil =>
      simp only [List.nil_append, List.cons.injEq] at h
      exact ⟨by rw [h.1], h.2.1.symm, h.2.2.symm⟩
    | cons b l1 =>
      simp only [List.cons_append, List.cons.injEq] at h
      have := ht ev (mem_of_split _ _ _ _ h.2.2)
      rw [this] at hev
      cases hev

theorem loop_commitsBetween {ω : Type} (E : Env ω) (mg : Migrator ω) (ms : List (Migration ω))
    (ticks : Nat) (evs : List Event) (r : Option GoError)
    (h : LoopTrace E mg ms ticks evs r) : CommitsBetween evs := by
  induction h with
  | done mg ticks =>
    intro l1 l2 l3 sA sB rB heq
    simp at heq
  | skip mg m rest ticks evs r hc _ ih => exact ih
  | fail mg m rest ticks blk err hc hb =>
    obtain ⟨s, br, tail, h1, h2, -, -, -, -⟩ := block_shape _ _ _ _ _ hb
    intro l1 l2 l3 sA sB rB heq
    rw [h1] at heq
    obtain ⟨-, -, h5⟩ := block_begin_unique (Event.newSession s) _ _ _ _ _ rfl h2 heq rfl
    have := h2 _ (mem_of_split _ _ _ _ h5.symm)
    cases this
  | step mg mg2 m rest ticks blk evs r hc hb htab _ ih =>
    obtain ⟨s, br, tail, h1, h2, h3, -, -, -⟩ := block_shape _ _ _ _ _ hb
    obtain ⟨h3a, h3b⟩ := h3 rfl
    intro l1 l2 l3 sA sB rB heq
    rcases append_split _ _ _ _ _ heq with ⟨post', h4, h5⟩ | ⟨pre', h4, h5⟩
    · rw [h1] at h4
      obtain ⟨-, h6, h7⟩ := block_begin_unique (Event.newSession s) _ _ _ _ _ rfl h2 h4 rfl
      subst h7
      rcases append_split _ _ _ _ _ h5.symm with ⟨post2, h8, h9⟩ | ⟨pre2, h8, h9⟩
      · have := h2 _ (mem_of_split _ _ _ _ h8)
        cases this
      · rw [h9]
        have hs : sA = s := by
          simp only [Event.txBegin.injEq] at h6
          exact h6.1
        rw [hs]
        exact List.mem_append_left _ h3b
    · exact ih pre' _ _ _ _ _ h4

theorem loop_executedInOwnTx {ω : Type} (E : Env ω) (mg : Migrator ω)
    (ms : List (Migration ω)) (ticks : Nat) (evs : List Event) (r : Option GoError)
    (h : LoopTrace E mg ms ticks evs r) : ExecutedInOwnTx evs := by
  have blockCase : ∀ (m : Migration ω) (table : String) (record : MigrationLog)
      (blk : List Event) (r0 : Option GoError),
      TxTrace (CallbackTrace m table record) blk r0 → ExecutedInOwnTx blk := by
    intro m table record blk r0 hb
    obtain ⟨s, br, tail, h1, -, -, -, -, h6⟩ := block_shape _ _ _ _ _ hb
    intro pre ev post id heq hex
    rw [h1] at heq
    cases pre with
    | nil =>
      simp only [List.nil_append, List.cons.injEq] at heq
      rw [← heq.1] at hex
      cases hex
    | cons a pre =>
      simp only [List.cons_append, List.cons.injEq] at heq
      cases pre with
      | nil =>
        simp only [List.nil_append, List.cons.injEq] at heq
        rw [← heq.2.1] at hex
        cases hex
      | cons b pre =>
        simp only [List.cons_append, List.cons.injEq] at heq
        obtain ⟨h7, h8, h9⟩ := h6 pre ev post id heq.2.2 hex
        refine ⟨s, [a], pre, h8, ?_, h9⟩
        rw [← heq.2.1, h7]
        rfl
  induction h with
  | done mg ticks =>
    intro pre ev post id heq
    simp at heq
  | skip mg m rest ticks evs r hc _ ih => exact ih
  | fail mg m rest ticks blk err hc hb => exact blockCase _ _ _ _ _ hb
  | step mg mg2 m rest ticks blk evs r hc hb htab _ ih =>
    intro pre ev post id heq hex
    rcases append_split _ _ _ _ _ heq with ⟨post', h4, h5⟩ | ⟨pre', h4, h5⟩
    · exact blockCase _ _ _ _ _ hb pre ev post' id h4 hex
    · obtain ⟨s, pre1, pre2, k1, k2, k3⟩ := ih pre' ev post id h4 hex
      exact ⟨s, blk ++ pre1, pre2, k1, by rw [h5, k2, List.append_assoc], k3⟩

theorem block_executed {ω : Type} (m : Migration ω) (table : String) (record : MigrationLog)
    (blk : List Event) (r : Option GoError)
    (h : TxTrace (CallbackTrace m table record) blk r) :
    (blk.filterMap Event.executed = [] ∨ blk.filterMap Event.executed = [m.Id]) ∧
      ∀ rec ∈ blk.filterMap Event.inserted, rec.Timestamp = record.Timestamp := by
  obtain ⟨s, br, tail, h1, -, -, h4, h5, -⟩ := block_shape _ _ _ _ _ h
  subst h1
  refine ⟨by simpa [List.filterMap_cons, Event.executed] using h4, fun rec hrec => ?_⟩
  simp only [List.filterMap_cons, Event.inserted, List.mem_filterMap] at hrec
  obtain ⟨e, he, h6⟩ := hrec
  exact h5 e he rec h6

theorem loop_executed_sublist {ω : Type} (E : Env ω) (mg : Migrator ω)
    (ms : List (Migration ω)) (ticks : Nat) (evs : List Event) (r : Option GoError)
    (h : LoopTrace E mg ms ticks evs r) :
    (evs.filterMap Event.executed).Sublist (ms.map (fun m => m.Id)) := by
  induction h with
  | done mg ticks => simp
  | skip mg m rest ticks evs r hc _ ih => exact List.Sublist.cons _ ih
  | fail mg m rest ticks blk err hc hb =>
    rcases (block_executed _ _ _ _ _ hb).1 with h1 | h1
    · rw [h1]
      exact List.nil_sublist _
    · rw [h1]
      simp
  | step mg mg2 m rest ticks blk evs r hc hb htab _ ih =>
    rw [List.filterMap_append]
    rcases (block_executed _ _ _ _ _ hb).1 with h1 | h1
    · rw [h1]
      exact List.Sublist.cons _ ih
    · rw [h1]
      exact List.Sublist.cons₂ _ ih

theorem loop_timestamps {ω : Type} (E : Env ω) (mg : Migrator ω)
    (ms : List (Migration ω)) (ticks : Nat) (evs : List Event) (r : Option GoError)
    (hmono : ∀ a b, a ≤ b → E.Now a ≤ E.Now b)
    (h : LoopTrace E mg ms ticks evs r) :
    (evs.filterMap Event.inserted).Pairwise (fun a b => a.Timestamp ≤ b.Timestamp) ∧
      ∀ rec ∈ evs.filterMap Event.inserted, ∃ k, ticks ≤ k ∧ rec.Timestamp = E.Now k := by
  have blockCase : ∀ (table : String) (m : Migration ω) (t : Nat) (blk : List Event)
      (r0 : Option GoError),
      TxTrace (CallbackTrace m table (newRecord m (E.Now t))) blk r0 →
      (blk.filterMap Event.inserted).Pairwise (fun a b => a.Timestamp ≤ b.Timestamp) ∧
        ∀ rec ∈ blk.filterMap Event.inserted, rec.Timestamp = E.Now t := by
    intro table m t blk r0 hb
    have h1 := (block_executed _ _ _ _ _ hb).2
    refine ⟨?_, fun rec hrec => by rw [h1 rec hrec]; rfl⟩
    rw [List.pairwise_iff_forall_sublist]
    intro a b hab
    have ha := h1 a (hab.subset (by simp))
    have hb := h1 b (hab.subset (by simp))
    rw [ha, hb]
  induction h with
  | done mg ticks => simp
  | skip mg m rest ticks evs r hc _ ih => exact ih
  | fail mg m rest ticks blk err hc hb =>
    obtain ⟨h1, h2⟩ := blockCase _ _ _ _ _ hb
    exact ⟨h1, fun rec hrec => ⟨ticks, le_refl _, h2 rec hrec⟩⟩
  | step mg mg2 m rest ticks blk evs r hc hb htab _ ih =>
    obtain ⟨h1, h2⟩ := blockCase _ _ _ _ _ hb
    rw [List.filterMap_append]
    refine ⟨?_, fun rec hrec => ?_⟩
    · rw [List.pairwise_append]
      refine ⟨h1, ih.1, fun a ha b hb => ?_⟩
      obtain ⟨k, hk1, hk2⟩ := ih.2 b hb
      rw [h2 a ha, hk2]
      exact hmono _ _ (by omega)
    · rcases List.mem_append.1 hrec with h3 | h3
      · exact ⟨ticks, le_refl _, h2 rec h3⟩
      · obtain ⟨k, hk1, hk2⟩ := ih.2 rec h3
        exact ⟨k, by omega, hk2⟩

theorem run_shape {ω : Type} (E : Env ω) (mg : Migrator ω) (ticks : Nat) (evs : List Event)
    (r : Option GoError) (h : RunTrace E mg ticks evs r) :
    ∃ load loop tail ms rl, evs = load ++ (loop ++ tail) ∧
      (∀ e ∈ load, e.isQuiet) ∧ (∀ e ∈ tail, e.isQuiet) ∧
      LoopTrace E mg ms ticks loop rl ∧ ms.Sublist mg.migrations := by
  have hload : ∀ load : List Event, (∀ e ∈ load, e.isLoad = true) → ∀ e ∈ load, e.isQuiet := by
    intro load hl e he
    have := hl e he
    cases e <;> simp_all [Event.isLoad, Event.isQuiet, Event.isTxBegin, Event.executed,
      Event.inserted]
  cases h with
  | loadFailed load err hl =>
    exact ⟨evs, [], [], [], none, by simp, hload _ hl, by simp, LoopTrace.done _ _,
      List.nil_sublist _⟩
  | loopFailed load evs err hl hloop =>
    exact ⟨load, evs, [], _, _, by simp, hload _ hl, by simp, hloop, List.Sublist.refl _⟩
  | synced load evs _ hl hloop =>
    refine ⟨load, evs, [Event.sync2 r], _, _, rfl, hload _ hl, ?_, hloop, List.Sublist.refl _⟩
    intro e he
    simp only [List.mem_singleton] at he
    subst he
    exact ⟨rfl, rfl, rfl⟩

theorem commitsBetween_frame (A mid B : List Event) (hA : ∀ e ∈ A, e.isQuiet)
    (hB : ∀ e ∈ B, e.isQuiet) (h : CommitsBetween mid) : CommitsBetween (A ++ (mid ++ B)) := by
  intro l1 l2 l3 sA sB rB heq
  rcases append_split _ _ _ _ _ heq with ⟨post', h4, h5⟩ | ⟨pre', h4, h5⟩
  · have := (hA _ (mem_of_split _ _ _ _ h4)).1
    cases this
  · rcases append_split _ _ _ _ _ h4 with ⟨post2, h6, h7⟩ | ⟨pre2, h6, h7⟩
    · rcases append_split _ _ _ _ _ h7.symm with ⟨post3, h8, h9⟩ | ⟨pre3, h8, h9⟩
      · rw [h8] at h6
        exact h _ _ _ _ _ _ h6
      · have := (hB _ (mem_of_split _ _ _ _ h8)).1
        cases this
    · have := (hB _ (mem_of_split _ _ _ _ h6)).1
      cases this

theorem executedInOwnTx_frame (A mid B : List Event) (hA : ∀ e ∈ A, e.isQuiet)
    (hB : ∀ e ∈ B, e.isQuiet) (h : ExecutedInOwnTx mid) :
    ExecutedInOwnTx (A ++ (mid ++ B)) := by
  intro pre ev post id heq hex
  rcases append_split _ _ _ _ _ heq with ⟨post', h4, h5⟩ | ⟨pre', h4, h5⟩
  · have := (hA _ (mem_of_split _ _ _ _ h4)).2.1
    rw [this] at hex
    cases hex
  · rcases append_split _ _ _ _ _ h4 with ⟨post2, h6, h7⟩ | ⟨pre2, h6, h7⟩
    · obtain ⟨s, pre1, pre2, k1, k2, k3⟩ := h pre' ev post2 id h6 hex
      exact ⟨s, A ++ pre1, pre2, k1, by rw [h5, k2, List.append_assoc], k3⟩
    · have := (hB _ (mem_of_split _ _ _ _ h6)).2.1
      rw [this] at hex
      cases hex

theorem filterMap_quiet (l : List Event) (h : ∀ e ∈ l, e.isQuiet) :
    l.filterMap Event.executed = [] ∧ l.filterMap Event.inserted = [] := by
  constructor
  · rw [List.filterMap_eq_nil_iff]
    exact fun e he => (h e he).2.1
  · rw [List.filterMap_eq_nil_iff]
    exact fun e he => (h e he).2.2

/-- C6: in every run the statements and code bodies executed are, in order, those of a
subsequence of the registry; each is issued inside a transaction begun on its session in which
nothing was executed before it; between the begins of two transactions the first one is
committed; and on a non-decreasing clock the timestamps of the log records inserted are
non-decreasing in the order of insertion. -/
theorem run_ordered {ω : Type} (E : Env ω) (mg : Migrator ω) (w : World ω)
    (evs : List Event) (htrace : (run E mg w).1.1.trace = w.trace ++ evs) :
    (evs.filterMap Event.executed).Sublist (mg.migrations.map (fun m => m.Id)) ∧
    ExecutedInOwnTx evs ∧
    CommitsBetween evs ∧
    ((∀ a b, a ≤ b → E.Now a ≤ E.Now b) →
      (evs.filterMap Event.inserted).Pairwise (fun a b => a.Timestamp ≤ b.Timestamp)) := by
  obtain ⟨evs1, ht, hx⟩ := run_trace E mg w
  have he : evs1 = evs := List.append_cancel_left (ht.symm.trans htrace)
  subst he
  have hmig := (GetMigrationLog_trace E mg w).choose_spec.2.2.2.1
  obtain ⟨load, loop, tail, ms, rl, h1, h2, h3, h4, h5⟩ := run_shape E _ _ _ _ hx
  rw [hmig] at h5
  subst h1
  have q1 := filterMap_quiet load h2
  have q2 := filterMap_quiet tail h3
  refine ⟨?_, executedInOwnTx_frame _ _ _ h2 h3 (loop_executedInOwnTx E _ _ _ _ _ h4),
    commitsBetween_frame _ _ _ h2 h3 (loop_commitsBetween E _ _ _ _ _ h4), fun hmono => ?_⟩
  · rw [List.filterMap_append, List.filterMap_append, q1.1, q2.1, List.nil_append,
      List.append_nil]
    exact (loop_executed_sublist E _ _ _ _ _ h4).trans (h5.map _)
  · rw [List.filterMap_append, List.filterMap_append, q1.2, q2.2, List.nil_append,
      List.append_nil]
    exact (loop_timestamps E _ _ _ _ _ hmono h4).1

/-- Witness for C6: "A" and "B" both run on a clock that counts its readings. -/
theorem run_ordered_witness :
    (∀ a b, a ≤ b → sampleEnv.Now a ≤ sampleEnv.Now b) ∧
    (sampleTraceAB.filterMap Event.inserted).Pairwise
      (fun a b => a.Timestamp ≤ b.Timestamp) ∧
    CommitsBetween sampleTraceAB :=
  ⟨fun _ _ hab => hab,
   (run_ordered sampleEnv (sampleMigrator [sampleMigration "A", sampleMigration "B"])
      (freshWorld (logStore [])) sampleTraceAB (by decide)).2.2.2 (fun _ _ hab => hab),
   (run_ordered sampleEnv (sampleMigrator [sampleMigration "A", sampleMigration "B"])
      (freshWorld (logStore [])) sampleTraceAB (by decide)).2.2.1⟩

theorem exec_failed {ω : Type} (m : Migration ω) (s : Nat) (evs : List Event)
    (r : Option GoError) (h : ExecTrace m s evs r) :
    ∀ e ∈ evs, e.failed = true → r ≠ none := by
  cases h <;> (try cases r) <;>
    simp [Event.failed, Event.failure, Event.insertFailure]

theorem callback_failed {ω : Type} (m : Migration ω) (table : String) (record : MigrationLog)
    (s : Nat) (evs : List Event) (r : Option GoError)
    (h : CallbackTrace m table record s evs r) :
    ∀ e ∈ evs, e.failed = true → r ≠ none := by
  cases h with
  | failedUnlogged evs cause hx hs => intro e _ _; simp
  | failedLogged evs cause insertErr hx hs => intro e _ _; simp
  | doneUnlogged evs hx hs => exact exec_failed m s evs _ hx
  | doneLogged evs _ hx hs =>
    intro e he hf
    rcases List.mem_append.1 he with h1 | h1
    · exact absurd rfl (exec_failed m s evs _ hx e h1 hf)
    · simp only [List.mem_singleton] at h1
      subst h1
      cases r with
      | none => simp [Event.failed, Event.failure, Event.insertFailure] at hf
      | some e => simp

theorem block_rolledBack {ω : Type} (m : Migration ω) (table : String) (record : MigrationLog)
    (blk : List Event) (r : Option GoError)
    (h : TxTrace (CallbackTrace m table record) blk r) :
    RolledBack blk ∧ (r = none → ∀ e ∈ blk, e.failed = false) := by
  have key : ∀ (s : Nat) (evs : List Event) (r0 : Option GoError) (fin : Event),
      CallbackTrace m table record s evs r0 → fin.failed = false →
      ∀ pre ev post, Event.newSession s :: Event.txBegin s none ::
          (evs ++ [fin, Event.close s]) = pre ++ ev :: post → ev.failed = true →
        r0 ≠ none ∧ ev.session = some s ∧ ∃ post', post = post' ++ [fin, Event.close s] ∧
          ∀ e ∈ post', e.isCommit = false := by
    intro s evs r0 fin hcb hfin pre ev post heq hf
    cases pre with
    | nil =>
      simp only [List.nil_append, List.cons.injEq] at heq
      rw [← heq.1] at hf
      cases hf
    | cons a pre =>
      simp only [List.cons_append, List.cons.injEq] at heq
      cases pre with
      | nil =>
        simp only [List.nil_append, List.cons.injEq] at heq
        rw [← heq.2.1] at hf
        cases hf
      | cons b pre =>
        simp only [List.cons_append, List.cons.injEq] at heq
        rcases append_split _ _ _ _ _ heq.2.2 with ⟨post', h4, h5⟩ | ⟨pre', h4, h5⟩
        · have hmem := mem_of_split _ _ _ _ h4
          refine ⟨callback_failed m table record s evs r0 hcb ev hmem hf,
            callback_session m table record s evs r0 hcb ev hmem, post', h5, fun e he => ?_⟩
          have := (callback_shape m table record s evs r0 hcb).1 e (by rw [h4]; simp [he])
          cases e <;> simp_all [Event.isTxBoundary, Event.isCommit]
        · have hmem := mem_of_split _ _ _ _ h4
          simp only [List.mem_cons, List.mem_singleton, List.not_mem_nil, or_false] at hmem
          rcases hmem with rfl | rfl
          · rw [hfin] at hf
            cases hf
          · cases hf
  cases h with
  | beginFailed s err =>
    refine ⟨fun pre ev post s0 heq hf hs => ?_, by simp⟩
    have hmem := mem_of_split _ _ _ _ heq
    simp only [List.mem_cons, List.mem_singleton, List.not_mem_nil, or_false] at hmem
    rcases hmem with rfl | rfl | rfl <;> cases hf
  | rolledBack s evs err rollErr hcb =>
    refine ⟨fun pre ev post s0 heq hf hs => ?_, by simp⟩
    obtain ⟨-, k2, post', k3, k4⟩ := key s evs _ (Event.rollback s rollErr) hcb rfl pre ev post
      heq hf
    rw [k2] at hs
    cases hs
    subst k3
    refine ⟨⟨rollErr, by simp⟩, fun e he => ?_⟩
    simp only [List.mem_append, List.mem_cons, List.mem_singleton, List.not_mem_nil,
      or_false] at he
    rcases he with h1 | rfl | rfl
    · exact k4 e h1
    · rfl
    · rfl
  | committed s evs _ hcb =>
    have hnone : ∀ pre ev post, Event.newSession s :: Event.txBegin s none ::
        (evs ++ [Event.commit s r, Event.close s]) = pre ++ ev :: post → ev.failed = true →
        False := by
      intro pre ev post heq hf
      exact (key s evs _ (Event.commit s r) hcb rfl pre ev post heq hf).1 rfl
    refine ⟨fun pre ev post s0 heq hf hs => (hnone pre ev post heq hf).elim,
      fun _ e he => ?_⟩
    obtain ⟨pre, post, hsplit⟩ := List.append_of_mem he
    cases hfe : e.failed with
    | false => rfl
    | true => exact (hnone pre e post hsplit hfe).elim

theorem loop_rolledBack {ω : Type} (E : Env ω) (mg : Migrator ω) (ms : List (Migration ω))
    (ticks : Nat) (evs : List Event) (r : Option GoError)
    (h : LoopTrace E mg ms ticks evs r) : RolledBack evs := by
  induction h with
  | done mg ticks =>
    intro pre ev post s heq
    simp at heq
  | skip mg m rest ticks evs r hc _ ih => exact ih
  | fail mg m rest ticks blk err hc hb => exact (block_rolledBack _ _ _ _ _ hb).1
  | step mg mg2 m rest ticks blk evs r hc hb htab _ ih =>
    intro pre ev post s heq hf hs
    rcases append_split _ _ _ _ _ heq with ⟨post', h4, h5⟩ | ⟨pre', h4, h5⟩
    · have := (block_rolledBack _ _ _ _ _ hb).2 rfl ev (mem_of_split _ _ _ _ h4)
      rw [this] at hf
      cases hf
    · exact ih pre' ev post s h4 hf hs

theorem run_rolledBack {ω : Type} (E : Env ω) (mg : Migrator ω) (w : World ω)
    (evs : List Event) (htrace : (run E mg w).1.1.trace = w.trace ++ evs) :
    RolledBack evs := by
  obtain ⟨evs1, ht, hx⟩ := run_trace E mg w
  have he : evs1 = evs := List.append_cancel_left (ht.symm.trans htrace)
  subst he
  have hload : ∀ load : List Event, (∀ e ∈ load, e.isLoad = true) →
      ∀ e ∈ load, e.failed = false := by
    intro load hl e he
    have := hl e he
    cases e <;> simp_all [Event.isLoad, Event.failed, Event.failure, Event.insertFailure]
  have frame : ∀ (load loop tail : List Event), (∀ e ∈ load, e.isLoad = true) →
      (∀ e ∈ tail, e.failed = false ∧ e.isCommit = false) → RolledBack loop →
      RolledBack (load ++ (loop ++ tail)) := by
    intro load loop tail hl htail hloop pre ev post s heq hf hs
    rcases append_split _ _ _ _ _ heq with ⟨post', h4, h5⟩ | ⟨pre', h4, h5⟩
    · rw [hload load hl ev (mem_of_split _ _ _ _ h4)] at hf
      cases hf
    · rcases append_split _ _ _ _ _ h4 with ⟨post2, h6, h7⟩ | ⟨pre2, h6, h7⟩
      · obtain ⟨⟨rollErr, k1⟩, k2⟩ := hloop pre' ev post2 s h6 hf hs
        subst h7
        refine ⟨⟨rollErr, List.mem_append_left _ k1⟩, fun e he => ?_⟩
        rcases List.mem_append.1 he with h8 | h8
        · exact k2 e h8
        · exact (htail e h8).2
      · rw [(htail ev (mem_of_split _ _ _ _ h6)).1] at hf
        cases hf
  generalize (run E mg w).2 = r at hx
  cases hx with
  | loadFailed load err hl =>
    have := frame evs1 [] [] hl (by simp) (fun pre ev post s heq => by simp at heq)
    simpa using this
  | loopFailed load evs err hl hloop =>
    have := frame load evs [] hl (by simp) (loop_rolledBack E _ _ _ _ _ hloop)
    simpa using this
  | synced load evs _ hl hloop =>
    exact frame load evs [Event.sync2 r] hl
      (by simp [Event.failed, Event.failure, Event.insertFailure, Event.isCommit])
      (loop_rolledBack E _ _ _ _ _ hloop)

/-! ## The in-memory engine -/

theorem MemDb.lookup_discard (l : List (Nat × Store)) (s : Nat) :
    (l.filter (fun p => p.1 != s)).lookup s = none := by
  induction l with
  | nil => rfl
  | cons p rest ih =>
    by_cases hp : p.1 = s
    · rw [List.filter_cons_of_neg (by simp [hp])]
      exact ih
    · rw [List.filter_cons_of_pos (by simpa using hp)]
      obtain ⟨a, b⟩ := p
      have : (s == a) = false := by
        simp only [beq_eq_false_iff_ne, ne_eq]
        exact fun h => hp h.symm
      simp only [List.lookup_cons, this]
      exact ih

theorem MemDb.view_discard (db : MemDb) (s : Nat) : (db.discard s).view s = db.committed := by
  simp [MemDb.view, MemDb.discard, MemDb.lookup_discard]

theorem MemDb.view_write (db : MemDb) (s : Nat) (x : Store) : (db.write s x).view s = x := by
  simp [MemDb.view, MemDb.write, List.lookup_cons]

theorem MemDb.committed_update (db : MemDb) (s : Nat) (f : Store → Except GoError Store) :
    (db.update s f).1.committed = db.committed := by
  unfold MemDb.update
  cases f (db.view s) <;> rfl

theorem MemDb.update_ok (db : MemDb) (s : Nat) (f : Store → Except GoError Store)
    (h : (db.update s f).2 = none) :
    f (db.view s) = Except.ok ((db.update s f).1.view s) := by
  unfold MemDb.update at h ⊢
  cases hf : f (db.view s) with
  | error e => rw [hf] at h; cases h
  | ok x => simp [MemDb.view_write]

theorem mem_execBody (B : Backend) (mg : Migrator MemDb) (m : Migration MemDb) (sess : Nat)
    (w : World MemDb)
    (hl : m.sessionLocal) :
    (execBody (memEnv B) mg m sess w).1.1.db.committed = w.db.committed ∧
    ((execBody (memEnv B) mg m sess w).2 = none →
      B.sem m.SQL (w.db.view sess) =
        Except.ok ((execBody (memEnv B) mg m sess w).1.1.db.view sess) ∨
      ∃ f g, m.Exec = some (memCode f g) ∧
        f (w.db.view sess) = Except.ok ((execBody (memEnv B) mg m sess w).1.1.db.view sess)) := by
  unfold execBody
  rcases hl with hx | ⟨f, g, hx⟩
  · rw [hx]
    simp only [World.call, memEnv]
    exact ⟨MemDb.committed_update _ _ _, fun h => Or.inl (MemDb.update_ok _ _ _ h)⟩
  · rw [hx]
    simp only [World.call, memCode]
    exact ⟨MemDb.committed_update _ _ _, fun h => Or.inr ⟨f, g, rfl, MemDb.update_ok _ _ _ h⟩⟩

theorem mem_exec (B : Backend) (mg : Migrator MemDb) (m : Migration MemDb) (sess : Nat)
    (w : World MemDb)
    (hl : m.sessionLocal) :
    (exec (memEnv B) mg m sess w).1.1.db.committed = w.db.committed ∧
    ((exec (memEnv B) mg m sess w).2 = none →
      (exec (memEnv B) mg m sess w).1.1.db.view sess = w.db.view sess ∨
      B.sem m.SQL (w.db.view sess) = Except.ok ((exec (memEnv B) mg m sess w).1.1.db.view sess) ∨
      ∃ f g, m.Exec = some (memCode f g) ∧
        f (w.db.view sess) = Except.ok ((exec (memEnv B) mg m sess w).1.1.db.view sess)) := by
  have body : ∀ w0 : World MemDb, w0.db = w.db →
      (execBody (memEnv B) mg m sess w0).1.1.db.committed = w.db.committed ∧
      ((execBody (memEnv B) mg m sess w0).2 = none →
        (execBody (memEnv B) mg m sess w0).1.1.db.view sess = w.db.view sess ∨
        B.sem m.SQL (w.db.view sess) =
          Except.ok ((execBody (memEnv B) mg m sess w0).1.1.db.view sess) ∨
        ∃ f g, m.Exec = some (memCode f g) ∧
          f (w.db.view sess) = Except.ok ((execBody (memEnv B) mg m sess w0).1.1.db.view sess)) := by
    intro w0 hw
    obtain ⟨b1, b2⟩ := mem_execBody B mg m sess w0 hl
    rw [hw] at b1 b2
    exact ⟨b1, fun h => Or.inr (b2 h)⟩
  unfold exec
  cases hc : m.Condition with
  | none => exact body w rfl
  | some cond =>
    by_cases hs : cond.SQL.1 = ""
    · simp only [hs, bne_self_eq_false, Bool.false_eq_true, if_false]
      exact body w rfl
    · have hb : (cond.SQL.1 != "") = true := by simpa using hs
      simp only [hb, if_true]
      cases hq : ((memEnv B).Query sess cond.SQL.1 cond.SQL.2 w.db).2 with
      | error err =>
        simp only [World.call, hq]
        exact ⟨rfl, by simp⟩
      | ok results =>
        simp only [World.call, hq]
        cases hf : cond.IsFulfilled results with
        | false =>
          simp only [Bool.not_false, if_true]
          exact ⟨rfl, fun _ => Or.inl rfl⟩
        | true =>
          simp only [Bool.not_true, Bool.false_eq_true, if_false]
          exact body
            { w with db := ((memEnv B).Query sess cond.SQL.1 cond.SQL.2 w.db).1,
                     trace := w.trace ++ [Event.query sess m.Id cond.SQL.1 (Except.ok results)] }
            rfl

theorem mem_exec_safe (B : Backend) (table : String) (mg : Migrator MemDb)
    (m : Migration MemDb) (sess : Nat) (w : World MemDb) (hl : m.sessionLocal) (hsafe : LogSafe B table [m])
    (hok : (exec (memEnv B) mg m sess w).2 = none) (rows : List MigrationLog)
    (hrows : (w.db.view sess).tables.get table = some rows) :
    ((exec (memEnv B) mg m sess w).1.1.db.view sess).tables.get table = some rows := by
  rcases (mem_exec B mg m sess w hl).2 hok with h | h | ⟨f, g, hf, h⟩
  · rw [h]
    exact hrows
  · exact hsafe.1 m (by simp) _ _ rows h hrows
  · exact hsafe.2 m (by simp) f g hf _ _ rows h hrows

theorem mem_runCallback_committed (B : Backend) (m : Migration MemDb)
    (record : MigrationLog) (sess : Nat) (st : World MemDb × (Migrator MemDb × Nat))
    (hl : m.sessionLocal) :
    (runCallback (memEnv B) m record sess st).1.1.db.committed = st.1.db.committed := by
  have h1 := (mem_exec B st.2.1 m sess st.1 hl).1
  unfold runCallback
  rcases hex : exec (memEnv B) st.2.1 m sess st.1 with ⟨⟨w1, mg1⟩, r1⟩
  rw [hex] at h1
  simp only at h1
  cases r1 with
  | some cause =>
    simp only
    cases hs : m.SkipMigrationLog with
    | true => simpa using h1
    | false =>
      simp only [Bool.not_false, if_true, World.call]
      have h2 : ((memEnv B).Insert sess mg1.tableName { record with Error := cause.Error }
          w1.db).1.committed = w1.db.committed := MemDb.committed_update _ _ _
      cases hi : ((memEnv B).Insert sess mg1.tableName { record with Error := cause.Error }
          w1.db).2 <;> simp only <;> rw [h2, h1]
  | none =>
    simp only
    cases hs : m.SkipMigrationLog with
    | true => simpa using h1
    | false =>
      simp only [Bool.not_false, if_true, World.call]
      have h2 : ((memEnv B).Insert sess mg1.tableName { record with Success := true }
          w1.db).1.committed = w1.db.committed := MemDb.committed_update _ _ _
      cases hi : ((memEnv B).Insert sess mg1.tableName { record with Success := true }
          w1.db).2 <;> simp only <;> rw [h2, h1]

theorem mem_runCallback_logged (B : Backend) (m : Migration MemDb)
    (record : MigrationLog) (sess : Nat) (st : World MemDb × (Migrator MemDb × Nat))
    (hl : m.sessionLocal)
    (hsafe : LogSafe B st.2.1.tableName [m]) (hlogged : m.SkipMigrationLog = false)
    (hok : (runCallback (memEnv B) m record sess st).2 = none) :
    ∃ rows, ((runCallback (memEnv B) m record sess st).1.1.db.view sess).tables.get
        st.2.1.tableName = some (rows ++ [{ record with Success := true, Id := rows.length + 1 }]) ∧
      ∀ rows0, (st.1.db.view sess).tables.get st.2.1.tableName = some rows0 → rows = rows0 := by
  have h1 := mem_exec_safe B st.2.1.tableName st.2.1 m sess st.1 hl hsafe
  have hf := (exec_frame (memEnv B) st.2.1 m sess st.1).1.2.2.2
  unfold runCallback at hok ⊢
  rcases hex : exec (memEnv B) st.2.1 m sess st.1 with ⟨⟨w1, mg1⟩, r1⟩
  rw [hex] at h1 hok hf
  simp only at h1 hok hf
  cases r1 with
  | some cause =>
    simp only [hlogged, Bool.not_false, if_true] at hok
    split at hok <;> simp at hok
  | none =>
    simp only [hlogged, Bool.not_false, if_true, World.call, hf] at hok ⊢
    cases hi : ((memEnv B).Insert sess st.2.1.tableName { record with Success := true }
        w1.db).2 with
    | some e =>
      rw [hi] at hok
      simp at hok
    | none =>
      simp only
      have h2 := MemDb.update_ok w1.db sess
        (MemDb.insertRow st.2.1.tableName { record with Success := true }) hi
      have hgoal : ((memEnv B).Insert sess st.2.1.tableName { record with Success := true }
          w1.db).1 = (w1.db.update sess
            (MemDb.insertRow st.2.1.tableName { record with Success := true })).1 := rfl
      rw [hgoal]
      generalize (w1.db.update sess
        (MemDb.insertRow st.2.1.tableName { record with Success := true })).1.view sess = X
        at h2 ⊢
      unfold MemDb.insertRow at h2
      cases hg : (w1.db.view sess).tables.get st.2.1.tableName with
      | none =>
        rw [hg] at h2
        simp at h2
      | some rows1 =>
        rw [hg] at h2
        simp only [Except.ok.injEq] at h2
        subst h2
        refine ⟨rows1, ?_, fun rows0 h0 => ?_⟩
        · simp [GoMap.get_set]
        · have := h1 rfl rows0 h0
          rw [hg] at this
          exact Option.some.inj this

theorem mem_InTransaction {α : Type} (B : Backend)
    (callback : Nat → World MemDb × α → (World MemDb × α) × Option GoError)
    (st : World MemDb × α) :
    ∃ w2 : World MemDb,
      w2.db = ({ st.1.db with nextSession := st.1.db.nextSession + 1 } : MemDb).discard
        st.1.db.nextSession ∧
      w2.ticks = st.1.ticks ∧
      (InTransaction (memEnv B) callback st).2 = (callback st.1.db.nextSession (w2, st.2)).2 ∧
      (InTransaction (memEnv B) callback st).1.2 = (callback st.1.db.nextSession (w2, st.2)).1.2 ∧
      (InTransaction (memEnv B) callback st).1.1.db.committed =
        (match (callback st.1.db.nextSession (w2, st.2)).2 with
          | some _ => (callback st.1.db.nextSession (w2, st.2)).1.1.db.committed
          | none => (callback st.1.db.nextSession (w2, st.2)).1.1.db.view st.1.db.nextSession) := by
  refine ⟨{ db := ({ st.1.db with nextSession := st.1.db.nextSession + 1 } : MemDb).discard
              st.1.db.nextSession,
            trace := st.1.trace ++ [Event.newSession st.1.db.nextSession] ++
              [Event.txBegin st.1.db.nextSession none],
            ticks := st.1.ticks }, rfl, rfl, ?_⟩
  unfold InTransaction
  simp only [World.call]
  have hb : (memEnv B).Begin ((memEnv B).NewSession st.1.db).2 ((memEnv B).NewSession st.1.db).1
      = (({ st.1.db with nextSession := st.1.db.nextSession + 1 } : MemDb).discard
          st.1.db.nextSession, none) := rfl
  have hn : ((memEnv B).NewSession st.1.db).2 = st.1.db.nextSession := rfl
  rw [hb, hn]
  simp only
  rcases hc : callback st.1.db.nextSession
    ({ db := ({ st.1.db with nextSession := st.1.db.nextSession + 1 } : MemDb).discard
              st.1.db.nextSession,
       trace := st.1.trace ++ [Event.newSession st.1.db.nextSession] ++
              [Event.txBegin st.1.db.nextSession none],
       ticks := st.1.ticks }, st.2) with ⟨st2, r2⟩
  cases r2 with
  | some err =>
    have hr : (memEnv B).Rollback st.1.db.nextSession st2.1.db
        = (st2.1.db.discard st.1.db.nextSession, none) := rfl
    simp only
    rw [hr]
    exact ⟨rfl, rfl, rfl⟩
  | none =>
    have hr : (memEnv B).Commit st.1.db.nextSession st2.1.db
        = ({ st2.1.db.discard st.1.db.nextSession with
              committed := st2.1.db.view st.1.db.nextSession }, none) := rfl
    simp only
    rw [hr]
    exact ⟨rfl, rfl, rfl⟩

theorem mem_runMigration_failed (B : Backend) (m : Migration MemDb)
    (st : RunState MemDb) (hl : m.sessionLocal) (err : GoError)
    (hfail : (runMigration (memEnv B) m st).2 = some err) :
    (runMigration (memEnv B) m st).1.w.db.committed = st.w.db.committed := by
  obtain ⟨w2, h1, -, h3, -, h5⟩ := mem_InTransaction B
    (runCallback (memEnv B) m (newRecord m ((memEnv B).Now st.w.ticks)))
    ((st.w.now (memEnv B)).1, (st.mg, st.migrationsPerformed))
  have hc := mem_runCallback_committed B m (newRecord m ((memEnv B).Now st.w.ticks))
    st.w.db.nextSession (w2, (st.mg, st.migrationsPerformed)) hl
  have hres : (runMigration (memEnv B) m st).2 =
      (InTransaction (memEnv B) (runCallback (memEnv B) m
        (newRecord m ((memEnv B).Now st.w.ticks)))
        ((st.w.now (memEnv B)).1, (st.mg, st.migrationsPerformed))).2 := rfl
  have hdb : (runMigration (memEnv B) m st).1.w.db.committed =
      (InTransaction (memEnv B) (runCallback (memEnv B) m
        (newRecord m ((memEnv B).Now st.w.ticks)))
        ((st.w.now (memEnv B)).1, (st.mg, st.migrationsPerformed))).1.1.db.committed := rfl
  rw [hres, h3] at hfail
  rw [hdb, h5]
  simp only [World.now] at hfail hc ⊢
  rw [hfail]
  simp only
  rw [hc, h1]
  rfl

theorem mem_runMigration_logged (B : Backend) (m : Migration MemDb)
    (st : RunState MemDb) (hl : m.sessionLocal) (hsafe : LogSafe B st.mg.tableName [m])
    (hlogged : m.SkipMigrationLog = false)
    (hok : (runMigration (memEnv B) m st).2 = none) :
    ∃ rows row, (runMigration (memEnv B) m st).1.w.db.committed.tables.get st.mg.tableName =
        some (rows ++ [row]) ∧ row.MigrationID = m.Id ∧ row.Success = true ∧
      ∀ rows0, st.w.db.committed.tables.get st.mg.tableName = some rows0 → rows = rows0 := by
  obtain ⟨w2, h1, -, h3, -, h5⟩ := mem_InTransaction B
    (runCallback (memEnv B) m (newRecord m ((memEnv B).Now st.w.ticks)))
    ((st.w.now (memEnv B)).1, (st.mg, st.migrationsPerformed))
  have hres : (runMigration (memEnv B) m st).2 =
      (InTransaction (memEnv B) (runCallback (memEnv B) m
        (newRecord m ((memEnv B).Now st.w.ticks)))
        ((st.w.now (memEnv B)).1, (st.mg, st.migrationsPerformed))).2 := rfl
  have hdb : (runMigration (memEnv B) m st).1.w.db.committed =
      (InTransaction (memEnv B) (runCallback (memEnv B) m
        (newRecord m ((memEnv B).Now st.w.ticks)))
        ((st.w.now (memEnv B)).1, (st.mg, st.migrationsPerformed))).1.1.db.committed := rfl
  rw [hres, h3] at hok
  rw [hdb, h5]
  simp only [World.now] at hok ⊢
  obtain ⟨rows, k1, k2⟩ := mem_runCallback_logged B m
    (newRecord m ((memEnv B).Now st.w.ticks)) st.w.db.nextSession
    (w2, (st.mg, st.migrationsPerformed)) hl hsafe hlogged hok
  rw [hok]
  simp only
  have h1v : w2.db.view st.w.db.nextSession = st.w.db.committed := by
    rw [h1]
    exact MemDb.view_discard _ _
  refine ⟨rows, _, k1, rfl, rfl, fun rows0 h0 => k2 rows0 ?_⟩
  simp only
  rw [h1v]
  exact h0

theorem runLoop_append {ω : Type} (E : Env ω) (pre rest : List (Migration ω)) :
    ∀ st : RunState ω, runLoop E (pre ++ rest) st =
      match runLoop E pre st with
      | (st1, none) => runLoop E rest st1
      | (st1, some err) => (st1, some err) := by
  induction pre with
  | nil => intro st; simp [runLoop]
  | cons m pre ih =>
    intro st
    simp only [List.cons_append, runLoop]
    cases hc : st.mg.logMap.contains m.Id with
    | true => simp only [if_true]; exact ih _
    | false =>
      simp only [Bool.false_eq_true, if_false]
      rcases hm : runMigration E m st with ⟨st1, r1⟩
      cases r1 with
      | some err => rfl
      | none => exact ih _

/-- C4: in every run a failed probe, statement, code body or insert of a log record is
followed by the rollback of its session and by no commit; and on the transactional engine a
migration whose transaction returns an error leaves the committed data (the effects in place
and the log rows) exactly as they were when its transaction began, and the run ends there
with that error. -/
theorem failed_migration_rolled_back :
    (∀ (ω : Type) (E : Env ω) (mg : Migrator ω) (w : World ω) (evs : List Event),
      (run E mg w).1.1.trace = w.trace ++ evs → RolledBack evs) ∧
    (∀ (B : Backend) (mg mg1 : Migrator MemDb) (w w1 : World MemDb)
      (logMap : GoMap MigrationLog) (pre post : List (Migration MemDb)) (m : Migration MemDb)
      (st : RunState MemDb) (err : GoError),
      GetMigrationLog (memEnv B) mg w = ((w1, mg1), Except.ok logMap) →
      mg.migrations = pre ++ m :: post →
      runLoop (memEnv B) pre ⟨w1, mg1, 0, 0⟩ = (st, none) →
      st.mg.logMap.contains m.Id = false →
      m.sessionLocal →
      (runMigration (memEnv B) m st).2 = some err →
      (run (memEnv B) mg w).2 =
          some (errorfWrap ("migration failed (id = " ++ m.Id ++ ")") err) ∧
        (run (memEnv B) mg w).1.1.db.committed = st.w.db.committed) := by
  refine ⟨fun ω E mg w evs h => run_rolledBack E mg w evs h, ?_⟩
  intro B mg mg1 w w1 logMap pre post m st err hload hreg hpre hlog hlocal hfail
  have hmig : mg1.migrations = mg.migrations := by
    have := (GetMigrationLog_trace (memEnv B) mg w).choose_spec.2.2.2.1
    rw [hload] at this
    exact this
  have hcommitted := mem_runMigration_failed B m st hlocal err hfail
  have hloop : runLoop (memEnv B) mg1.migrations ⟨w1, mg1, 0, 0⟩ =
      ((runMigration (memEnv B) m st).1,
        some (errorfWrap ("migration failed (id = " ++ m.Id ++ ")") err)) := by
    rw [hmig, hreg, runLoop_append, hpre]
    simp only [runLoop, hlog, Bool.false_eq_true, if_false]
    rcases hm : runMigration (memEnv B) m st with ⟨st1, r1⟩
    rw [hm] at hfail
    simp only at hfail
    subst hfail
    rfl
  unfold run
  rw [hload]
  simp only [hloop]
  exact ⟨trivial, hcommitted⟩

/-- Witness for C4: "B" fails after "A" went through; the committed data are those left by
the transaction of "A". -/
theorem failed_migration_rolled_back_witness :
    (run (memEnv (sampleBackend "migration_log" [] ["B"]))
      (sampleMigrator [sampleMigration "A", sampleMigration "B", sampleMigration "C"])
      (freshWorld (logStore []))).1.1.db.committed =
    { applied := ["A"], tables := ⟨[("migration_log", [sampleRow 1 "A" 0])]⟩ } :=
  (failed_migration_rolled_back.2 (sampleBackend "migration_log" [] ["B"])
    (sampleMigrator [sampleMigration "A", sampleMigration "B", sampleMigration "C"])
    _ (freshWorld (logStore [])) _ _
    [sampleMigration "A"] [sampleMigration "C"] (sampleMigration "B")
    (runLoop (memEnv (sampleBackend "migration_log" [] ["B"]))
      [sampleMigration "A"]
      ⟨(GetMigrationLog (memEnv (sampleBackend "migration_log" [] ["B"]))
        (sampleMigrator [sampleMigration "A", sampleMigration "B", sampleMigration "C"])
        (freshWorld (logStore []))).1.1,
       (GetMigrationLog (memEnv (sampleBackend "migration_log" [] ["B"]))
        (sampleMigrator [sampleMigration "A", sampleMigration "B", sampleMigration "C"])
        (freshWorld (logStore []))).1.2, 0, 0⟩).1
    (GoError.errorString "cannot run: B")
    rfl rfl rfl (by decide) (Or.inl rfl) (by decide)).2.trans (by decide)

/-! ## Idempotence -/

theorem LogSafe.of_mem (B : Backend) (table : String) (ms : List (Migration MemDb))
    (m : Migration MemDb) (hm : m ∈ ms) (h : LogSafe B table ms) : LogSafe B table [m] := by
  refine ⟨fun m0 hm0 => ?_, fun m0 hm0 => ?_⟩
  · simp only [List.mem_singleton] at hm0
    subst hm0
    exact h.1 m0 hm
  · simp only [List.mem_singleton] at hm0
    subst hm0
    exact h.2 m0 hm

theorem LogSafe.tail (B : Backend) (table : String) (m : Migration MemDb)
    (ms : List (Migration MemDb)) (h : LogSafe B table (m :: ms)) : LogSafe B table ms :=
  ⟨fun m0 hm0 => h.1 m0 (List.mem_cons_of_mem _ hm0),
   fun m0 hm0 => h.2 m0 (List.mem_cons_of_mem _ hm0)⟩

theorem mem_runLoop_applied (B : Backend) (ms : List (Migration MemDb)) :
    (∀ m ∈ ms, m.sessionLocal ∧ m.SkipMigrationLog = false) →
    (∀ m ∈ ms, m.keepsLog) →
    ∀ st st1 : RunState MemDb, LogSafe B st.mg.tableName ms →
      runLoop (memEnv B) ms st = (st1, none) →
      st1.mg = st.mg ∧
      (∀ id, Applied st.w.db.committed st.mg.tableName id →
        Applied st1.w.db.committed st.mg.tableName id) ∧
      (∀ m ∈ ms, st.mg.logMap.contains m.Id = false →
        Applied st1.w.db.committed st.mg.tableName m.Id) := by
  induction ms with
  | nil =>
    intro _ _ st st1 _ h
    simp only [runLoop, Prod.mk.injEq, and_true] at h
    subst h
    exact ⟨rfl, fun id h => h, by simp⟩
  | cons m rest ih =>
    intro hreg hkeep st st1 hsafe h
    have hreg2 : ∀ m0 ∈ rest, m0.sessionLocal ∧ m0.SkipMigrationLog = false :=
      fun m0 hm0 => hreg m0 (List.mem_cons_of_mem _ hm0)
    have hkeep2 : ∀ m0 ∈ rest, m0.keepsLog :=
      fun m0 hm0 => hkeep m0 (List.mem_cons_of_mem _ hm0)
    simp only [runLoop] at h
    cases hc : st.mg.logMap.contains m.Id with
    | true =>
      rw [hc] at h
      simp only [if_true] at h
      obtain ⟨k0, k1, k2⟩ := ih hreg2 hkeep2
        { st with migrationsSkipped := st.migrationsSkipped + 1 } st1 (hsafe.tail) h
      refine ⟨k0, k1, fun m0 hm0 hc0 => ?_⟩
      rcases List.mem_cons.1 hm0 with rfl | h1
      · rw [hc] at hc0
        cases hc0
      · exact k2 m0 h1 hc0
    | false =>
      rw [hc] at h
      simp only [Bool.false_eq_true, if_false] at h
      have hfr := (runMigration_frame (memEnv B) m st).2.1 (hkeep m (List.mem_cons_self _ _))
      rcases hm : runMigration (memEnv B) m st with ⟨st2, r2⟩
      rw [hm] at h hfr
      simp only at hfr
      cases r2 with
      | some err => simp at h
      | none =>
        simp only at h
        obtain ⟨k0, k1, k2⟩ := ih hreg2 hkeep2 st2 st1 (by rw [hfr]; exact hsafe.tail) h
        rw [hfr] at k0 k1 k2
        obtain ⟨rows, row, j1, j2, j3, j4⟩ := mem_runMigration_logged B m st
          (hreg m (List.mem_cons_self _ _)).1
          (LogSafe.of_mem B _ _ m (List.mem_cons_self _ _) hsafe)
          (hreg m (List.mem_cons_self _ _)).2 (by rw [hm])
        rw [hm] at j1
        simp only at j1
        have happ : Applied st2.w.db.committed st.mg.tableName m.Id :=
          ⟨_, j1, row, by simp, j2, j3⟩
        have hmono : ∀ id, Applied st.w.db.committed st.mg.tableName id →
            Applied st2.w.db.committed st.mg.tableName id := by
          rintro id ⟨rows0, h0, row0, hr0, hr1⟩
          have := j4 rows0 h0
          subst this
          exact ⟨_, j1, row0, List.mem_append_left _ hr0, hr1⟩
        refine ⟨k0, fun id hid => k1 id (hmono id hid), fun m0 hm0 hc0 => ?_⟩
        rcases List.mem_cons.1 hm0 with rfl | h1
        · exact k1 _ happ
        · exact k2 m0 h1 hc0

theorem logMap_fold_contains (rows : List MigrationLog) (id : String) :
    ∀ acc : GoMap MigrationLog,
      (rows.foldl (fun (logMap : GoMap MigrationLog) logItem =>
          if !logItem.Success then logMap else logMap.set logItem.MigrationID logItem) acc).contains id
        = (acc.contains id || rows.any (fun r => r.Success && decide (r.MigrationID = id))) := by
  induction rows with
  | nil => intro acc; simp
  | cons r rest ih =>
    intro acc
    simp only [List.foldl_cons, List.any_cons]
    rw [ih]
    cases hs : r.Success with
    | false => simp
    | true =>
      simp only [Bool.not_true, Bool.false_eq_true, if_false, Bool.true_and]
      rw [GoMap.contains_set]
      by_cases hid : id = r.MigrationID
      · simp [hid]
      · have : ¬ r.MigrationID = id := fun h => hid h.symm
        simp [hid, this]

theorem mem_GetMigrationLog (B : Backend) (mg : Migrator MemDb) (w : World MemDb) :
    (GetMigrationLog (memEnv B) mg w).1.1.db = w.db ∧
    (∃ logMap, (GetMigrationLog (memEnv B) mg w).2 = Except.ok logMap) ∧
    (∀ e ∈ (GetMigrationLog (memEnv B) mg w).1.1.trace.drop w.trace.length, e.isLoad = true) ∧
    (w.db.committed.tables.get mg.tableName = none →
      (GetMigrationLog (memEnv B) mg w).1.2 = mg) ∧
    (∀ rows, w.db.committed.tables.get mg.tableName = some rows →
      ∀ id, (GetMigrationLog (memEnv B) mg w).1.2.logMap.contains id =
        rows.any (fun r => r.Success && decide (r.MigrationID = id))) := by
  unfold GetMigrationLog
  simp only [World.call, memEnv, GoMap.contains]
  cases hg : w.db.committed.tables.get mg.tableName with
  | none =>
    simp [Event.isLoad]
  | some rows =>
    simp only [Option.isSome_some, hg]
    refine ⟨trivial, by simp, by simp [Event.isLoad], by simp, ?_⟩
    intro rows0 h0 id
    simp only [Option.some.injEq] at h0
    subst h0
    have := logMap_fold_contains rows id GoMap.empty
    simp only [GoMap.contains] at this
    rw [this]
    simp [GoMap.empty, GoMap.get]

theorem runLoop_all_skipped {ω : Type} (E : Env ω) (ms : List (Migration ω)) :
    ∀ st : RunState ω, (∀ m ∈ ms, st.mg.logMap.contains m.Id = true) →
      (runLoop E ms st).1.w = st.w ∧ (runLoop E ms st).1.mg = st.mg ∧
        (runLoop E ms st).2 = none := by
  induction ms with
  | nil => intro st _; exact ⟨rfl, rfl, rfl⟩
  | cons m rest ih =>
    intro st h
    simp only [runLoop, h m (List.mem_cons_self _ _), if_true]
    exact ih _ (fun m0 hm0 => h m0 (List.mem_cons_of_mem _ hm0))

theorem Applied.any (s : Store) (table id : String) (rows : List MigrationLog)
    (hrows : s.tables.get table = some rows) (h : Applied s table id) :
    rows.any (fun r => r.Success && decide (r.MigrationID = id)) = true := by
  obtain ⟨rows0, h0, row, hr, h1, h2⟩ := h
  rw [hrows] at h0
  cases h0
  rw [List.any_eq_true]
  exact ⟨row, hr, by simp [h1, h2]⟩

theorem Applied.of_any (s : Store) (table id : String) (rows : List MigrationLog)
    (hrows : s.tables.get table = some rows)
    (h : rows.any (fun r => r.Success && decide (r.MigrationID = id)) = true) :
    Applied s table id := by
  rw [List.any_eq_true] at h
  obtain ⟨row, hr, h1⟩ := h
  simp only [Bool.and_eq_true, decide_eq_true_eq] at h1
  exact ⟨rows, hrows, row, hr, h1.2, h1.1⟩


/-- A run of the in-memory engine that ends without error leaves every registered migration
applied. -/
theorem mem_run_applied (B : Backend) (mg : Migrator MemDb) (w : World MemDb)
    (hfresh : mg.logMap = GoMap.empty ∨ w.db.committed.tables.contains mg.tableName = true)
    (hreg : ∀ m ∈ mg.migrations, m.sessionLocal ∧ m.SkipMigrationLog = false)
    (hkeep : ∀ m ∈ mg.migrations, m.keepsLog)
    (hsafe : LogSafe B mg.tableName mg.migrations)
    (hok : (run (memEnv B) mg w).2 = none) :
    (run (memEnv B) mg w).1.2.migrations = mg.migrations ∧
    (run (memEnv B) mg w).1.2.tableName = mg.tableName ∧
    (run (memEnv B) mg w).1.2.isLocked = mg.isLocked ∧
    ∀ m ∈ mg.migrations, Applied (run (memEnv B) mg w).1.1.db.committed mg.tableName m.Id := by
  obtain ⟨f1, -, f3, f4⟩ := run_frame (memEnv B) mg w
  obtain ⟨g1, ⟨logMap, g2⟩, -, g4, g5⟩ := mem_GetMigrationLog B mg w
  obtain ⟨-, -, -, -, g6, g7⟩ := GetMigrationLog_trace (memEnv B) mg w
  refine ⟨f1, f4, f3, ?_⟩
  unfold run at hok ⊢
  rcases hg : GetMigrationLog (memEnv B) mg w with ⟨⟨w1, mg1⟩, r1⟩
  rw [hg] at g1 g2 g4 g5 g6 g7 hok
  simp only at g1 g2 g4 g5 g6 g7
  subst g2
  simp only at hok ⊢
  rcases hl : runLoop (memEnv B) mg1.migrations ⟨w1, mg1, 0, 0⟩ with ⟨st1, r2⟩
  rw [hl] at hok
  cases r2 with
  | some err => simp at hok
  | none =>
    simp only
    intro m hm
    have hreg1 : ∀ m ∈ mg1.migrations, m.sessionLocal ∧ m.SkipMigrationLog = false := by
      rw [g6]; exact hreg
    have hkeep1 : ∀ m ∈ mg1.migrations, m.keepsLog := by
      rw [g6]; exact hkeep
    have hsafe1 : LogSafe B mg1.tableName mg1.migrations := by
      rw [g6, g7]; exact hsafe
    obtain ⟨-, k1, k2⟩ := mem_runLoop_applied B mg1.migrations hreg1 hkeep1
      ⟨w1, mg1, 0, 0⟩ st1 hsafe1 hl
    simp only at k1 k2
    rw [g7] at k1 k2
    have hdb : (World.call st1.w (memEnv B).Sync2 Event.sync2).1.db = st1.w.db := rfl
    rw [hdb]
    rw [← g6] at hm
    cases hc : mg1.logMap.contains m.Id with
    | false => exact k2 m hm hc
    | true =>
      apply k1
      rw [g1]
      cases hrows : w.db.committed.tables.get mg.tableName with
      | none =>
        have hmg := g4 hrows
        subst hmg
        rcases hfresh with hf | hf
        · rw [hf] at hc
          simp [GoMap.contains, GoMap.get, GoMap.empty] at hc
        · simp [GoMap.contains, hrows] at hf
      | some rows =>
        rw [g5 rows hrows] at hc
        exact Applied.of_any _ _ _ rows hrows hc

/-- A run of the in-memory engine on a database where every registered migration is applied
calls nothing but the loading of the log and `Sync2`, and changes nothing. -/
theorem mem_run_again (B : Backend) (mg : Migrator MemDb) (w : World MemDb)
    (happ : ∀ m ∈ mg.migrations, Applied w.db.committed mg.tableName m.Id) :
    (run (memEnv B) mg w).2 = none ∧
    (run (memEnv B) mg w).1.1.db = w.db ∧
    (∀ m ∈ mg.migrations, (run (memEnv B) mg w).1.2.logMap.contains m.Id = true) ∧
    (run (memEnv B) mg w).1.2.isLocked = mg.isLocked ∧
    ∃ evs, (run (memEnv B) mg w).1.1.trace = w.trace ++ evs ∧
      ∀ e ∈ evs, e.isLoad = true ∨ e.isSync2 = true := by
  obtain ⟨-, -, f3, -⟩ := run_frame (memEnv B) mg w
  obtain ⟨g1, ⟨logMap, g2⟩, -, g4, g5⟩ := mem_GetMigrationLog B mg w
  obtain ⟨load, t1, -, t3, g6, g7⟩ := GetMigrationLog_trace (memEnv B) mg w
  refine ⟨?_, ?_, ?_, f3, ?_⟩
  all_goals
    unfold run
    rcases hg : GetMigrationLog (memEnv B) mg w with ⟨⟨w1, mg1⟩, r1⟩
    rw [hg] at g1 g2 g4 g5 g6 g7 t1
    simp only at g1 g2 g4 g5 g6 g7 t1
    subst g2
    simp only
    have hall : ∀ m ∈ mg1.migrations, mg1.logMap.contains m.Id = true := by
      intro m hm
      rw [g6] at hm
      obtain ⟨rows, hrows, -⟩ := happ m hm
      rw [g5 rows hrows]
      exact Applied.any _ _ _ rows hrows (happ m hm)
    obtain ⟨s1, s0, s2⟩ := runLoop_all_skipped (memEnv B) mg1.migrations ⟨w1, mg1, 0, 0⟩ hall
    rcases hl : runLoop (memEnv B) mg1.migrations ⟨w1, mg1, 0, 0⟩ with ⟨st1, r2⟩
    rw [hl] at s1 s2 s0
    simp only at s1 s2 s0
    subst s2
    simp only
  · rfl
  · show st1.w.db = w.db
    rw [s1]
    exact g1
  · rw [s0, ← g6]
    exact hall
  · refine ⟨load ++ [Event.sync2 none], ?_, ?_⟩
    · show st1.w.trace ++ [Event.sync2 _] = w.trace ++ (load ++ [Event.sync2 none])
      rw [s1, t1, List.append_assoc]
      rfl
    · intro e he
      rcases List.mem_append.1 he with h1 | h1
      · exact Or.inl (t3 e h1)
      · simp only [List.mem_singleton] at h1
        subst h1
        exact Or.inr rfl

/-! ### Sessions of the in-memory engine that stay untouched -/

theorem MemDb.lookup_filter_none (l : List (Nat × Store)) (k : Nat) (p : Nat × Store → Bool)
    (h : l.lookup k = none) : (l.filter p).lookup k = none := by
  induction l with
  | nil => rfl
  | cons a rest ih =>
    obtain ⟨a1, a2⟩ := a
    simp only [List.lookup_cons] at h
    cases hk : (k == a1) with
    | true => rw [hk] at h; cases h
    | false =>
      rw [hk] at h
      by_cases hp : p (a1, a2) = true
      · rw [List.filter_cons_of_pos hp]
        simp only [List.lookup_cons, hk]
        exact ih h
      · rw [List.filter_cons_of_neg hp]
        exact ih h

theorem MemDb.Untouched.discard (k s : Nat) (db : MemDb) (h : MemDb.Untouched k db) :
    MemDb.Untouched k (db.discard s) :=
  ⟨MemDb.lookup_filter_none _ _ _ h.1, h.2⟩

theorem MemDb.Untouched.update (k s : Nat) (db : MemDb) (f : Store → Except GoError Store)
    (hks : k ≠ s) (h : MemDb.Untouched k db) : MemDb.Untouched k (db.update s f).1 := by
  unfold MemDb.update
  cases f (db.view s) with
  | error e => exact h
  | ok x =>
    refine ⟨?_, h.2⟩
    have hb : (k == s) = false := by simpa using hks
    simp only [MemDb.write, MemDb.discard, List.lookup_cons, hb]
    exact MemDb.lookup_filter_none _ _ _ h.1

theorem MemDb.Untouched.view (k : Nat) (db : MemDb) (h : MemDb.Untouched k db) :
    db.view k = db.committed := by
  simp [MemDb.view, h.1]

theorem mem_exec_untouched (B : Backend) (mg : Migrator MemDb) (m : Migration MemDb)
    (k sess : Nat)
    (w : World MemDb) (hl : m.sessionLocal) (hks : k ≠ sess) (h : MemDb.Untouched k w.db) :
    MemDb.Untouched k (exec (memEnv B) mg m sess w).1.1.db := by
  have body : ∀ w0 : World MemDb, w0.db = w.db →
      MemDb.Untouched k (execBody (memEnv B) mg m sess w0).1.1.db := by
    intro w0 hw
    unfold execBody
    rcases hl with hx | ⟨f, g, hx⟩
    · rw [hx]
      simp only [World.call, memEnv, hw]
      exact MemDb.Untouched.update k sess _ _ hks h
    · rw [hx]
      simp only [World.call, memCode, hw]
      exact MemDb.Untouched.update k sess _ _ hks h
  unfold exec
  cases hc : m.Condition with
  | none => exact body w rfl
  | some cond =>
    by_cases hs : cond.SQL.1 = ""
    · simp only [hs, bne_self_eq_false, Bool.false_eq_true, if_false]
      exact body w rfl
    · have hb : (cond.SQL.1 != "") = true := by simpa using hs
      simp only [hb, if_true]
      cases hq : ((memEnv B).Query sess cond.SQL.1 cond.SQL.2 w.db).2 with
      | error err =>
        simp only [World.call, hq]
        exact h
      | ok results =>
        simp only [World.call, hq]
        cases hf : cond.IsFulfilled results with
        | false =>
          simp only [Bool.not_false, if_true]
          exact h
        | true =>
          simp only [Bool.not_true, Bool.false_eq_true, if_false]
          exact body
            { w with db := ((memEnv B).Query sess cond.SQL.1 cond.SQL.2 w.db).1,
                     trace := w.trace ++ [Event.query sess m.Id cond.SQL.1 (Except.ok results)] }
            rfl

theorem mem_runCallback_untouched (B : Backend) (m : Migration MemDb)
    (record : MigrationLog) (k sess : Nat) (st : World MemDb × (Migrator MemDb × Nat))
    (hl : m.sessionLocal)
    (hks : k ≠ sess) (h : MemDb.Untouched k st.1.db) :
    MemDb.Untouched k (runCallback (memEnv B) m record sess st).1.1.db := by
  have h1 := mem_exec_untouched B st.2.1 m k sess st.1 hl hks h
  unfold runCallback
  rcases hex : exec (memEnv B) st.2.1 m sess st.1 with ⟨⟨w1, mg1⟩, r1⟩
  rw [hex] at h1
  simp only at h1
  cases r1 with
  | some cause =>
    simp only
    cases hs : m.SkipMigrationLog with
    | true => simpa using h1
    | false =>
      simp only [Bool.not_false, if_true, World.call]
      have h2 : MemDb.Untouched k ((memEnv B).Insert sess mg1.tableName
          { record with Error := cause.Error } w1.db).1 :=
        MemDb.Untouched.update k sess _ _ hks h1
      cases hi : ((memEnv B).Insert sess mg1.tableName { record with Error := cause.Error }
          w1.db).2 <;> exact h2
  | none =>
    simp only
    cases hs : m.SkipMigrationLog with
    | true => simpa using h1
    | false =>
      simp only [Bool.not_false, if_true, World.call]
      have h2 : MemDb.Untouched k ((memEnv B).Insert sess mg1.tableName
          { record with Success := true } w1.db).1 :=
        MemDb.Untouched.update k sess _ _ hks h1
      cases hi : ((memEnv B).Insert sess mg1.tableName { record with Success := true }
          w1.db).2 <;> exact h2

theorem mem_InTransaction_untouched {α : Type} (B : Backend) (k : Nat)
    (callback : Nat → World MemDb × α → (World MemDb × α) × Option GoError)
    (hcb : ∀ sess st, k < sess → MemDb.Untouched k st.1.db →
      MemDb.Untouched k (callback sess st).1.1.db)
    (st : World MemDb × α) (h : MemDb.Untouched k st.1.db) :
    MemDb.Untouched k (InTransaction (memEnv B) callback st).1.1.db := by
  unfold InTransaction
  simp only [World.call]
  have hb : (memEnv B).Begin ((memEnv B).NewSession st.1.db).2 ((memEnv B).NewSession st.1.db).1
      = (({ st.1.db with nextSession := st.1.db.nextSession + 1 } : MemDb).discard
          st.1.db.nextSession, none) := rfl
  have hn : ((memEnv B).NewSession st.1.db).2 = st.1.db.nextSession := rfl
  rw [hb, hn]
  simp only
  have h2 : MemDb.Untouched k (({ st.1.db with nextSession := st.1.db.nextSession + 1 }
      : MemDb).discard st.1.db.nextSession) :=
    MemDb.Untouched.discard _ _ _ ⟨h.1, Nat.lt_succ_of_lt h.2⟩
  have h3 := hcb st.1.db.nextSession
    ({ db := ({ st.1.db with nextSession := st.1.db.nextSession + 1 } : MemDb).discard
              st.1.db.nextSession,
       trace := st.1.trace ++ [Event.newSession st.1.db.nextSession] ++
              [Event.txBegin st.1.db.nextSession none],
       ticks := st.1.ticks }, st.2) h.2 h2
  rcases hc : callback st.1.db.nextSession
    ({ db := ({ st.1.db with nextSession := st.1.db.nextSession + 1 } : MemDb).discard
              st.1.db.nextSession,
       trace := st.1.trace ++ [Event.newSession st.1.db.nextSession] ++
              [Event.txBegin st.1.db.nextSession none],
       ticks := st.1.ticks }, st.2) with ⟨st2, r2⟩
  rw [hc] at h3
  simp only at h3
  cases r2 with
  | some err =>
    have hr : (memEnv B).Rollback st.1.db.nextSession st2.1.db
        = (st2.1.db.discard st.1.db.nextSession, none) := rfl
    simp only
    rw [hr]
    exact MemDb.Untouched.discard _ _ _ (MemDb.Untouched.discard _ _ _ h3)
  | none =>
    have hr : (memEnv B).Commit st.1.db.nextSession st2.1.db
        = ({ st2.1.db.discard st.1.db.nextSession with
              committed := st2.1.db.view st.1.db.nextSession }, none) := rfl
    simp only
    rw [hr]
    have h4 := MemDb.Untouched.discard k st.1.db.nextSession _ h3
    exact MemDb.Untouched.discard k st.1.db.nextSession _ ⟨h4.1, h4.2⟩

theorem mem_runLoop_untouched (B : Backend) (k : Nat)
    (ms : List (Migration MemDb)) :
    (∀ m ∈ ms, m.sessionLocal) → ∀ st : RunState MemDb, MemDb.Untouched k st.w.db →
      MemDb.Untouched k (runLoop (memEnv B) ms st).1.w.db := by
  induction ms with
  | nil => intro _ st h; exact h
  | cons m rest ih =>
    intro hreg st h
    simp only [runLoop]
    cases hc : st.mg.logMap.contains m.Id with
    | true =>
      simp only [if_true]
      exact ih (fun m0 hm0 => hreg m0 (List.mem_cons_of_mem _ hm0)) _ h
    | false =>
      simp only [Bool.false_eq_true, if_false]
      have h1 : MemDb.Untouched k (runMigration (memEnv B) m st).1.w.db := by
        have := mem_InTransaction_untouched B k
          (runCallback (memEnv B) m (newRecord m ((memEnv B).Now st.w.ticks)))
          (fun sess st0 hks h0 => mem_runCallback_untouched B m _ k sess st0
            (hreg m (List.mem_cons_self _ _)) (Nat.ne_of_lt hks) h0)
          ((st.w.now (memEnv B)).1, (st.mg, st.migrationsPerformed)) h
        exact this
      rcases hm : runMigration (memEnv B) m st with ⟨st1, r1⟩
      rw [hm] at h1
      cases r1 with
      | some err => exact h1
      | none => exact ih (fun m0 hm0 => hreg m0 (List.mem_cons_of_mem _ hm0)) _ h1

theorem mem_run_untouched (B : Backend) (mg : Migrator MemDb) (k : Nat) (w : World MemDb)
    (hreg : ∀ m ∈ mg.migrations, m.sessionLocal) (h : MemDb.Untouched k w.db) :
    MemDb.Untouched k (run (memEnv B) mg w).1.1.db := by
  obtain ⟨g1, -, -, -, -⟩ := mem_GetMigrationLog B mg w
  obtain ⟨-, -, -, -, g6, -⟩ := GetMigrationLog_trace (memEnv B) mg w
  unfold run
  rcases hg : GetMigrationLog (memEnv B) mg w with ⟨⟨w1, mg1⟩, r1⟩
  rw [hg] at g1 g6
  simp only at g1 g6
  cases r1 with
  | error err =>
    simp only
    rw [g1]
    exact h
  | ok lm =>
    simp only
    have h1 := mem_runLoop_untouched B k mg1.migrations (by rw [g6]; exact hreg)
      ⟨w1, mg1, 0, 0⟩ (by simp only; rw [g1]; exact h)
    rcases hl : runLoop (memEnv B) mg1.migrations ⟨w1, mg1, 0, 0⟩ with ⟨st1, r2⟩
    rw [hl] at h1
    cases r2 with
    | some err => exact h1
    | none => exact h1

theorem mem_InTransaction_eq {α : Type} (B : Backend)
    (callback : Nat → World MemDb × α → (World MemDb × α) × Option GoError)
    (st : World MemDb × α) :
    (InTransaction (memEnv B) callback st).2 =
      (callback st.1.db.nextSession (memBegun st.1, st.2)).2 ∧
    (InTransaction (memEnv B) callback st).1.2 =
      (callback st.1.db.nextSession (memBegun st.1, st.2)).1.2 ∧
    (InTransaction (memEnv B) callback st).1.1.db.committed =
      (match (callback st.1.db.nextSession (memBegun st.1, st.2)).2 with
        | some _ => (callback st.1.db.nextSession (memBegun st.1, st.2)).1.1.db.committed
        | none => (callback st.1.db.nextSession (memBegun st.1, st.2)).1.1.db.view
            st.1.db.nextSession) ∧
    ∃ fin, fin.executed = none ∧ fin.inserted = none ∧
      (InTransaction (memEnv B) callback st).1.1.trace =
        (callback st.1.db.nextSession (memBegun st.1, st.2)).1.1.trace ++
          [fin, Event.close st.1.db.nextSession] := by
  unfold InTransaction
  simp only [World.call]
  have hb : (memEnv B).Begin ((memEnv B).NewSession st.1.db).2 ((memEnv B).NewSession st.1.db).1
      = (({ st.1.db with nextSession := st.1.db.nextSession + 1 } : MemDb).discard
          st.1.db.nextSession, none) := rfl
  have hn : ((memEnv B).NewSession st.1.db).2 = st.1.db.nextSession := rfl
  rw [hb, hn]
  simp only
  have hw : (⟨({ st.1.db with nextSession := st.1.db.nextSession + 1 } : MemDb).discard
        st.1.db.nextSession,
      st.1.trace ++ [Event.newSession st.1.db.nextSession] ++
        [Event.txBegin st.1.db.nextSession none],
      st.1.ticks⟩ : World MemDb) = memBegun st.1 := by
    simp [memBegun]
  rw [hw]
  rcases hc : callback st.1.db.nextSession (memBegun st.1, st.2) with ⟨st2, r2⟩
  cases r2 with
  | some err =>
    have hr : (memEnv B).Rollback st.1.db.nextSession st2.1.db
        = (st2.1.db.discard st.1.db.nextSession, none) := rfl
    simp only
    rw [hr]
    exact ⟨rfl, rfl, rfl, Event.rollback st.1.db.nextSession none, rfl, rfl,
      by simp only [List.append_assoc]; rfl⟩
  | none =>
    have hr : (memEnv B).Commit st.1.db.nextSession st2.1.db
        = ({ st2.1.db.discard st.1.db.nextSession with
              committed := st2.1.db.view st.1.db.nextSession }, none) := rfl
    simp only
    rw [hr]
    exact ⟨rfl, rfl, rfl, Event.commit st.1.db.nextSession none, rfl, rfl,
      by simp only [List.append_assoc]; rfl⟩

theorem mem_acquire (B : Backend) (mg : Migrator MemDb) (cfg : LockCfg) (w : World MemDb) :
    (acquire (memEnv B) mg cfg w).1.1.db = w.db ∧
    (acquire (memEnv B) mg cfg w).1.2.migrations = mg.migrations ∧
    (acquire (memEnv B) mg cfg w).1.2.tableName = mg.tableName ∧
    (acquire (memEnv B) mg cfg w).1.2.logMap = mg.logMap ∧
    ∃ evs, (acquire (memEnv B) mg cfg w).1.1.trace = w.trace ++ evs ∧
      ∀ e ∈ evs, e.executed = none ∧ e.inserted = none := by
  obtain ⟨ms, ids, l, lm, t⟩ := mg
  cases l with
  | true =>
    simp only [acquire, casRestoreOnErr, CompareAndSwap, Bool.true_eq_false,
      Bool.false_eq_true, if_false, beq_iff_eq]
    exact ⟨trivial, trivial, trivial, trivial, [], by simp, by simp⟩
  | false =>
    simp only [acquire, casRestoreOnErr, CompareAndSwap, beq_self_eq_true, if_true,
      dialectLock, World.call]
    cases hl : ((memEnv B).Lock cfg w.db).2 <;>
      (refine ⟨?_, ?_, ?_, ?_, ?_⟩ <;>
        first
        | trivial
        | rfl
        | exact ⟨_, rfl, by simp [Event.executed, Event.inserted]⟩)

theorem mem_release (B : Backend) (mg : Migrator MemDb) (cfg : LockCfg) (w : World MemDb) :
    (release (memEnv B) mg cfg w).1.1.db = w.db ∧
    (release (memEnv B) mg cfg w).1.2.migrations = mg.migrations ∧
    (release (memEnv B) mg cfg w).1.2.tableName = mg.tableName ∧
    (release (memEnv B) mg cfg w).1.2.logMap = mg.logMap ∧
    ∃ evs, (release (memEnv B) mg cfg w).1.1.trace = w.trace ++ evs ∧
      ∀ e ∈ evs, e.executed = none ∧ e.inserted = none := by
  obtain ⟨ms, ids, l, lm, t⟩ := mg
  cases l with
  | false =>
    simp only [release, casRestoreOnErr, CompareAndSwap, Bool.true_eq_false,
      Bool.false_eq_true, if_false, beq_iff_eq]
    exact ⟨trivial, trivial, trivial, trivial, [], by simp, by simp⟩
  | true =>
    simp only [release, casRestoreOnErr, CompareAndSwap, beq_self_eq_true, if_true,
      dialectUnlock, World.call]
    cases hl : ((memEnv B).Unlock cfg w.db).2 <;>
      (refine ⟨?_, ?_, ?_, ?_, ?_⟩ <;>
        first
        | trivial
        | rfl
        | exact ⟨_, rfl, by simp [Event.executed, Event.inserted]⟩)

theorem mem_Start_applied (B : Backend) (mg : Migrator MemDb) (w : World MemDb)
    (locking : Bool) (timeout : Int)
    (hfresh : mg.logMap = GoMap.empty ∨ w.db.committed.tables.contains mg.tableName = true)
    (hreg : ∀ m ∈ mg.migrations, m.sessionLocal ∧ m.SkipMigrationLog = false)
    (hkeep : ∀ m ∈ mg.migrations, m.keepsLog)
    (hsafe : LogSafe B mg.tableName mg.migrations)
    (hok : (Start (memEnv B) mg locking timeout w).2 = none) :
    (Start (memEnv B) mg locking timeout w).1.2.migrations = mg.migrations ∧
    (Start (memEnv B) mg locking timeout w).1.2.tableName = mg.tableName ∧
    ∀ m ∈ mg.migrations,
      Applied (Start (memEnv B) mg locking timeout w).1.1.db.committed mg.tableName m.Id := by
  cases locking with
  | false =>
    have h := mem_run_applied B mg w hfresh hreg hkeep hsafe hok
    exact ⟨h.1, h.2.1, h.2.2.2⟩
  | true =>
    have hstart : Start (memEnv B) mg true timeout w =
        InTransaction (memEnv B) (startCallback (memEnv B) "oxygen" timeout) (w, mg) := rfl
    rw [hstart] at hok ⊢
    obtain ⟨e1, e2, e3, -⟩ := mem_InTransaction_eq B
      (startCallback (memEnv B) "oxygen" timeout) (w, mg)
    rw [e1] at hok
    rw [e2, e3, hok]
    simp only
    unfold startCallback at hok ⊢
    simp only at hok ⊢
    obtain ⟨a1, a2, a3, a4, -⟩ := mem_acquire B mg ⟨w.db.nextSession, "oxygen", timeout⟩
      (memBegun w)
    rcases ha : acquire (memEnv B) mg ⟨w.db.nextSession, "oxygen", timeout⟩ (memBegun w)
      with ⟨⟨w3, mg3⟩, r3⟩
    rw [ha] at hok a1 a2 a3 a4
    simp only at a1 a2 a3 a4
    cases r3 with
    | some err => simp at hok
    | none =>
      simp only at hok ⊢
      have hcomm : w3.db.committed = w.db.committed := by rw [a1]; rfl
      have happ := mem_run_applied B mg3 w3
        (by rw [a4, a3, hcomm]; exact hfresh) (by rw [a2]; exact hreg)
        (by rw [a2]; exact hkeep) (by rw [a3, a2]; exact hsafe) hok
      have hunt : MemDb.Untouched w.db.nextSession (run (memEnv B) mg3 w3).1.1.db := by
        apply mem_run_untouched B mg3 _ w3 (by rw [a2]; exact fun m hm => (hreg m hm).1)
        rw [a1]
        exact ⟨MemDb.lookup_discard _ _, Nat.lt_succ_self _⟩
      obtain ⟨r1, r2, r3, -, -⟩ := mem_release B (run (memEnv B) mg3 w3).1.2
        ⟨w.db.nextSession, "oxygen", timeout⟩ (run (memEnv B) mg3 w3).1.1
      rw [r1, r2, r3, hunt.view, happ.1, happ.2.1, a2, a3]
      refine ⟨rfl, rfl, fun m hm => ?_⟩
      have := happ.2.2.2 m (by rw [a2]; exact hm)
      rw [a3] at this
      exact this

theorem mem_Start_again (B : Backend) (mg : Migrator MemDb) (w : World MemDb)
    (locking : Bool) (timeout : Int)
    (happ : ∀ m ∈ mg.migrations, Applied w.db.committed mg.tableName m.Id) :
    (Start (memEnv B) mg locking timeout w).1.1.db.committed = w.db.committed ∧
    (∃ evs, (Start (memEnv B) mg locking timeout w).1.1.trace = w.trace ++ evs ∧
      ∀ e ∈ evs, e.executed = none ∧ e.inserted = none) ∧
    ((Start (memEnv B) mg locking timeout w).2 = none →
      ∀ m ∈ mg.migrations,
        (Start (memEnv B) mg locking timeout w).1.2.logMap.contains m.Id = true) ∧
    (locking = false → (Start (memEnv B) mg locking timeout w).2 = none) := by
  have idle : ∀ evs : List Event, (∀ e ∈ evs, e.isLoad = true ∨ e.isSync2 = true) →
      ∀ e ∈ evs, e.executed = none ∧ e.inserted = none := by
    intro evs h e he
    have := h e he
    cases e <;> simp_all [Event.isLoad, Event.isSync2, Event.executed, Event.inserted]
  cases locking with
  | false =>
    obtain ⟨h1, h2, h3, -, evs, h4, h5⟩ := mem_run_again B mg w happ
    exact ⟨by show (run (memEnv B) mg w).1.1.db.committed = _; rw [h2],
      ⟨evs, h4, idle evs h5⟩, fun _ => h3, fun _ => h1⟩
  | true =>
    have hstart : Start (memEnv B) mg true timeout w =
        InTransaction (memEnv B) (startCallback (memEnv B) "oxygen" timeout) (w, mg) := rfl
    rw [hstart]
    obtain ⟨e1, e2, e3, fin, f1, f2, e4⟩ := mem_InTransaction_eq B
      (startCallback (memEnv B) "oxygen" timeout) (w, mg)
    rw [e1, e2, e3, e4]
    simp only
    unfold startCallback
    simp only
    obtain ⟨a1, a2, a3, a4, aevs, a5, a6⟩ := mem_acquire B mg
      ⟨w.db.nextSession, "oxygen", timeout⟩ (memBegun w)
    rcases ha : acquire (memEnv B) mg ⟨w.db.nextSession, "oxygen", timeout⟩ (memBegun w)
      with ⟨⟨w3, mg3⟩, r3⟩
    rw [ha] at a1 a2 a3 a4 a5
    simp only at a1 a2 a3 a4 a5
    have hcomm : w3.db.committed = w.db.committed := by rw [a1]; rfl
    have hbegun : (memBegun w).trace = w.trace ++
        [Event.newSession w.db.nextSession, Event.txBegin w.db.nextSession none] := rfl
    cases r3 with
    | some err =>
      simp only
      refine ⟨hcomm, ⟨_, by rw [a5, hbegun]; simp only [List.append_assoc]; rfl, ?_⟩,
        by simp, by simp⟩
      intro e he
      simp only [List.mem_append, List.mem_cons, List.mem_singleton, List.not_mem_nil,
        or_false] at he
      rcases he with (rfl | rfl) | h1 | rfl | rfl
      · exact ⟨rfl, rfl⟩
      · exact ⟨rfl, rfl⟩
      · exact a6 e h1
      · exact ⟨f1, f2⟩
      · exact ⟨rfl, rfl⟩
    | none =>
      simp only
      obtain ⟨h1, h2, h3, -, evs, h4, h5⟩ := mem_run_again B mg3 w3
        (by rw [a2, a3, hcomm]; exact happ)
      obtain ⟨r1, r2, r3, r4, revs, r5, r6⟩ := mem_release B (run (memEnv B) mg3 w3).1.2
        ⟨w.db.nextSession, "oxygen", timeout⟩ (run (memEnv B) mg3 w3).1.1
      rw [h1, r1, r4, r5, h2, h4, a5, hbegun]
      simp only
      refine ⟨?_, ⟨_, by simp only [List.append_assoc]; rfl, ?_⟩,
        fun _ m hm => h3 m (by rw [a2]; exact hm), by simp⟩
      · rw [a1]
        exact MemDb.view_discard _ _
      · intro e he
        simp only [List.mem_append, List.mem_cons, List.mem_singleton, List.not_mem_nil,
          or_false] at he
        rcases he with (rfl | rfl) | h6 | h6 | h6 | rfl | rfl
        · exact ⟨rfl, rfl⟩
        · exact ⟨rfl, rfl⟩
        · exact a6 e h6
        · exact idle evs h5 e h6
        · exact r6 e h6
        · exact ⟨f1, f2⟩
        · exact ⟨rfl, rfl⟩

theorem sampleBackend_logSafe (table : String) (creating failing : List String)
    (ms : List (Migration MemDb)) (hdecl : ∀ m ∈ ms, m.Exec = none) :
    LogSafe (sampleBackend table creating failing) table ms := by
  refine ⟨fun m _ s s1 rows hsem hrows => ?_, fun m hm f g hf => ?_⟩
  · simp only [sampleBackend] at hsem
    split at hsem
    · cases hsem
    · split at hsem
      · have hc : s.tables.contains table = true := by simp [GoMap.contains, hrows]
        rw [hc] at hsem
        simp at hsem
      · simp only [Except.ok.injEq] at hsem
        rw [← hsem]
        exact hrows
  · rw [hdecl m hm] at hf
    cases hf

/-- C5, as the code has it: on the transactional engine, for a registry of logged migrations
whose statements and code bodies leave an existing log table alone and whose code bodies
leave the in-memory log alone, on a migrator that has loaded no log yet (or on a database that
has the log table): when a first `Start` ends without error, a second `Start` on the migrator
and the database it leaves executes no statement or code body and inserts no log record,
leaves the committed data, and so the persisted log, as they were, and whenever it ends
without error (as it does with locking disabled) has found every registered id in the
log. -/
theorem start_twice_idempotent (B : Backend) (mg : Migrator MemDb) (w : World MemDb)
    (locking1 locking2 : Bool) (timeout1 timeout2 : Int)
    (hfresh : mg.logMap = GoMap.empty ∨ w.db.committed.tables.contains mg.tableName = true)
    (hreg : ∀ m ∈ mg.migrations, m.sessionLocal ∧ m.SkipMigrationLog = false)
    (hkeep : ∀ m ∈ mg.migrations, m.keepsLog)
    (hsafe : LogSafe B mg.tableName mg.migrations)
    (hfirst : (Start (memEnv B) mg locking1 timeout1 w).2 = none) :
    (Start (memEnv B) (Start (memEnv B) mg locking1 timeout1 w).1.2 locking2 timeout2
        (Start (memEnv B) mg locking1 timeout1 w).1.1).1.1.db.committed =
      (Start (memEnv B) mg locking1 timeout1 w).1.1.db.committed ∧
    (∃ evs, (Start (memEnv B) (Start (memEnv B) mg locking1 timeout1 w).1.2 locking2 timeout2
        (Start (memEnv B) mg locking1 timeout1 w).1.1).1.1.trace =
        (Start (memEnv B) mg locking1 timeout1 w).1.1.trace ++ evs ∧
      ∀ e ∈ evs, e.executed = none ∧ e.inserted = none) ∧
    ((Start (memEnv B) (Start (memEnv B) mg locking1 timeout1 w).1.2 locking2 timeout2
        (Start (memEnv B) mg locking1 timeout1 w).1.1).2 = none →
      ∀ m ∈ mg.migrations,
        (Start (memEnv B) (Start (memEnv B) mg locking1 timeout1 w).1.2 locking2 timeout2
          (Start (memEnv B) mg locking1 timeout1 w).1.1).1.2.logMap.contains m.Id = true) ∧
    (locking2 = false →
      (Start (memEnv B) (Start (memEnv B) mg locking1 timeout1 w).1.2 locking2 timeout2
        (Start (memEnv B) mg locking1 timeout1 w).1.1).2 = none) := by
  obtain ⟨h1, h2, h3⟩ :=
    mem_Start_applied B mg w locking1 timeout1 hfresh hreg hkeep hsafe hfirst
  have h := mem_Start_again B (Start (memEnv B) mg locking1 timeout1 w).1.2
    (Start (memEnv B) mg locking1 timeout1 w).1.1 locking2 timeout2
    (by rw [h1, h2]; exact h3)
  rw [h1] at h
  exact h

/-- Witness for C5: "create" then "A" on an empty database, with locking on the first `Start`
and without on the second. -/
theorem start_twice_idempotent_witness :
    (Start (memEnv createBackend) (Start (memEnv createBackend) sampleRegistry true 5
        (freshWorld ⟨[], GoMap.empty⟩)).1.2 false 5
        (Start (memEnv createBackend) sampleRegistry true 5
          (freshWorld ⟨[], GoMap.empty⟩)).1.1).1.1.db.committed =
      (Start (memEnv createBackend) sampleRegistry true 5
        (freshWorld ⟨[], GoMap.empty⟩)).1.1.db.committed :=
  (start_twice_idempotent createBackend sampleRegistry (freshWorld ⟨[], GoMap.empty⟩)
    true false 5 5 (Or.inl rfl)
    (fun m hm => by
      have hlist : sampleRegistry.migrations = [sampleMigration "create", sampleMigration "A"] :=
        rfl
      rw [hlist] at hm
      simp only [List.mem_cons, List.mem_singleton, List.not_mem_nil, or_false] at hm
      rcases hm with rfl | rfl <;> exact ⟨Or.inl rfl, rfl⟩)
    (fun m hm => Migration.keepsLog_of_declarative m (by
      have hlist : sampleRegistry.migrations = [sampleMigration "create", sampleMigration "A"] :=
        rfl
      rw [hlist] at hm
      simp only [List.mem_cons, List.mem_singleton, List.not_mem_nil, or_false] at hm
      rcases hm with rfl | rfl <;> rfl))
    (sampleBackend_logSafe _ _ _ _ (fun m hm => by
      have hlist : sampleRegistry.migrations = [sampleMigration "create", sampleMigration "A"] :=
        rfl
      rw [hlist] at hm
      simp only [List.mem_cons, List.mem_singleton, List.not_mem_nil, or_false] at hm
      rcases hm with rfl | rfl <;> rfl))
    (by decide)).1

/-- Counterexample to C5 as stated: the registry "create", "A", "wipe" of logged migrations,
the first creating the log table and the last deleting its rows. The first `Start` on the
empty database ends without error and leaves the log with the row of "wipe" alone; the second
`Start` of the same migrator on that database executes "create" and "A" again and inserts a
log row for each. -/
theorem start_twice_reruns :
    (Start (memEnv wipeBackend)
      (sampleMigrator [sampleMigration "create", sampleMigration "A", sampleMigration "wipe"])
      false 5 (freshWorld ⟨[], GoMap.empty⟩)).2 = none ∧
    (Start (memEnv wipeBackend)
      (sampleMigrator [sampleMigration "create", sampleMigration "A", sampleMigration "wipe"])
      false 5 (freshWorld ⟨[], GoMap.empty⟩)).1.1.db.committed.tables.get "migration_log" =
      some [sampleRow 1 "wipe" 2] ∧
    (Start (memEnv wipeBackend)
      (Start (memEnv wipeBackend)
        (sampleMigrator [sampleMigration "create", sampleMigration "A", sampleMigration "wipe"])
        false 5 (freshWorld ⟨[], GoMap.empty⟩)).1.2 false 5
      (Start (memEnv wipeBackend)
        (sampleMigrator [sampleMigration "create", sampleMigration "A", sampleMigration "wipe"])
        false 5 (freshWorld ⟨[], GoMap.empty⟩)).1.1).1.1.trace.drop 20 =
      [Event.isTableExist "migration_log" (Except.ok true),
        Event.find "migration_log" (Except.ok [sampleRow 1 "wipe" 2]),
        Event.newSession 3, Event.txBegin 3 none, Event.execSQL 3 "create" "create" none,
        Event.insert 3 "migration_log" (sampleRow 0 "create" 3) none,
        Event.commit 3 none, Event.close 3,
        Event.newSession 4, Event.txBegin 4 none, Event.execSQL 4 "A" "A" none,
        Event.insert 4 "migration_log" (sampleRow 0 "A" 4) none,
        Event.commit 4 none, Event.close 4, Event.sync2 none] ∧
    (Start (memEnv wipeBackend)
      (Start (memEnv wipeBackend)
        (sampleMigrator [sampleMigration "create", sampleMigration "A", sampleMigration "wipe"])
        false 5 (freshWorld ⟨[], GoMap.empty⟩)).1.2 false 5
      (Start (memEnv wipeBackend)
        (sampleMigrator [sampleMigration "create", sampleMigration "A", sampleMigration "wipe"])
        false 5 (freshWorld ⟨[], GoMap.empty⟩)).1.1).1.1.db.committed.tables.get
        "migration_log" =
      some [sampleRow 1 "wipe" 2, sampleRow 2 "create" 3, sampleRow 3 "A" 4] := by
  decide

/-! ## The scenario A, B, C -/

/-- C3, on the code: with registry A, B, C on an empty log table, where the statement of B
fails, the run inserts the failure record of B inside B's transaction and rolls that
transaction back: the persisted log holds the success row of A and nothing else, and the
error names B. -/
theorem run_loses_failure_row :
    (run (memEnv (sampleBackend "migration_log" [] ["B"]))
      (sampleMigrator [sampleMigration "A", sampleMigration "B", sampleMigration "C"])
      (freshWorld (logStore []))).1.1.db.committed.tables.get "migration_log" =
      some [sampleRow 1 "A" 0] ∧
    (run (memEnv (sampleBackend "migration_log" [] ["B"]))
      (sampleMigrator [sampleMigration "A", sampleMigration "B", sampleMigration "C"])
      (freshWorld (logStore []))).2 =
      some (errorfWrap "migration failed (id = B)" (GoError.errorString "cannot run: B")) ∧
    (run (memEnv (sampleBackend "migration_log" [] ["B"]))
      (sampleMigrator [sampleMigration "A", sampleMigration "B", sampleMigration "C"])
      (freshWorld (logStore []))).1.1.trace.drop 8 =
      [Event.newSession 1, Event.txBegin 1 none,
        Event.execSQL 1 "B" "B" (some (GoError.errorString "cannot run: B")),
        Event.insert 1 "migration_log"
          { sampleRow 0 "B" 1 with Success := false, Error := "cannot run: B" } none,
        Event.rollback 1 none, Event.close 1] := by
  decide

/-! ## Introspection and the log cache -/

theorem GetMigrationIDs_fold {ω : Type} (excludeNotLogged : Bool) (ms : List (Migration ω)) :
    ∀ acc : List String,
      ms.foldl (fun result migration =>
          if migration.SkipMigrationLog && excludeNotLogged then result
          else result ++ [migration.Id]) acc =
        acc ++ (ms.filter (fun m => !(m.SkipMigrationLog && excludeNotLogged))).map
          (fun m => m.Id) := by
  induction ms with
  | nil => intro acc; simp
  | cons m rest ih =>
    intro acc
    simp only [List.foldl_cons]
    rw [ih]
    cases hs : m.SkipMigrationLog <;> cases excludeNotLogged <;>
      simp [List.filter_cons, hs]

/-- C15: `GetMigrationIDs` is a pure reading of the registry: with `excludeNotLogged = false`
it returns the ids of all registered migrations in registration order, one per registered
migration, and with `excludeNotLogged = true` the ids of exactly the migrations that are not
skip-log, in the same relative order. -/
theorem GetMigrationIDs_in_order {ω : Type} (mg : Migrator ω) :
    GetMigrationIDs mg false = mg.migrations.map (fun m => m.Id) ∧
    GetMigrationIDs mg true =
      (mg.migrations.filter (fun m => !m.SkipMigrationLog)).map (fun m => m.Id) ∧
    (GetMigrationIDs mg true).Sublist (GetMigrationIDs mg false) := by
  have h1 : GetMigrationIDs mg false = mg.migrations.map (fun m => m.Id) := by
    unfold GetMigrationIDs
    rw [GetMigrationIDs_fold]
    simp
  have h2 : GetMigrationIDs mg true =
      (mg.migrations.filter (fun m => !m.SkipMigrationLog)).map (fun m => m.Id) := by
    unfold GetMigrationIDs
    rw [GetMigrationIDs_fold]
    simp
  refine ⟨h1, h2, ?_⟩
  rw [h1, h2]
  exact (List.filter_sublist _).map _

theorem RemoveMigrationLogs_fold {ω : Type} (ids : List String) :
    ∀ mg : Migrator ω,
      (∀ k, (RemoveMigrationLogs mg ids).logMap.get k =
        if k ∈ ids then none else mg.logMap.get k) ∧
      (RemoveMigrationLogs mg ids).migrations = mg.migrations ∧
      (RemoveMigrationLogs mg ids).migrationIds = mg.migrationIds ∧
      (RemoveMigrationLogs mg ids).isLocked = mg.isLocked ∧
      (RemoveMigrationLogs mg ids).tableName = mg.tableName := by
  induction ids with
  | nil => intro mg; simp [RemoveMigrationLogs]
  | cons id rest ih =>
    intro mg
    have h := ih { mg with logMap := mg.logMap.delete id }
    simp only [RemoveMigrationLogs, List.foldl_cons] at h ⊢
    refine ⟨fun k => ?_, h.2.1, h.2.2.1, h.2.2.2.1, h.2.2.2.2⟩
    rw [h.1 k, GoMap.get_delete]
    by_cases hk : k = id
    · simp [hk]
    · by_cases hr : k ∈ rest
      · simp [hr]
      · simp [hk, hr]

/-- C14: after `RemoveMigrationLogs` the in-memory log holds no entry for a given id and
exactly the old entry for every other id; an id without entry, and a migrator whose log was
never loaded, are no error; the registry, the id set, the lock flag and the table name are
as before, and what `GetMigrationLog` then reads from the database, and the world it leaves,
are the same as without the call. -/
theorem RemoveMigrationLogs_forgets {ω : Type} (E : Env ω) (mg : Migrator ω)
    (ids : List String) (w : World ω) :
    (∀ k, (RemoveMigrationLogs mg ids).logMap.get k =
      if k ∈ ids then none else mg.logMap.get k) ∧
    (∀ k, (RemoveMigrationLogs { mg with logMap := GoMap.empty } ids).logMap.get k = none) ∧
    (RemoveMigrationLogs mg ids).migrations = mg.migrations ∧
    (RemoveMigrationLogs mg ids).migrationIds = mg.migrationIds ∧
    (RemoveMigrationLogs mg ids).isLocked = mg.isLocked ∧
    (RemoveMigrationLogs mg ids).tableName = mg.tableName ∧
    (GetMigrationLog E (RemoveMigrationLogs mg ids) w).2 = (GetMigrationLog E mg w).2 ∧
    (GetMigrationLog E (RemoveMigrationLogs mg ids) w).1.1 = (GetMigrationLog E mg w).1.1 := by
  obtain ⟨h1, h2, h3, h4, h5⟩ := RemoveMigrationLogs_fold ids mg
  refine ⟨h1, fun k => ?_, h2, h3, h4, h5, ?_, ?_⟩
  · rw [(RemoveMigrationLogs_fold ids { mg with logMap := GoMap.empty }).1 k]
    simp [GoMap.get, GoMap.empty]
  · unfold GetMigrationLog
    rw [h5]
    simp only [World.call]
    cases (E.IsTableExist mg.tableName w.db).2 with
    | error err => rfl
    | ok b =>
      cases b with
      | false => rfl
      | true =>
        simp only
        cases (E.Find mg.tableName (E.IsTableExist mg.tableName w.db).1).2 <;> rfl
  · unfold GetMigrationLog
    rw [h5]
    simp only [World.call]
    cases (E.IsTableExist mg.tableName w.db).2 with
    | error err => rfl
    | ok b =>
      cases b with
      | false => rfl
      | true =>
        simp only
        cases (E.Find mg.tableName (E.IsTableExist mg.tableName w.db).1).2 <;> rfl

theorem logMap_fold_get (rows : List MigrationLog) (id : String) (r : MigrationLog) :
    ∀ acc : GoMap MigrationLog,
      (rows.foldl (fun (logMap : GoMap MigrationLog) logItem =>
          if !logItem.Success then logMap else logMap.set logItem.MigrationID logItem) acc).get id
        = some r →
      acc.get id = some r ∨ (r ∈ rows ∧ r.MigrationID = id ∧ r.Success = true) := by
  induction rows with
  | nil => intro acc h; exact Or.inl h
  | cons r0 rest ih =>
    intro acc h
    simp only [List.foldl_cons] at h
    rcases ih _ h with h1 | ⟨h1, h2, h3⟩
    · cases hs : r0.Success with
      | false =>
        simp only [hs, Bool.not_false, if_true] at h1
        exact Or.inl h1
      | true =>
        simp only [hs, Bool.not_true, Bool.false_eq_true, if_false] at h1
        rw [GoMap.get_set] at h1
        by_cases hid : id = r0.MigrationID
        · simp only [hid, if_true, Option.some.injEq] at h1
          subst h1
          exact Or.inr ⟨List.mem_cons_self _ _, hid.symm, hs⟩
        · simp only [hid, if_false] at h1
          exact Or.inl h1
    · exact Or.inr ⟨List.mem_cons_of_mem _ h1, h2, h3⟩

/-- C13: `GetMigrationLog` first asks whether the log table exists. If it does not, the
method returns the empty mapping and no error, the existence check is the only call it made
and the migrator is as before. If the table exists and the query returns `rows`, the method
returns a mapping, also stored in the migrator, whose keys are exactly the migration ids with
at least one row of `rows` with `Success = true`, each mapped to such a row of that id; the
calls made are the existence check and the one query. -/
theorem GetMigrationLog_loads {ω : Type} (E : Env ω) (mg : Migrator ω) (w : World ω) :
    ((E.IsTableExist mg.tableName w.db).2 = Except.ok false →
      (GetMigrationLog E mg w).2 = Except.ok GoMap.empty ∧
      (∀ id, (GoMap.empty : GoMap MigrationLog).get id = none) ∧
      (GetMigrationLog E mg w).1.1.trace =
        w.trace ++ [Event.isTableExist mg.tableName (Except.ok false)] ∧
      (GetMigrationLog E mg w).1.1.db = (E.IsTableExist mg.tableName w.db).1 ∧
      (GetMigrationLog E mg w).1.2 = mg) ∧
    (∀ rows, (E.IsTableExist mg.tableName w.db).2 = Except.ok true →
      (E.Find mg.tableName (E.IsTableExist mg.tableName w.db).1).2 = Except.ok rows →
      ∃ logMap, (GetMigrationLog E mg w).2 = Except.ok logMap ∧
        (GetMigrationLog E mg w).1.2.logMap = logMap ∧
        (∀ id, logMap.contains id = true ↔
          ∃ r ∈ rows, r.MigrationID = id ∧ r.Success = true) ∧
        (∀ id r, logMap.get id = some r →
          r ∈ rows ∧ r.MigrationID = id ∧ r.Success = true) ∧
        (GetMigrationLog E mg w).1.1.trace =
          w.trace ++ [Event.isTableExist mg.tableName (Except.ok true),
            Event.find mg.tableName (Except.ok rows)]) := by
  refine ⟨fun h1 => ?_, fun rows h1 h2 => ?_⟩
  · unfold GetMigrationLog
    simp only [World.call, h1]
    refine ⟨?_, fun id => rfl, ?_, ?_, ?_⟩ <;> trivial
  · unfold GetMigrationLog
    simp only [World.call, h1, h2]
    refine ⟨_, rfl, rfl, fun id => ?_, fun id r hr => ?_, by simp⟩
    · rw [logMap_fold_contains]
      simp [GoMap.contains, GoMap.get, GoMap.empty, and_comm]
    · rcases logMap_fold_get rows id r _ hr with h | h
      · simp [GoMap.get, GoMap.empty] at h
      · exact h

/-- Witness for C13 on the in-memory engine: without a log table the result is the empty
mapping after the existence check alone; with a table holding a failed row of `A` and a
successful row of `B` only `B` is a key. -/
theorem GetMigrationLog_loads_witness :
    ((sampleEnv.IsTableExist (sampleMigrator []).tableName
        (freshWorld ⟨[], GoMap.empty⟩).db).2 = Except.ok false ∧
      (GetMigrationLog sampleEnv (sampleMigrator []) (freshWorld ⟨[], GoMap.empty⟩)).2 =
        Except.ok GoMap.empty ∧
      (GetMigrationLog sampleEnv (sampleMigrator []) (freshWorld ⟨[], GoMap.empty⟩)).1.1.trace =
        [Event.isTableExist "migration_log" (Except.ok false)]) ∧
    (∃ logMap, (GetMigrationLog sampleEnv (sampleMigrator []) (freshWorld (logStore
          [{ sampleRow 1 "A" 0 with Success := false }, sampleRow 2 "B" 1]))).2 =
        Except.ok logMap ∧
      logMap.contains "A" = false ∧ logMap.contains "B" = true) := by
  refine ⟨⟨rfl, ?_, ?_⟩, ?_⟩
  · exact ((GetMigrationLog_loads sampleEnv (sampleMigrator [])
      (freshWorld ⟨[], GoMap.empty⟩)).1 rfl).1
  · exact ((GetMigrationLog_loads sampleEnv (sampleMigrator [])
      (freshWorld ⟨[], GoMap.empty⟩)).1 rfl).2.2.1
  · obtain ⟨logMap, h1, -, h3, -⟩ := (GetMigrationLog_loads sampleEnv (sampleMigrator [])
      (freshWorld (logStore [{ sampleRow 1 "A" 0 with Success := false },
        sampleRow 2 "B" 1]))).2 _ rfl rfl
    refine ⟨logMap, h1, ?_, (h3 "B").2 ⟨sampleRow 2 "B" 1, by simp, rfl, rfl⟩⟩
    cases hc : logMap.contains "A" with
    | false => rfl
    | true =>
      obtain ⟨r, hr, h4, h5⟩ := (h3 "A").1 hc
      simp only [List.mem_cons, List.mem_singleton, List.not_mem_nil, or_false] at hr
      rcases hr with rfl | rfl
      · simp [sampleRow] at h5
      · simp [sampleRow] at h4

/-! ## Start under the lock -/

theorem run_isLocked {ω : Type} (E : Env ω) (mg : Migrator ω) (w : World ω) :
    (run E mg w).1.2.isLocked = mg.isLocked :=
  (run_frame E mg w).2.2.1

theorem Event.not_lock_of_session (e : Event) (h : e.session.isSome = true) :
    e.isLock = false ∧ e.isUnlock = false := by
  cases e <;> simp_all [Event.session, Event.isLock, Event.isUnlock]

theorem Event.not_lock_of_load (e : Event) (h : e.isLoad = true) :
    e.isLock = false ∧ e.isUnlock = false := by
  cases e <;> simp_all [Event.isLoad, Event.isLock, Event.isUnlock]

theorem run_no_lock {ω : Type} (E : Env ω) (mg : Migrator ω) (w : World ω) :
    ∃ evs, (run E mg w).1.1.trace = w.trace ++ evs ∧
      ∀ e ∈ evs, e.isLock = false ∧ e.isUnlock = false := by
  obtain ⟨evs, ht, hx⟩ := run_trace E mg w
  refine ⟨evs, ht, ?_⟩
  generalize (run E mg w).2 = r at hx
  cases hx with
  | loadFailed load err hl => exact fun e he => Event.not_lock_of_load e (hl e he)
  | loopFailed load evs err hl hloop =>
    intro e he
    rcases List.mem_append.1 he with h1 | h1
    · exact Event.not_lock_of_load e (hl e h1)
    · exact Event.not_lock_of_session e (loop_session _ _ _ _ _ _ hloop e h1)
  | synced load evs _ hl hloop =>
    intro e he
    rcases List.mem_append.1 he with h1 | h1
    · exact Event.not_lock_of_load e (hl e h1)
    · rcases List.mem_append.1 h1 with h2 | h2
      · exact Event.not_lock_of_session e (loop_session _ _ _ _ _ _ hloop e h2)
      · simp only [List.mem_singleton] at h2
        subst h2
        exact ⟨rfl, rfl⟩

theorem Start_disabled {ω : Type} (E : Env ω) (mg : Migrator ω) (timeout : Int) (w : World ω) :
    Start E mg false timeout w = run E mg w := by
  simp [Start]

theorem Start_rejected_eq {ω : Type} (E : Env ω) (mg mg3 : Migrator ω) (timeout : Int)
    (w w3 : World ω) (dbName key : String) (s : Nat) (db1 db2 db4 : ω) (lockErr : GoError)
    (rollErr : Option GoError)
    (hname : E.GetDBName E.DataSourceName = Except.ok dbName)
    (hkey : E.GenerateAdvisoryLockId dbName = Except.ok key)
    (hsess : E.NewSession w.db = (db1, s))
    (hbegin : E.Begin s db1 = (db2, none))
    (hacq : acquire E mg ⟨s, key, timeout⟩
      ⟨db2, w.trace ++ [Event.newSession s, Event.txBegin s none], w.ticks⟩ =
        ((w3, mg3), some lockErr))
    (hroll : E.Rollback s w3.db = (db4, rollErr)) :
    Start E mg true timeout w =
      ((⟨(E.Close s db4).1, w3.trace ++ [Event.rollback s rollErr, Event.close s], w3.ticks⟩,
        mg3),
       some (match rollErr with
        | some rollErr => errorfRollback rollErr lockErr
        | none => lockErr)) := by
  have hacq2 : acquire E mg ⟨s, key, timeout⟩
      ⟨db2, w.trace ++ [Event.newSession s] ++ [Event.txBegin s none], w.ticks⟩ =
        ((w3, mg3), some lockErr) := by
    rw [← hacq]; simp only [List.append_assoc, List.singleton_append]
  simp only [Start, Bool.not_true, Bool.false_eq_true, if_false, hname, hkey, InTransaction,
    World.call, hsess, hbegin, startCallback, hacq2, hroll]
  cases rollErr <;> simp

theorem Start_acquired_eq {ω : Type} (E : Env ω) (mg mg3 mg4 mg5 : Migrator ω) (timeout : Int)
    (w w3 w4 w5 : World ω) (dbName key : String) (s : Nat) (db1 db2 db6 db7 : ω)
    (r u rollErr commitErr : Option GoError)
    (hname : E.GetDBName E.DataSourceName = Except.ok dbName)
    (hkey : E.GenerateAdvisoryLockId dbName = Except.ok key)
    (hsess : E.NewSession w.db = (db1, s))
    (hbegin : E.Begin s db1 = (db2, none))
    (hacq : acquire E mg ⟨s, key, timeout⟩
      ⟨db2, w.trace ++ [Event.newSession s, Event.txBegin s none], w.ticks⟩ = ((w3, mg3), none))
    (hrun : run E mg3 w3 = ((w4, mg4), r))
    (hrel : release E mg4 ⟨s, key, timeout⟩ w4 = ((w5, mg5), u))
    (hroll : E.Rollback s w5.db = (db6, rollErr))
    (hcommit : E.Commit s w5.db = (db7, commitErr)) :
    Start E mg true timeout w =
      match r with
      | some err =>
        ((⟨(E.Close s db6).1, w5.trace ++ [Event.rollback s rollErr, Event.close s], w5.ticks⟩,
          mg5),
         some (match rollErr with
          | some rollErr => errorfRollback rollErr err
          | none => err))
      | none =>
        ((⟨(E.Close s db7).1, w5.trace ++ [Event.commit s commitErr, Event.close s], w5.ticks⟩,
          mg5), commitErr) := by
  have hacq2 : acquire E mg ⟨s, key, timeout⟩
      ⟨db2, w.trace ++ [Event.newSession s] ++ [Event.txBegin s none], w.ticks⟩ =
        ((w3, mg3), none) := by
    rw [← hacq]; simp only [List.append_assoc, List.singleton_append]
  simp only [Start, Bool.not_true, Bool.false_eq_true, if_false, hname, hkey, InTransaction,
    World.call, hsess, hbegin, startCallback, hacq2, hrun, hrel]
  cases r with
  | some err => simp only [hroll]; cases rollErr <;> simp
  | none => simp only [hcommit]; cases commitErr <;> simp

theorem acquire_failed {ω : Type} (E : Env ω) (mg mg3 : Migrator ω) (cfg : LockCfg)
    (w w3 : World ω) (lockErr : GoError)
    (h : acquire E mg cfg w = ((w3, mg3), some lockErr)) :
    mg3 = mg ∧ w3.ticks = w.ticks ∧
    ((mg.isLocked = true ∧ lockErr = ErrMigratorIsLocked ∧ w3 = w) ∨
     (mg.isLocked = false ∧ (E.Lock cfg w.db).2 = some lockErr ∧
       w3.db = (E.Lock cfg w.db).1 ∧
       w3.trace = w.trace ++ [Event.lock cfg (some lockErr)])) := by
  obtain ⟨ms, ids, l, lm, t⟩ := mg
  cases l with
  | true =>
    simp only [acquire, casRestoreOnErr, CompareAndSwap, Bool.true_eq_false,
      Bool.false_eq_true, if_false, beq_iff_eq, Prod.mk.injEq, Option.some.injEq] at h
    obtain ⟨⟨h1, h2⟩, h3⟩ := h
    subst h1 h2 h3
    exact ⟨rfl, rfl, Or.inl ⟨rfl, rfl, rfl⟩⟩
  | false =>
    simp only [acquire, casRestoreOnErr, CompareAndSwap, beq_self_eq_true, if_true,
      dialectLock, World.call] at h
    cases hl : (E.Lock cfg w.db).2 with
    | none => simp [hl] at h
    | some err =>
      simp only [hl, Prod.mk.injEq, Option.some.injEq] at h
      obtain ⟨⟨h1, h2⟩, h3⟩ := h
      subst h1 h2 h3
      exact ⟨rfl, rfl, Or.inr ⟨rfl, rfl, rfl, rfl⟩⟩

/-- C11, as the code has it: when `Start` with locking has obtained the lock id and begun its
transaction on session `s`, and the acquire step fails with `lockErr` (the flag is already
locked, and `lockErr` is `ErrMigratorIsLocked`, or the dialect's `Lock` returned `lockErr`),
then besides opening the session, at most the one `Lock` call, `Rollback` and `Close` nothing
is called: no migration is probed or executed, the log is neither loaded nor written, `Sync2`
is not called, and the migrator is as before. `Start` returns `lockErr` itself when the
`Rollback` succeeds, and otherwise the rollback error that wraps `lockErr`. -/
theorem Start_lock_rejected {ω : Type} (E : Env ω) (mg mg3 : Migrator ω) (timeout : Int)
    (w w3 : World ω) (dbName key : String) (s : Nat) (db1 db2 db4 : ω) (lockErr : GoError)
    (rollErr : Option GoError)
    (hname : E.GetDBName E.DataSourceName = Except.ok dbName)
    (hkey : E.GenerateAdvisoryLockId dbName = Except.ok key)
    (hsess : E.NewSession w.db = (db1, s))
    (hbegin : E.Begin s db1 = (db2, none))
    (hacq : acquire E mg ⟨s, key, timeout⟩
      ⟨db2, w.trace ++ [Event.newSession s, Event.txBegin s none], w.ticks⟩ =
        ((w3, mg3), some lockErr))
    (hroll : E.Rollback s w3.db = (db4, rollErr)) :
    (Start E mg true timeout w).2 =
      some (match rollErr with
        | some rollErr => errorfRollback rollErr lockErr
        | none => lockErr) ∧
    (∃ err, (Start E mg true timeout w).2 = some err ∧ err.Is lockErr = true) ∧
    ((mg.isLocked = true ∧ lockErr = ErrMigratorIsLocked) ∨
      (mg.isLocked = false ∧ (E.Lock ⟨s, key, timeout⟩ db2).2 = some lockErr)) ∧
    (Start E mg true timeout w).1.2 = mg ∧
    (Start E mg true timeout w).1.1.trace =
      w.trace ++ ([Event.newSession s, Event.txBegin s none] ++
        (if mg.isLocked then [] else [Event.lock ⟨s, key, timeout⟩ (some lockErr)]) ++
        [Event.rollback s rollErr, Event.close s]) ∧
    ∀ e ∈ (Start E mg true timeout w).1.1.trace.drop w.trace.length,
      e.migrationId = none ∧ e.inserted = none ∧ e.isLoad = false ∧ e.isSync2 = false := by
  have heq := Start_rejected_eq E mg mg3 timeout w w3 dbName key s db1 db2 db4 lockErr rollErr
    hname hkey hsess hbegin hacq hroll
  obtain ⟨hmg, -, hcase⟩ := acquire_failed E mg mg3 _ _ w3 lockErr hacq
  have htrace : (Start E mg true timeout w).1.1.trace =
      w.trace ++ ([Event.newSession s, Event.txBegin s none] ++
        (if mg.isLocked then [] else [Event.lock ⟨s, key, timeout⟩ (some lockErr)]) ++
        [Event.rollback s rollErr, Event.close s]) := by
    rw [heq]
    rcases hcase with ⟨h1, -, h3⟩ | ⟨h1, -, -, h4⟩
    · subst h3; simp [h1]
    · simp [h1, h4]
  refine ⟨by rw [heq], ?_, ?_, by rw [heq, hmg], htrace, ?_⟩
  · rw [heq]
    cases rollErr with
    | none => exact ⟨_, rfl, GoError.Is_refl _⟩
    | some re => exact ⟨_, rfl, GoError.Is_wrap _ _ _ (GoError.Is_refl _)⟩
  · rcases hcase with ⟨h1, h2, -⟩ | ⟨h1, h2, -, -⟩
    · exact Or.inl ⟨h1, h2⟩
    · exact Or.inr ⟨h1, h2⟩
  · rw [htrace, List.drop_left]
    intro e he
    cases hl : mg.isLocked <;>
      simp only [hl, if_true, if_false, Bool.false_eq_true, List.append_nil, List.cons_append,
        List.nil_append, List.mem_cons, List.not_mem_nil, or_false] at he <;>
      rcases he with rfl | rfl | rfl | rfl | rfl <;>
      exact ⟨rfl, rfl, rfl, rfl⟩

/-- Witness for C11: the dialect's `Lock` times out on a connection that works otherwise; the
registered migration "A" is not touched and `Start` returns the timeout. -/
theorem Start_lock_rejected_witness :
    (Start (memEnv timeoutBackend) (sampleMigrator [sampleMigration "A"]) true 5
      (freshWorld (logStore []))).2 = some (GoError.errorString "lock timeout") ∧
    (Start (memEnv timeoutBackend) (sampleMigrator [sampleMigration "A"]) true 5
      (freshWorld (logStore []))).1.1.trace =
      [Event.newSession 0, Event.txBegin 0 none,
        Event.lock ⟨0, "oxygen", 5⟩ (some (GoError.errorString "lock timeout")),
        Event.rollback 0 none, Event.close 0] :=
  ⟨(Start_lock_rejected (memEnv timeoutBackend) (sampleMigrator [sampleMigration "A"]) _ 5
      (freshWorld (logStore [])) _ "oxygen" "oxygen" 0 _ _ _
      (GoError.errorString "lock timeout") none rfl rfl rfl rfl rfl rfl).1,
    (Start_lock_rejected (memEnv timeoutBackend) (sampleMigrator [sampleMigration "A"]) _ 5
      (freshWorld (logStore [])) _ "oxygen" "oxygen" 0 _ _ _
      (GoError.errorString "lock timeout") none rfl rfl rfl rfl rfl rfl).2.2.2.2.1⟩

/-- Counterexample to C11 as stated: the dialect's `Lock` times out and the `Rollback` of the
outer transaction fails as well; `Start` returns the rollback error wrapping the timeout, not
the timeout. -/
theorem Start_lock_error_wrapped :
    (Start (lossyEnv timeoutBackend [0]) (sampleMigrator [sampleMigration "A"]) true 5
      (freshWorld (logStore []))).1.1.trace =
      [Event.newSession 0, Event.txBegin 0 none,
        Event.lock ⟨0, "oxygen", 5⟩ (some (GoError.errorString "lock timeout")),
        Event.rollback 0 (some (GoError.errorString "connection lost")), Event.close 0] ∧
    (Start (lossyEnv timeoutBackend [0]) (sampleMigrator [sampleMigration "A"]) true 5
      (freshWorld (logStore []))).2 =
      some (GoError.wrapError
        "failed to roll back transaction due to error: connection lost: lock timeout"
        (GoError.errorString "lock timeout")) ∧
    (Start (lossyEnv timeoutBackend [0]) (sampleMigrator [sampleMigration "A"]) true 5
      (freshWorld (logStore []))).2 ≠ some (GoError.errorString "lock timeout") := by
  decide

theorem acquire_ok {ω : Type} (E : Env ω) (mg mg3 : Migrator ω) (cfg : LockCfg)
    (w w3 : World ω) (h : acquire E mg cfg w = ((w3, mg3), none)) :
    mg.isLocked = false ∧ mg3 = { mg with isLocked := true } ∧ w3.ticks = w.ticks ∧
    w3.db = (E.Lock cfg w.db).1 ∧ w3.trace = w.trace ++ [Event.lock cfg none] := by
  obtain ⟨ms, ids, l, lm, t⟩ := mg
  cases l with
  | true =>
    simp [acquire, casRestoreOnErr, CompareAndSwap] at h
  | false =>
    simp only [acquire, casRestoreOnErr, CompareAndSwap, beq_self_eq_true, if_true,
      dialectLock, World.call] at h
    cases hl : (E.Lock cfg w.db).2 with
    | some err => simp [hl] at h
    | none =>
      simp only [hl, Prod.mk.injEq, and_true] at h
      obtain ⟨h1, h2⟩ := h
      subst h1 h2
      exact ⟨rfl, rfl, rfl, rfl, rfl⟩

theorem release_locked {ω : Type} (E : Env ω) (mg mg5 : Migrator ω) (cfg : LockCfg)
    (w w5 : World ω) (u : Option GoError) (hl : mg.isLocked = true)
    (h : release E mg cfg w = ((w5, mg5), u)) :
    u = (E.Unlock cfg w.db).2 ∧ mg5 = { mg with isLocked := u.isSome } ∧
    w5.ticks = w.ticks ∧ w5.db = (E.Unlock cfg w.db).1 ∧
    w5.trace = w.trace ++ [Event.unlock cfg u] := by
  obtain ⟨ms, ids, l, lm, t⟩ := mg
  simp only at hl
  subst hl
  simp only [release, casRestoreOnErr, CompareAndSwap, beq_self_eq_true, if_true,
    dialectUnlock, World.call] at h
  cases hu : (E.Unlock cfg w.db).2 with
  | some err =>
    simp only [hu, Prod.mk.injEq] at h
    obtain ⟨⟨h1, h2⟩, h3⟩ := h
    subst h1 h2 h3
    exact ⟨rfl, rfl, rfl, rfl, rfl⟩
  | none =>
    simp only [hu, Prod.mk.injEq] at h
    obtain ⟨⟨h1, h2⟩, h3⟩ := h
    subst h1 h2 h3
    exact ⟨rfl, rfl, rfl, rfl, rfl⟩

theorem Start_acquired {ω : Type} (E : Env ω) (mg mg3 mg4 mg5 : Migrator ω) (timeout : Int)
    (w w3 w4 w5 : World ω) (dbName key : String) (s : Nat) (db1 db2 db6 db7 : ω)
    (r u rollErr commitErr : Option GoError)
    (hname : E.GetDBName E.DataSourceName = Except.ok dbName)
    (hkey : E.GenerateAdvisoryLockId dbName = Except.ok key)
    (hsess : E.NewSession w.db = (db1, s))
    (hbegin : E.Begin s db1 = (db2, none))
    (hacq : acquire E mg ⟨s, key, timeout⟩
      ⟨db2, w.trace ++ [Event.newSession s, Event.txBegin s none], w.ticks⟩ = ((w3, mg3), none))
    (hrun : run E mg3 w3 = ((w4, mg4), r))
    (hrel : release E mg4 ⟨s, key, timeout⟩ w4 = ((w5, mg5), u))
    (hroll : E.Rollback s w5.db = (db6, rollErr))
    (hcommit : E.Commit s w5.db = (db7, commitErr)) :
    ∃ evs, w4.trace = w3.trace ++ evs ∧
      (∀ e ∈ evs, e.isLock = false ∧ e.isUnlock = false) ∧
      u = (E.Unlock ⟨s, key, timeout⟩ w4.db).2 ∧
      (Start E mg true timeout w).1.1.trace =
        w.trace ++ ([Event.newSession s, Event.txBegin s none,
          Event.lock ⟨s, key, timeout⟩ none] ++ evs ++
          [Event.unlock ⟨s, key, timeout⟩ u,
            (match r with
              | some _ => Event.rollback s rollErr
              | none => Event.commit s commitErr),
            Event.close s]) ∧
      (Start E mg true timeout w).1.2.isLocked = u.isSome ∧
      (Start E mg true timeout w).2 =
        (match r with
          | some err =>
            some (match rollErr with
              | some rollErr => errorfRollback rollErr err
              | none => err)
          | none => commitErr) := by
  have heq := Start_acquired_eq E mg mg3 mg4 mg5 timeout w w3 w4 w5 dbName key s db1 db2 db6 db7
    r u rollErr commitErr hname hkey hsess hbegin hacq hrun hrel hroll hcommit
  obtain ⟨-, hmg3, -, -, ht3⟩ := acquire_ok E mg mg3 _ _ w3 hacq
  obtain ⟨evs, ht4, hquiet⟩ := run_no_lock E mg3 w3
  have hl4 := run_isLocked E mg3 w3
  rw [hrun] at ht4 hl4
  simp only at ht4 hl4
  have hl4b : mg4.isLocked = true := by rw [hl4, hmg3]
  obtain ⟨hu, hmg5, -, -, ht5⟩ := release_locked E mg4 mg5 _ w4 w5 u hl4b hrel
  refine ⟨evs, ht4, hquiet, hu, ?_, ?_, ?_⟩
  · rw [heq]
    cases r <;> simp [ht5, ht4, ht3]
  · rw [heq]
    cases r <;> simp [hmg5]
  · rw [heq]
    cases r <;> rfl

/-- C12, as the code has it: when `Start` with locking has acquired the lock on session `s`,
the batch `run` follows and makes no `Lock` or `Unlock` call of its own; after it, whether it
returned an error or not, the release is attempted: the flag is locked, so the one `Unlock`
call is made, and it is the only one of the whole `Start`. The result of `Start` does not
depend on the outcome `u` of that call: after a batch error `err` it is `err` itself when the
`Rollback` of the outer transaction succeeds and the rollback error wrapping `err` otherwise,
and after a batch without error it is the outcome of the outer `Commit`. With locking disabled
`Start` is the batch, and no `Lock` or `Unlock` call is made. -/
theorem Start_releases_once {ω : Type} (E : Env ω) (mg mg3 mg4 mg5 : Migrator ω) (timeout : Int)
    (w w3 w4 w5 : World ω) (dbName key : String) (s : Nat) (db1 db2 db6 db7 : ω)
    (r u rollErr commitErr : Option GoError)
    (hname : E.GetDBName E.DataSourceName = Except.ok dbName)
    (hkey : E.GenerateAdvisoryLockId dbName = Except.ok key)
    (hsess : E.NewSession w.db = (db1, s))
    (hbegin : E.Begin s db1 = (db2, none))
    (hacq : acquire E mg ⟨s, key, timeout⟩
      ⟨db2, w.trace ++ [Event.newSession s, Event.txBegin s none], w.ticks⟩ = ((w3, mg3), none))
    (hrun : run E mg3 w3 = ((w4, mg4), r))
    (hrel : release E mg4 ⟨s, key, timeout⟩ w4 = ((w5, mg5), u))
    (hroll : E.Rollback s w5.db = (db6, rollErr))
    (hcommit : E.Commit s w5.db = (db7, commitErr)) :
    (∃ evs, w4.trace = w3.trace ++ evs ∧
      (∀ e ∈ evs, e.isLock = false ∧ e.isUnlock = false) ∧
      (Start E mg true timeout w).1.1.trace =
        w.trace ++ ([Event.newSession s, Event.txBegin s none,
          Event.lock ⟨s, key, timeout⟩ none] ++ evs ++
          [Event.unlock ⟨s, key, timeout⟩ u,
            (match r with
              | some _ => Event.rollback s rollErr
              | none => Event.commit s commitErr),
            Event.close s])) ∧
    u = (E.Unlock ⟨s, key, timeout⟩ w4.db).2 ∧
    ((Start E mg true timeout w).1.1.trace.drop w.trace.length).filter Event.isUnlock =
      [Event.unlock ⟨s, key, timeout⟩ u] ∧
    (Start E mg true timeout w).2 =
      (match r with
        | some err =>
          some (match rollErr with
            | some rollErr => errorfRollback rollErr err
            | none => err)
        | none => commitErr) ∧
    Start E mg false timeout w = run E mg w ∧
    ∀ e ∈ (Start E mg false timeout w).1.1.trace.drop w.trace.length,
      e.isLock = false ∧ e.isUnlock = false := by
  obtain ⟨evs, ht4, hquiet, hu, htrace, -, hres⟩ :=
    Start_acquired E mg mg3 mg4 mg5 timeout w w3 w4 w5 dbName key s db1 db2 db6 db7
      r u rollErr commitErr hname hkey hsess hbegin hacq hrun hrel hroll hcommit
  refine ⟨⟨evs, ht4, hquiet, htrace⟩, hu, ?_, hres, Start_disabled E mg timeout w, ?_⟩
  · have hnil : evs.filter Event.isUnlock = [] := by
      rw [List.filter_eq_nil_iff]
      intro e he
      simp [(hquiet e he).2]
    rw [htrace, List.drop_left]
    simp only [List.filter_append, hnil, List.append_nil]
    cases r <;> simp [List.filter_cons, Event.isUnlock]
  · rw [Start_disabled]
    obtain ⟨evs2, h1, h2⟩ := run_no_lock E mg w
    rw [h1, List.drop_left]
    exact h2

/-- Witness for C12: the statement of "A" fails and the dialect's `Unlock` fails too; the one
`Unlock` call is made after the batch and `Start` returns the batch's error. -/
theorem Start_releases_once_witness :
    ((Start (memEnv (stuckBackend ["A"])) (sampleMigrator [sampleMigration "A"]) true 5
      (freshWorld (logStore []))).1.1.trace.drop
        (freshWorld (logStore [])).trace.length).filter Event.isUnlock =
      [Event.unlock ⟨0, "oxygen", 5⟩ (some (GoError.errorString "unlock failed"))] ∧
    (Start (memEnv (stuckBackend ["A"])) (sampleMigrator [sampleMigration "A"]) true 5
      (freshWorld (logStore []))).2 =
      some (errorfWrap "migration failed (id = A)" (GoError.errorString "cannot run: A")) :=
  ⟨(Start_releases_once (memEnv (stuckBackend ["A"])) (sampleMigrator [sampleMigration "A"])
      _ _ _ 5 (freshWorld (logStore [])) _ _ _ "oxygen" "oxygen" 0 _ _ _ _
      (some (errorfWrap "migration failed (id = A)" (GoError.errorString "cannot run: A")))
      (some (GoError.errorString "unlock failed")) none none
      rfl rfl rfl rfl rfl rfl rfl rfl rfl).2.2.1,
    (Start_releases_once (memEnv (stuckBackend ["A"])) (sampleMigrator [sampleMigration "A"])
      _ _ _ 5 (freshWorld (logStore [])) _ _ _ "oxygen" "oxygen" 0 _ _ _ _
      (some (errorfWrap "migration failed (id = A)" (GoError.errorString "cannot run: A")))
      (some (GoError.errorString "unlock failed")) none none
      rfl rfl rfl rfl rfl rfl rfl rfl rfl).2.2.2.1⟩

/-- Counterexample to C12 as stated: the lock is acquired, the batch fails at "A" with the
error "migration failed (id = A): cannot run: A", the lock is released, and the `Rollback`
of the outer transaction fails; `Start` returns the rollback error that wraps the batch's
error, not the batch's error. -/
theorem Start_batch_error_wrapped :
    (Start (lossyEnv (sampleBackend "migration_log" [] ["A"]) [0])
      (sampleMigrator [sampleMigration "A"]) true 5 (freshWorld (logStore []))).1.1.trace =
      [Event.newSession 0, Event.txBegin 0 none, Event.lock ⟨0, "oxygen", 5⟩ none,
        Event.isTableExist "migration_log" (Except.ok true),
        Event.find "migration_log" (Except.ok []),
        Event.newSession 1, Event.txBegin 1 none,
        Event.execSQL 1 "A" "A" (some (GoError.errorString "cannot run: A")),
        Event.insert 1 "migration_log"
          { sampleRow 0 "A" 0 with Success := false, Error := "cannot run: A" } none,
        Event.rollback 1 none, Event.close 1,
        Event.unlock ⟨0, "oxygen", 5⟩ none,
        Event.rollback 0 (some (GoError.errorString "connection lost")), Event.close 0] ∧
    (run (lossyEnv (sampleBackend "migration_log" [] ["A"]) [0])
      { sampleMigrator [sampleMigration "A"] with isLocked := true }
      ⟨⟨logStore [], [], 1⟩,
        [Event.newSession 0, Event.txBegin 0 none, Event.lock ⟨0, "oxygen", 5⟩ none], 0⟩).2 =
      some (errorfWrap "migration failed (id = A)" (GoError.errorString "cannot run: A")) ∧
    (Start (lossyEnv (sampleBackend "migration_log" [] ["A"]) [0])
      (sampleMigrator [sampleMigration "A"]) true 5 (freshWorld (logStore []))).2 =
      some (GoError.wrapError
        ("failed to roll back transaction due to error: connection lost: " ++
          "migration failed (id = A): cannot run: A")
        (errorfWrap "migration failed (id = A)" (GoError.errorString "cannot run: A"))) ∧
    (Start (lossyEnv (sampleBackend "migration_log" [] ["A"]) [0])
      (sampleMigrator [sampleMigration "A"]) true 5 (freshWorld (logStore []))).2 ≠
      some (errorfWrap "migration failed (id = A)" (GoError.errorString "cannot run: A")) := by
  decide

theorem Event.unlockFailed_of_not_unlock (e : Event) (h : e.isUnlock = false) :
    e.unlockFailed = false := by
  cases e <;> simp_all [Event.isUnlock, Event.unlockFailed]

theorem Start_isLocked {ω : Type} (E : Env ω) (mg : Migrator ω) (timeout : Int) (w : World ω)
    (h : mg.isLocked = false) :
    (Start E mg true timeout w).1.2.isLocked =
      ((Start E mg true timeout w).1.1.trace.drop w.trace.length).any Event.unlockFailed := by
  cases hname : E.GetDBName E.DataSourceName with
  | error err => simp [Start, hname, h]
  | ok dbName =>
    cases hkey : E.GenerateAdvisoryLockId dbName with
    | error err => simp [Start, hname, hkey, h]
    | ok key =>
      rcases hsess : E.NewSession w.db with ⟨db1, s⟩
      rcases hbegin : E.Begin s db1 with ⟨db2, beginErr⟩
      cases beginErr with
      | some err =>
        simp [Start, hname, hkey, InTransaction, World.call, hsess, hbegin, h,
          Event.unlockFailed]
      | none =>
        rcases hacq : acquire E mg ⟨s, key, timeout⟩
          ⟨db2, w.trace ++ [Event.newSession s, Event.txBegin s none], w.ticks⟩
          with ⟨⟨w3, mg3⟩, lockRes⟩
        cases lockRes with
        | some lockErr =>
          rcases hroll : E.Rollback s w3.db with ⟨db4, rollErr⟩
          have heq := Start_rejected_eq E mg mg3 timeout w w3 dbName key s db1 db2 db4 lockErr
            rollErr hname hkey hsess hbegin hacq hroll
          obtain ⟨hmg, -, hcase⟩ := acquire_failed E mg mg3 _ _ w3 lockErr hacq
          rw [heq]
          rcases hcase with ⟨h1, -, -⟩ | ⟨-, -, -, h4⟩
          · rw [h] at h1; cases h1
          · simp [hmg, h, h4, Event.unlockFailed]
        | none =>
          rcases hrun : run E mg3 w3 with ⟨⟨w4, mg4⟩, r⟩
          rcases hrel : release E mg4 ⟨s, key, timeout⟩ w4 with ⟨⟨w5, mg5⟩, u⟩
          rcases hroll : E.Rollback s w5.db with ⟨db6, rollErr⟩
          rcases hcommit : E.Commit s w5.db with ⟨db7, commitErr⟩
          obtain ⟨evs, -, hquiet, -, htrace, hflag, -⟩ :=
            Start_acquired E mg mg3 mg4 mg5 timeout w w3 w4 w5 dbName key s db1 db2 db6 db7
              r u rollErr commitErr hname hkey hsess hbegin hacq hrun hrel hroll hcommit
          have hnone : evs.any Event.unlockFailed = false := by
            rw [List.any_eq_false]
            intro e he
            simp [Event.unlockFailed_of_not_unlock e (hquiet e he).2]
          rw [hflag, htrace, List.drop_left]
          simp only [List.any_append, hnone, Bool.or_false]
          cases r <;> cases u <;> simp [Event.unlockFailed]

/-- C17, as the code has it: when the flag is unlocked at the call of `Start` with locking, the
flag at the return is locked exactly when the dialect's `Unlock` was called and failed
(`casRestoreOnErr` then stores the old value back); for every outcome of `GetDBName`, of the
lock id, of `Begin`, of `Lock` and of the batch the flag is unlocked again, and so it is after
an `Unlock` without error. With the flag unlocked a later acquire reaches the dialect's `Lock`;
with the flag left locked it is rejected with `ErrMigratorIsLocked`. -/
theorem Start_flag_restored {ω : Type} (E : Env ω) (mg : Migrator ω) (timeout : Int)
    (w : World ω) (h : mg.isLocked = false) :
    (Start E mg true timeout w).1.2.isLocked =
      ((Start E mg true timeout w).1.1.trace.drop w.trace.length).any Event.unlockFailed ∧
    ((Start E mg true timeout w).1.2.isLocked = false →
      ∀ cfg w2, (acquire E (Start E mg true timeout w).1.2 cfg w2).2 = (E.Lock cfg w2.db).2) ∧
    ((Start E mg true timeout w).1.2.isLocked = true →
      ∀ cfg w2, acquire E (Start E mg true timeout w).1.2 cfg w2 =
        ((w2, (Start E mg true timeout w).1.2), some ErrMigratorIsLocked)) := by
  refine ⟨Start_isLocked E mg timeout w h, ?_, ?_⟩
  · intro hf cfg w2
    generalize (Start E mg true timeout w).1.2 = mg2 at hf
    obtain ⟨ms, ids, l, lm, t⟩ := mg2
    simp only at hf
    subst hf
    simp only [acquire, casRestoreOnErr, CompareAndSwap, beq_self_eq_true, if_true, dialectLock,
      World.call]
    cases (E.Lock cfg w2.db).2 <;> rfl
  · intro hf cfg w2
    generalize (Start E mg true timeout w).1.2 = mg2 at hf
    obtain ⟨ms, ids, l, lm, t⟩ := mg2
    simp only at hf
    subst hf
    simp [acquire, casRestoreOnErr, CompareAndSwap]

/-- Witness for C17: on the engine where every call succeeds the flag is unlocked before and
after `Start`. -/
theorem Start_flag_restored_witness :
    (sampleMigrator [sampleMigration "A"]).isLocked = false ∧
    (Start sampleEnv (sampleMigrator [sampleMigration "A"]) true 5
      (freshWorld (logStore []))).1.2.isLocked = false :=
  ⟨rfl, (Start_flag_restored sampleEnv (sampleMigrator [sampleMigration "A"]) 5
    (freshWorld (logStore [])) rfl).1.trans (by decide)⟩

/-- Counterexample to C17 as stated: the flag is unlocked, the batch succeeds and the dialect's
`Unlock` fails; `Start` returns without error with the flag locked, and the next `Start` of
the same migrator is rejected with "migrator is locked". -/
theorem Start_leaves_flag_locked :
    (sampleMigrator [sampleMigration "A"]).isLocked = false ∧
    (Start (memEnv (stuckBackend [])) (sampleMigrator [sampleMigration "A"]) true 5
      (freshWorld (logStore []))).2 = none ∧
    (Start (memEnv (stuckBackend [])) (sampleMigrator [sampleMigration "A"]) true 5
      (freshWorld (logStore []))).1.2.isLocked = true ∧
    (Start (memEnv (stuckBackend []))
      (Start (memEnv (stuckBackend [])) (sampleMigrator [sampleMigration "A"]) true 5
        (freshWorld (logStore []))).1.2 true 5
      (Start (memEnv (stuckBackend [])) (sampleMigrator [sampleMigration "A"]) true 5
        (freshWorld (logStore []))).1.1).2 = some ErrMigratorIsLocked := by
  decide

/-! ## Forgetting a log entry -/

theorem GetMigrationLog_reload {ω : Type} (E : Env ω) (mg1 mg2 : Migrator ω) (w : World ω)
    (rows : List MigrationLog)
    (hm : mg1.migrations = mg2.migrations) (hi : mg1.migrationIds = mg2.migrationIds)
    (hl : mg1.isLocked = mg2.isLocked) (ht : mg1.tableName = mg2.tableName)
    (hexists : (E.IsTableExist mg2.tableName w.db).2 = Except.ok true)
    (hfind : (E.Find mg2.tableName (E.IsTableExist mg2.tableName w.db).1).2 = Except.ok rows) :
    GetMigrationLog E mg1 w = GetMigrationLog E mg2 w ∧
    ∀ id, (GetMigrationLog E mg2 w).1.2.logMap.contains id =
      rows.any (fun r => r.Success && decide (r.MigrationID = id)) := by
  obtain ⟨ms1, ids1, l1, lm1, t1⟩ := mg1
  obtain ⟨ms2, ids2, l2, lm2, t2⟩ := mg2
  simp only at hm hi hl ht hexists hfind
  subst hm hi hl ht
  unfold GetMigrationLog
  simp only [World.call, hexists, hfind]
  refine ⟨trivial, fun id => ?_⟩
  rw [logMap_fold_contains]
  simp [GoMap.contains, GoMap.get, GoMap.empty]

/-- C16, as the code has it: `RemoveMigrationLogs` changes the in-memory log only, and `run`
begins by loading the log again. When the log table exists and the query returns `rows`, the
run after `RemoveMigrationLogs` is the run without it; so, when no code migration of the
registry changes the in-memory log during that run, every id with a success row in `rows` is
skipped again: no probe, statement or code body is issued for it. What the removal changes
is the decision of the loop on the in-memory log as it stands: the loop over the registry on
the migrator as `RemoveMigrationLogs` leaves it does not skip a migration with a removed id
but runs it in its transaction. -/
theorem run_reloads_forgotten {ω : Type} (E : Env ω) (mg : Migrator ω) (ids : List String)
    (w : World ω) (rows : List MigrationLog)
    (hexists : (E.IsTableExist mg.tableName w.db).2 = Except.ok true)
    (hfind : (E.Find mg.tableName (E.IsTableExist mg.tableName w.db).1).2 = Except.ok rows) :
    run E (RemoveMigrationLogs mg ids) w = run E mg w ∧
    ((∀ m ∈ mg.migrations, m.keepsLog) →
      ∀ id, (∃ r ∈ rows, r.MigrationID = id ∧ r.Success = true) →
        ∀ e ∈ (run E (RemoveMigrationLogs mg ids) w).1.1.trace.drop w.trace.length,
          e.migrationId ≠ some id) ∧
    (∀ (m : Migration ω) (rest : List (Migration ω)) (st : RunState ω),
      st.mg = RemoveMigrationLogs mg ids → m.Id ∈ ids →
      runLoop E (m :: rest) st =
        match runMigration E m st with
        | (st, some err) =>
          (st, some (errorfWrap ("migration failed (id = " ++ m.Id ++ ")") err))
        | (st, none) => runLoop E rest st) := by
  obtain ⟨hget, hm, hi, hl, ht⟩ := RemoveMigrationLogs_fold ids mg
  obtain ⟨hlog, hcont⟩ := GetMigrationLog_reload E (RemoveMigrationLogs mg ids) mg w rows
    hm hi hl ht hexists hfind
  have hrun : run E (RemoveMigrationLogs mg ids) w = run E mg w := by
    unfold run
    rw [hlog]
  refine ⟨hrun, fun hk id hid e he hid2 => ?_, fun m rest st hst hmem => ?_⟩
  · rw [hrun] at he
    obtain ⟨evs, ht2, h1, -, -⟩ := run_ids E mg w hk
    rw [ht2, List.drop_left] at he
    have hc := h1 e he id hid2
    rw [hcont] at hc
    have hany : rows.any (fun r => r.Success && decide (r.MigrationID = id)) = true := by
      rw [List.any_eq_true]
      obtain ⟨r, hr, h3, h4⟩ := hid
      exact ⟨r, hr, by simp [h3, h4]⟩
    rw [hany] at hc
    cases hc
  · have hc : st.mg.logMap.contains m.Id = false := by
      rw [hst]
      simp [GoMap.contains, hget, hmem]
    simp only [runLoop, hc, Bool.false_eq_true, if_false]


/-- Witness for C16: with a success row for "A" in the log table, the run after removing "A"
from the in-memory log is the run without the removal. -/
theorem run_reloads_forgotten_witness :
    run sampleEnv
      (RemoveMigrationLogs (run sampleEnv (sampleMigrator [sampleMigration "A"])
        (freshWorld (logStore [sampleRow 1 "A" 0]))).1.2 ["A"])
      (freshWorld (logStore [sampleRow 1 "A" 0])) =
    run sampleEnv
      (run sampleEnv (sampleMigrator [sampleMigration "A"])
        (freshWorld (logStore [sampleRow 1 "A" 0]))).1.2
      (freshWorld (logStore [sampleRow 1 "A" 0])) :=
  (run_reloads_forgotten sampleEnv
    (run sampleEnv (sampleMigrator [sampleMigration "A"])
      (freshWorld (logStore [sampleRow 1 "A" 0]))).1.2 ["A"]
    (freshWorld (logStore [sampleRow 1 "A" 0])) [sampleRow 1 "A" 0] rfl rfl).1

/-- Counterexample to C16 as stated: the log table holds a success row for "A"; a first run
loads the log and skips "A"; `RemoveMigrationLogs` then removes "A" from the in-memory log;
the next run of the same migrator loads the log again, which puts "A" back, and skips "A": it
makes the two loading calls and `Sync2` and no call for "A". -/
theorem run_skips_forgotten :
    (run sampleEnv (sampleMigrator [sampleMigration "A"])
      (freshWorld (logStore [sampleRow 1 "A" 0]))).1.2.logMap.contains "A" = true ∧
    (RemoveMigrationLogs (run sampleEnv (sampleMigrator [sampleMigration "A"])
      (freshWorld (logStore [sampleRow 1 "A" 0]))).1.2 ["A"]).logMap.contains "A" = false ∧
    (run sampleEnv
      (RemoveMigrationLogs (run sampleEnv (sampleMigrator [sampleMigration "A"])
        (freshWorld (logStore [sampleRow 1 "A" 0]))).1.2 ["A"])
      (run sampleEnv (sampleMigrator [sampleMigration "A"])
        (freshWorld (logStore [sampleRow 1 "A" 0]))).1.1).1.1.trace.drop 3 =
      [Event.isTableExist "migration_log" (Except.ok true),
        Event.find "migration_log" (Except.ok [sampleRow 1 "A" 0]),
        Event.sync2 none] ∧
    (run sampleEnv
      (RemoveMigrationLogs (run sampleEnv (sampleMigrator [sampleMigration "A"])
        (freshWorld (logStore [sampleRow 1 "A" 0]))).1.2 ["A"])
      (run sampleEnv (sampleMigrator [sampleMigration "A"])
        (freshWorld (logStore [sampleRow 1 "A" 0]))).1.1).2 = none ∧
    (run sampleEnv
      (RemoveMigrationLogs (run sampleEnv (sampleMigrator [sampleMigration "A"])
        (freshWorld (logStore [sampleRow 1 "A" 0]))).1.2 ["A"])
      (run sampleEnv (sampleMigrator [sampleMigration "A"])
        (freshWorld (logStore [sampleRow 1 "A" 0]))).1.1).1.2.logMap.contains "A" = true := by
  decide

/-- A code migration handed the migrator can undo the loading for the rest of the run: the log
table holds a success row for "A", the code migration "F" registered before "A" calls
`RemoveMigrationLogs("A")`, and the loop, which reads the in-memory log when it gets to "A",
executes "A" again. -/
theorem run_forgotten_in_batch :
    (run sampleEnv (sampleMigrator [sampleForgetter "F" "A", sampleMigration "A"])
      (freshWorld (logStore [sampleRow 1 "A" 0]))).1.1.trace =
      [Event.isTableExist "migration_log" (Except.ok true),
        Event.find "migration_log" (Except.ok [sampleRow 1 "A" 0]),
        Event.newSession 0, Event.txBegin 0 none, Event.execCode 0 "F" none,
        Event.insert 0 "migration_log" (sampleRow 0 "F" 0) none,
        Event.commit 0 none, Event.close 0,
        Event.newSession 1, Event.txBegin 1 none, Event.execSQL 1 "A" "A" none,
        Event.insert 1 "migration_log" (sampleRow 0 "A" 1) none,
        Event.commit 1 none, Event.close 1, Event.sync2 none] := by
  decide

end Oxygen
